import Mathlib

/-!
# CPD-guided search (src/search/cpd_search.h)

A shallow embedding of the template class `warthog::cpd_search<H, E, Q>`.
The heuristic `H` and the expansion policy `E` are template parameters of the
class and are parameters of the model. Costs (`warthog::cost_t`) are modelled
as exact integers, node ids (`warthog::sn_id_t`) as natural numbers, and the
32-bit counters of `warthog::solution` as natural numbers that wrap at 2^32.
The node pool of the expansion policy (`expander_->generate(id)`) is a map
from ids to search records; records survive from one query to the next and
are recognised as stale by their search number.
-/

namespace warthog

abbrev sn_id_t := Nat

/-- The type warthog::cost_t is double. A cost is an integer in the model
and a sum of costs is exact, as it is for doubles below 2^53 in magnitude;
the sum of the rebuild loop, which meets COST_MAX, is rounded as a sum of
doubles (`cost_add`). -/
abbrev cost_t := Int

/-- Modelled from the spec: constants.h is absent; SN_ID_MAX is the id that
stands for "no node" (the largest 64-bit value). -/
def SN_ID_MAX : sn_id_t := 18446744073709551615

/-- Modelled from the spec: constants.h is absent; COST_MAX is the cost that
stands for "unknown / infinite" (the largest finite double, an integer). -/
def COST_MAX : cost_t :=
  179769313486231570814527423731704356798070567525844996598917476803157260780028538760589558632766878171540458953514382464234321326889464182768467546703537516986049910576551282076245490090389328944075868508455133942304583236903222948165808559332123348274797826204144723168738177180919299881250404026184124858368

/-- Modelled from the spec: constants.h is absent; INF is the infinite cost a
fresh solution carries. -/
def INF : cost_t := 4294967295

def UINT32_MAX : Nat := 4294967295

/-- Modelled from the spec: search_node.h is absent. A search record holds
g, f, ub, the parent id, the search epoch and the expanded flag; the id of a
record is its index in the node pool. -/
structure search_node where
  parent_id_ : sn_id_t
  g_ : cost_t
  f_ : cost_t
  ub_ : cost_t
  status_ : Bool
  search_number_ : Nat
deriving DecidableEq

namespace search_node

/-- Modelled from the spec: search_node::init starts a record for a new
search epoch with the given parent, g, f and ub, not yet expanded. -/
def init (_n : search_node) (search_number : Nat) (parent_id : sn_id_t)
    (g f ub : cost_t) : search_node :=
  { parent_id_ := parent_id, g_ := g, f_ := f, ub_ := ub,
    status_ := false, search_number_ := search_number }

/-- Modelled from the spec: search_node::relax records a better g and the
parent it was reached from; f moves by the same amount as g. -/
def relax (n : search_node) (g : cost_t) (parent_id : sn_id_t) : search_node :=
  { n with f_ := (n.f_ - n.g_) + g, g_ := g, parent_id_ := parent_id }

/-- Modelled from the spec: search_node::set_g overwrites g only. -/
def set_g (n : search_node) (g : cost_t) : search_node :=
  { n with g_ := g }

/-- Modelled from the spec: search_node::set_ub overwrites ub only. -/
def set_ub (n : search_node) (ub : cost_t) : search_node :=
  { n with ub_ := ub }

/-- Modelled from the spec: search_node::set_expanded overwrites the
expanded flag only. -/
def set_expanded (n : search_node) (b : Bool) : search_node :=
  { n with status_ := b }

end search_node

/-- The fields of warthog::problem_instance that the search reads;
`verbose_` is the flag cpd_search hands to every log call
(`info(pi_.verbose_, ...)`), unset unless the query asks for it. -/
structure problem_instance where
  start_id_ : sn_id_t
  target_id_ : sn_id_t
  instance_id_ : Nat
  verbose_ : Bool := false
deriving DecidableEq

/-- The class warthog::solution (solution.h): metrics and the path. The
counters are uint32_t and `path_` is a vector of uint32_t: what is counted
or pushed is taken modulo 2^32 where it is counted or pushed. -/
structure solution where
  sum_of_edge_costs_ : cost_t
  nodes_expanded_ : Nat
  nodes_inserted_ : Nat
  nodes_updated_ : Nat
  nodes_touched_ : Nat
  path_ : List sn_id_t
deriving DecidableEq

/-- Modelled from the spec: solution::reset is absent from solution.h; it
restores the state the constructor gives (infinite cost, zero counters, empty
path). -/
def solution.reset (_sol : solution) : solution :=
  { sum_of_edge_costs_ := INF, nodes_expanded_ := 0, nodes_inserted_ := 0,
    nodes_updated_ := 0, nodes_touched_ := 0, path_ := [] }

/-- The template parameter H: `h` yields the lower bound and the upper bound
for a node and a target, `next` the next node of the concrete path. -/
structure heuristic where
  h : sn_id_t → sn_id_t → cost_t × cost_t
  next : sn_id_t → sn_id_t → sn_id_t

/-- The template parameter E: `succ` lists what expand/first/next yield for a
node (successor id and edge cost, in order); the two generate functions yield
the internal id of the start and target node, or nothing for an invalid
location; `is_target` is the goal test. -/
structure expansion_policy where
  succ : sn_id_t → List (sn_id_t × cost_t)
  generate_start_node : problem_instance → Option sn_id_t
  generate_target_node : problem_instance → Option sn_id_t
  is_target : sn_id_t → problem_instance → Bool

/-- The data members of cpd_search that a query reads: the heuristic, the
expander and the three cutoffs. -/
structure cpd_search where
  heuristic_ : heuristic
  expander_ : expansion_policy
  cost_cutoff_ : cost_t
  exp_cutoff_ : Nat
  time_cutoff_ : Int

/-- The constructor of cpd_search: no cutoff is set. -/
def cpd_search.new (H : heuristic) (E : expansion_policy) : cpd_search :=
  { heuristic_ := H, expander_ := E, cost_cutoff_ := COST_MAX,
    exp_cutoff_ := UINT32_MAX, time_cutoff_ := COST_MAX }

def cpd_search.set_cost_cutoff (S : cpd_search) (cutoff : cost_t) : cpd_search :=
  { S with cost_cutoff_ := cutoff }

def cpd_search.set_max_expansions_cutoff (S : cpd_search) (cutoff : Nat) :
    cpd_search :=
  { S with exp_cutoff_ := cutoff % 2 ^ 32 }

/-- The node pool: the record `expander_->generate(id)` points to. -/
abbrev node_pool := sn_id_t → search_node

def node_pool.set (nodes : node_pool) (id : sn_id_t) (n : search_node) :
    node_pool :=
  fun i => if i = id then n else nodes i

/-- Modelled from the spec: pqueue.h is absent. The open list is ordered by
f: pop removes an entry of least f, the earliest pushed among equals. -/
def pqueue_min_pop (nodes : node_pool) :
    List sn_id_t → Option (sn_id_t × List sn_id_t)
  | [] => none
  | x :: xs =>
    let best := xs.foldl
      (fun b y => if (nodes y).f_ < (nodes b).f_ then y else b) x
    some (best, (x :: xs).erase best)

/-- The magnitude from which a double is an infinity: 2^1024. -/
def DOUBLE_OVERFLOW : Nat :=
  179769313486231590772930519078902473361797697894230657273430081157732675805500963132708477322407536021120113879871393357658789768814416622492847430639474124377767893424865485276302219601246094119453082952085005768838150682342462881473913110540827237163350510684586298239947245938479716304835356329624224137216

/-- The spacing of the doubles around the magnitude `m`: the least power of
two `u`, from `u` on and among `fuel` of them, with m < 2^53 * u; nothing
when there is none. -/
def double_ulp (m : Nat) : Nat → Nat → Option Nat
  | 0, _ => none
  | fuel + 1, u =>
    if m < 9007199254740992 * u then some u else double_ulp m fuel (2 * u)

/-- The double nearest to the integer `z` (53 significant bits, round to
nearest, ties to even). An integer below 2^53 in magnitude is kept; a
magnitude that rounds to 2^1024 or more gives an infinity, written as
2^1024 with the sign of `z`. -/
def round_double (z : Int) : cost_t :=
  match double_ulp z.natAbs 972 1 with
  | none => Int.sign z * (DOUBLE_OVERFLOW : Int)
  | some u =>
    let q := z.natAbs / u
    let r := z.natAbs % u
    let q1 := if u < 2 * r ∨ (2 * r = u ∧ q % 2 = 1) then q + 1 else q
    if DOUBLE_OVERFLOW ≤ q1 * u then Int.sign z * (DOUBLE_OVERFLOW : Int)
    else Int.sign z * ((q1 * u : Nat) : Int)

/-- The sum `a + b` of two costs as cpd_search computes it, in double
arithmetic: the exact sum rounded to a double, so that COST_MAX + 5 is
COST_MAX. An infinite operand is the result; the sum of opposite
infinities, which is not a number, is not modelled. -/
def cost_add (a b : cost_t) : cost_t :=
  if DOUBLE_OVERFLOW ≤ a.natAbs then a
  else if DOUBLE_OVERFLOW ≤ b.natAbs then b
  else round_double (a + b)

/-- The function cpd_search::get_cost_: the cost of the first edge from
`current` to `nid` among the successors, COST_MAX when there is none. -/
def get_cost_ (E : expansion_policy) (current nid : sn_id_t) : cost_t :=
  match (E.succ current).find? (fun e => e.1 == nid) with
  | some e => e.2
  | none => COST_MAX

/-- The function cpd_search::should_prune_ (the stage string only feeds the
log). -/
def should_prune_ (incumbent : Option search_node) (n : search_node) : Bool :=
  match incumbent with
  | none => false
  | some inc =>
    let prune := false
    let prune := if n.f_ ≥ inc.f_ then true else prune
    let prune := if n.ub_ < COST_MAX ∧ n.ub_ ≥ inc.ub_ then true else prune
    prune

/-- The function cpd_search::early_stop_; `elapsed` is what the timer reads
after `mytimer->stop()`. -/
def early_stop_ (S : cpd_search) (current : search_node) (sol : solution)
    (elapsed : Int) : Bool :=
  let stop := false
  let stop := if current.f_ > S.cost_cutoff_ then true else stop
  let stop := if sol.nodes_expanded_ ≥ S.exp_cutoff_ then true else stop
  let stop := if elapsed > S.time_cutoff_ then true else stop
  let stop := if current.f_ = current.ub_ then true else stop
  stop

/-- What the expansion loop of cpd_search::search carries from one
iteration to the next. -/
structure search_state where
  nodes : node_pool
  open_ : List sn_id_t
  incumbent : Option sn_id_t
  sol : solution

/-- The body of the first successor loop of cpd_search::search (lines
436-500) for one successor `e` of `cur`: generate the record if it is new in
this search, then update the incumbent. -/
def generate_step (S : cpd_search) (pi : problem_instance) (cur : sn_id_t)
    (st : search_state) (e : sn_id_t × cost_t) : search_state :=
  let n := e.1
  let current := st.nodes cur
  let gval := current.g_ + e.2
  let sol := { st.sol with nodes_touched_ := (st.sol.nodes_touched_ + 1) % 2 ^ 32 }
  let nodes :=
    if (st.nodes n).search_number_ ≠ current.search_number_ then
      let hu := S.heuristic_.h n pi.target_id_
      let ub := if hu.2 < COST_MAX then hu.2 + gval else hu.2
      st.nodes.set n
        ((st.nodes n).init current.search_number_ cur COST_MAX (gval + hu.1) ub)
    else st.nodes
  if S.expander_.is_target n pi then
    let nodes :=
      if (nodes n).g_ = COST_MAX then nodes.set n ((nodes n).set_g gval)
      else if gval < (nodes n).g_ then nodes.set n ((nodes n).relax gval cur)
      else nodes
    let nodes := nodes.set n ((nodes n).set_ub (nodes n).g_)
    { st with nodes := nodes, incumbent := some n, sol := sol }
  else
    match st.incumbent with
    | none =>
      if (nodes n).ub_ < COST_MAX then
        { st with nodes := nodes, incumbent := some n, sol := sol }
      else { st with nodes := nodes, sol := sol }
    | some inc =>
      if (nodes n).ub_ < (nodes inc).ub_ then
        { st with nodes := nodes, incumbent := some n, sol := sol }
      else { st with nodes := nodes, sol := sol }

/-- The body of the second successor loop of cpd_search::search (lines
503-545) for one successor `e` of `cur`: prune it, or lower its g and put it
on the open list. -/
def relax_step (cur : sn_id_t) (st : search_state) (e : sn_id_t × cost_t) :
    search_state :=
  let n := e.1
  let gval := (st.nodes cur).g_ + e.2
  if should_prune_ (st.incumbent.map st.nodes) (st.nodes n) then st
  else if gval < (st.nodes n).g_ then
    let nodes :=
      if (st.nodes n).g_ < COST_MAX then
        st.nodes.set n ((st.nodes n).relax gval cur)
      else st.nodes.set n ((st.nodes n).set_g gval)
    if st.open_.contains n then
      { st with nodes := nodes,
                sol := { st.sol with
                  nodes_updated_ := (st.sol.nodes_updated_ + 1) % 2 ^ 32 } }
    else
      { st with nodes := nodes, open_ := st.open_ ++ [n],
                sol := { st.sol with
                  nodes_inserted_ := (st.sol.nodes_inserted_ + 1) % 2 ^ 32 } }
  else st

/-- How one pass through the body of `while(open_->size())` ends. -/
inductive loop_exit where
  | open_empty : search_state → loop_exit
  | early_stop : search_state → loop_exit
  | again : search_state → loop_exit

/-- The state right after `current = open_->pop()` (lines 405-409): the
popped node is marked expanded and counted. -/
def popped (st : search_state) (cur : sn_id_t) (rest : List sn_id_t) :
    search_state :=
  { nodes := st.nodes.set cur ((st.nodes cur).set_expanded true),
    open_ := rest, incumbent := st.incumbent,
    sol := { st.sol with
      nodes_expanded_ := (st.sol.nodes_expanded_ + 1) % 2 ^ 32 } }

/-- One pass through the expansion loop of cpd_search::search (lines
403-546); `elapsed` is the timer reading of this pass. -/
def expand_once (S : cpd_search) (pi : problem_instance) (elapsed : Int)
    (st : search_state) : loop_exit :=
  match pqueue_min_pop st.nodes st.open_ with
  | none => loop_exit.open_empty st
  | some (cur, rest) =>
    let st1 := popped st cur rest
    if early_stop_ S (st1.nodes cur) st1.sol elapsed then loop_exit.early_stop st1
    else if should_prune_ (st1.incumbent.map st1.nodes) (st1.nodes cur) then
      loop_exit.again st1
    else
      let succs := S.expander_.succ cur
      let st2 := succs.foldl (generate_step S pi cur) st1
      let st3 := succs.foldl (relax_step cur) st2
      loop_exit.again st3

/-- The expansion loop of cpd_search::search; `timer k` is the timer reading
in pass `k`; the loop yields nothing when `fuel` passes do not end it. -/
def expand_loop (S : cpd_search) (pi : problem_instance) (timer : Nat → Int) :
    Nat → Nat → search_state → Option search_state
  | 0, _, _ => none
  | fuel + 1, k, st =>
    match expand_once S pi (timer k) st with
    | loop_exit.open_empty st1 => some st1
    | loop_exit.early_stop st1 => some st1
    | loop_exit.again st1 => expand_loop S pi timer fuel (k + 1) st1

/-- The last loop of cpd_search::search (lines 563-581): follow the
heuristic from the incumbent to the target, relaxing each node met. The
incumbent may still carry g = COST_MAX here, so the sum of line 578 is taken
in double arithmetic (`cost_add`). -/
def rebuild (S : cpd_search) (pi : problem_instance) :
    Nat → node_pool → Option sn_id_t → Option (node_pool × Option sn_id_t)
  | 0, _, _ => none
  | _ + 1, nodes, none => some (nodes, none)
  | fuel + 1, nodes, some inc =>
    if S.expander_.is_target inc pi then some (nodes, some inc)
    else
      let pid := inc
      let nid := S.heuristic_.next pid pi.target_id_
      if nid = SN_ID_MAX then rebuild S pi fuel nodes none
      else
        let cost_to_n := get_cost_ S.expander_ inc nid
        let nodes := nodes.set nid
          ((nodes nid).relax (cost_add (nodes inc).g_ cost_to_n) pid)
        rebuild S pi fuel nodes (some nid)

/-- The chain that heuristic next() gives from node `n`: its k-th node. -/
def next_chain (S : cpd_search) (pi : problem_instance) (n : sn_id_t) :
    Nat → sn_id_t
  | 0 => n
  | k + 1 => S.heuristic_.next (next_chain S pi n k) pi.target_id_

/-- What cpd_search::search leaves behind: the node it returns (or null),
the node pool and the statistics. -/
structure search_result where
  target : Option sn_id_t
  nodes : node_pool
  sol : solution
  pi : problem_instance

/-- The target part of cpd_search::search (lines 361-368): the instance
with the internal target id, or nothing for an invalid target location. -/
def resolve_target (S : cpd_search) (pi : problem_instance) :
    Option problem_instance :=
  if pi.target_id_ ≠ SN_ID_MAX then
    match S.expander_.generate_target_node pi with
    | none => none
    | some t => some { pi with target_id_ := t }
  else some pi

/-- The state of cpd_search::search when the expansion loop begins (lines
354-400), or the null result of an invalid start or target. The log call of
line 396, which comes before `incumbent = start`, is accounted for in
`search` by `null_incumbent_read`. -/
def search_init (S : cpd_search) (pi : problem_instance) (nodes : node_pool)
    (sol : solution) : search_result ⊕ (problem_instance × search_state) :=
  match resolve_target S pi with
  | none => Sum.inl { target := none, nodes := nodes, sol := sol, pi := pi }
  | some pi1 =>
    if pi1.start_id_ = SN_ID_MAX then
      Sum.inl { target := none, nodes := nodes, sol := sol, pi := pi1 }
    else
      match S.expander_.generate_start_node pi1 with
      | none => Sum.inl { target := none, nodes := nodes, sol := sol, pi := pi1 }
      | some s =>
        let pi2 := { pi1 with start_id_ := s }
        let hu := S.heuristic_.h pi2.start_id_ pi2.target_id_
        let nodes := nodes.set s
          ((nodes s).init pi2.instance_id_ SN_ID_MAX 0 hu.1 hu.2)
        let sol := { sol with
          nodes_inserted_ := (sol.nodes_inserted_ + 1) % 2 ^ 32 }
        let incumbent := if hu.2 < COST_MAX then some s else none
        Sum.inr (pi2, { nodes := nodes, open_ := [s], incumbent := incumbent,
                        sol := sol })

/-- Modelled from the spec: log.h is absent; `verbose` is a query option,
and a log call evaluates its arguments when the flag it is given is set.
Line 396, `info(pi_.verbose_, "Set UB:", incumbent->get_ub())`, is reached
when the start has a finite upper bound and stands before
`incumbent = start`, while `incumbent` is still the null pointer of line
358: the call then reads the ub field through a null pointer. -/
def null_incumbent_read (S : cpd_search) (pi : problem_instance) : Bool :=
  pi.verbose_
    && decide ((S.heuristic_.h pi.start_id_ pi.target_id_).2 < COST_MAX)

/-- The function cpd_search::search; nothing when line 396 reads through the
null incumbent, or when `fuel` passes end neither the expansion loop nor
the rebuild loop. -/
def search (S : cpd_search) (timer : Nat → Int) (fuel : Nat)
    (pi : problem_instance) (nodes : node_pool) (sol : solution) :
    Option search_result :=
  match search_init S pi nodes sol with
  | Sum.inl r => some r
  | Sum.inr (pi2, st0) =>
    if null_incumbent_read S pi2 = true then none
    else
      match expand_loop S pi2 timer fuel 0 st0 with
      | none => none
      | some st =>
        match rebuild S pi2 fuel st.nodes st.incumbent with
        | none => none
        | some (nodes1, r) =>
          some { target := r, nodes := nodes1, sol := st.sol, pi := pi2 }

/-- The backpointer walk of cpd_search::get_path (lines 85-91): the ids from
`current` back to the node without a parent; nothing when `fuel` steps do
not reach it. -/
def follow_parents (nodes : node_pool) : Nat → sn_id_t → Option (List sn_id_t)
  | 0, _ => none
  | fuel + 1, current =>
    if (nodes current).parent_id_ = SN_ID_MAX then some [current]
    else
      match follow_parents nodes fuel (nodes current).parent_id_ with
      | none => none
      | some rest => some (current :: rest)

/-- The function cpd_search::get_path; the ids pushed on `path_`, a vector
of uint32_t (solution.h), are cut to 32 bits. -/
def get_path (S : cpd_search) (timer : Nat → Int) (fuel : Nat)
    (instance_ : problem_instance) (nodes : node_pool) (sol : solution) :
    Option search_result :=
  match search S timer fuel instance_ nodes sol.reset with
  | none => none
  | some r =>
    match r.target with
    | none => some r
    | some target =>
      match follow_parents r.nodes fuel target with
      | none => none
      | some path =>
        some { r with sol := { r.sol with
          sum_of_edge_costs_ := (r.nodes target).g_,
          path_ := r.sol.path_ ++ path.map (fun id => id % 2 ^ 32) } }

/-- The function wgridmap_expansion_policy::generate_start_node
(wgridmap_expansion_policy.cpp); the header dimensions are 32-bit, their
product wraps, and `to_padded_id` is the map's id translation. -/
def wgridmap_generate_start_node (header_width header_height : Nat)
    (to_padded_id : Nat → Nat) (pi : problem_instance) : Option sn_id_t :=
  let max_id := (header_width * header_height) % 2 ^ 32
  if pi.start_id_ ≥ max_id then none
  else some (to_padded_id pi.start_id_ % 2 ^ 32)

/-- The function wgridmap_expansion_policy::generate_target_node. -/
def wgridmap_generate_target_node (header_width header_height : Nat)
    (to_padded_id : Nat → Nat) (pi : problem_instance) : Option sn_id_t :=
  let max_id := (header_width * header_height) % 2 ^ 32
  if pi.target_id_ ≥ max_id then none
  else some (to_padded_id pi.target_id_ % 2 ^ 32)

/-- The value an unsigned 32-bit quantity has once it is stored in an
int32_t. -/
def to_int32 (n : Nat) : Int :=
  if n % 2 ^ 32 < 2 ^ 31 then (n % 2 ^ 32 : Nat) else ((n % 2 ^ 32 : Nat) : Int) - 2 ^ 32

/-- The value an int has after wrapping to 32 bits. -/
def int32_wrap (z : Int) : Int :=
  (z + 2 ^ 31) % 2 ^ 32 - 2 ^ 31

namespace graph

/-- The data members of warthog::graph::planar_graph that the inline
functions of planar_graph.h read: the node count and capacity, the
coordinate array and the id offset (all 32-bit). -/
structure planar_graph where
  nodes_sz_ : Nat
  nodes_cap_ : Nat
  xy_ : List Int
  ID_OFFSET : Nat

/-- The function planar_graph::to_graph_id: `ex_id - ID_OFFSET` on
uint32_t. -/
def planar_graph.to_graph_id (g : planar_graph) (ex_id : Nat) : Nat :=
  (ex_id % 2 ^ 32 + 2 ^ 32 - g.ID_OFFSET % 2 ^ 32) % 2 ^ 32

/-- The function planar_graph::to_external_id: `in_id + ID_OFFSET` on
uint32_t. -/
def planar_graph.to_external_id (g : planar_graph) (in_id : Nat) : Nat :=
  (in_id % 2 ^ 32 + g.ID_OFFSET % 2 ^ 32) % 2 ^ 32

end graph

namespace helpers

/-- The function warthog::helpers::index_to_xy: the pair (x, y) it writes;
the division is unsigned, the results are stored in int32_t, and a zero
`mapwidth` has no result. -/
def index_to_xy (id mapwidth : Nat) : Option (Int × Int) :=
  if mapwidth % 2 ^ 32 = 0 then none
  else
    let y := (id % 2 ^ 32) / (mapwidth % 2 ^ 32)
    let x := (id % 2 ^ 32) % (mapwidth % 2 ^ 32)
    some (to_int32 x, to_int32 y)

end helpers

/-- The id computation of grid2dimacs.cpp (lines 53-56):
`y * mapwidth + x` on uint32_t. -/
def scen_node_id (x y mapwidth : Nat) : Nat :=
  ((y % 2 ^ 32) * (mapwidth % 2 ^ 32) + x % 2 ^ 32) % 2 ^ 32

/-! ## Building the first-move rows (other/topping/src/Entry.cpp) -/

namespace topping

/-- Modelled from the spec: cpd.h is absent. A CPD is the ordered
concatenation of its rows; `append_row` puts the row of a source at the end
and `append_rows` appends the rows of another CPD. A row is kept with the
source it was computed for. -/
abbrev CPD (α : Type) := List (Int × α)

/-- The sequential branch of PreprocessMap (lines 64-71): one row for each
source 0, ..., node_count - 1; `run` is Dijkstra::run. The progress test
`source_node % (node_count / 10)` has no value when node_count / 10 is 0, so
the build yields nothing then (unless the loop body never runs). -/
def sequential_build {α : Type} (run : Int → α) (node_count : Int) :
    Option (CPD α) :=
  if 0 < node_count ∧ Int.tdiv node_count 10 = 0 then none
  else some ((List.range node_count.toNat).map
    (fun (k : Nat) => ((k : Int), run (k : Int))))

/-- The first source of thread `thread_id` (line 84), in int arithmetic. -/
def node_begin (node_count thread_count thread_id : Int) : Int :=
  Int.tdiv (int32_wrap (node_count * thread_id)) thread_count

/-- The source after the last one of thread `thread_id` (line 85). -/
def node_end (node_count thread_count thread_id : Int) : Int :=
  Int.tdiv (int32_wrap (node_count * (thread_id + 1))) thread_count

/-- The sources thread `thread_id` loops over (line 89). -/
def thread_sources (node_count thread_count thread_id : Int) : List Int :=
  (List.range (node_end node_count thread_count thread_id
      - node_begin node_count thread_count thread_id).toNat).map
    (fun (k : Nat) => node_begin node_count thread_count thread_id + (k : Int))

/-- The CPD thread `thread_id` fills inside the parallel region (lines
80-99). The threads share the progress counter only, which does not enter
the rows; its test `progress % (node_count / 10)` has no value when
node_count / 10 is 0, so a thread that runs its loop body yields nothing
then. -/
def thread_build {α : Type} (run : Int → α)
    (node_count thread_count thread_id : Int) : Option (CPD α) :=
  if thread_sources node_count thread_count thread_id ≠ []
      ∧ Int.tdiv node_count 10 = 0 then none
  else some ((thread_sources node_count thread_count thread_id).map
    (fun s => (s, run s)))

/-- Appending the thread-local CPDs in thread order (lines 102-103). -/
def append_all {α : Type} : List (Option (CPD α)) → Option (CPD α)
  | [] => some []
  | none :: _ => none
  | some c :: rest =>
    match append_all rest with
    | none => none
    | some cs => some (c ++ cs)

/-- The parallel branch of PreprocessMap (lines 73-103): `max_threads`
thread-local CPDs, of which the `thread_count` threads of the region fill
the first ones, appended in thread order. -/
def parallel_build {α : Type} (run : Int → α) (node_count : Int)
    (max_threads thread_count : Nat) : Option (CPD α) :=
  append_all ((List.range max_threads).map (fun i =>
    if i < thread_count then thread_build run node_count thread_count i
    else some []))

end topping

/-! ## Safe intervals (src/domains/sipp_gridmap.cpp) -/

namespace sipp

/-- Modelled from the spec: sipp_gridmap.h is absent. A safe interval has a
start time, an end time and the action that leads into it. -/
structure safe_interval where
  s_time_ : cost_t
  e_time_ : cost_t
  action_ : Nat
deriving DecidableEq

end sipp

/-- The body of the loop of sipp_gridmap::add_obstacle (lines 34-74) for
one stored interval `si`: what it pushes onto `temp`. -/
def add_obstacle_step (start_time end_time : cost_t) (action : Nat)
    (si : sipp.safe_interval) : List sipp.safe_interval :=
  if end_time < si.s_time_ then [si]
  else if start_time < si.e_time_ then [si]
  else if start_time ≤ si.s_time_ ∧ si.e_time_ ≤ end_time then []
  else if start_time ≤ si.s_time_ ∧ end_time < si.e_time_ then
    [{ si with s_time_ := end_time, action_ := action }]
  else if si.s_time_ < start_time ∧ si.e_time_ ≤ end_time then
    [{ si with e_time_ := start_time }]
  else if si.s_time_ < start_time ∧ si.e_time_ > end_time then
    [{ s_time_ := end_time, e_time_ := si.e_time_, action_ := action },
     { si with e_time_ := start_time }]
  else []

/-- The data members of sipp_gridmap: the width of the map header and the
list of safe intervals of each cell. -/
structure sipp_gridmap where
  header_width : Nat
  intervals_ : List (List sipp.safe_interval)

/-- The function sipp_gridmap::add_obstacle; nothing when
`intervals_.at(node_id)` is out of range. std::sort leaves the order of
intervals with equal start times open; here they keep their order. -/
def sipp_gridmap.add_obstacle (m : sipp_gridmap) (x y : Nat)
    (start_time end_time : cost_t) (action : Nat) : Option sipp_gridmap :=
  if end_time - start_time = 0 then some m
  else
    let node_id := ((y % 2 ^ 32) * (m.header_width % 2 ^ 32) + x % 2 ^ 32) % 2 ^ 32
    match m.intervals_.get? node_id with
    | none => none
    | some ivs =>
      let temp := ivs.flatMap (add_obstacle_step start_time end_time action)
      let temp := temp.insertionSort (fun a b => a.s_time_ ≤ b.s_time_)
      some { m with intervals_ := m.intervals_.set node_id temp }

/-! ## Reservation table (src/mapf/reservation_table.h) -/

/-- Conversion of an int to uint64_t: the value modulo 2^64. -/
def to_uint64 (z : Int) : Nat := (z % 2 ^ 64).toNat

/-- Value of the int expression `1 << k` for a count k in 0..63. The counts
0..30 give 2^k and the count 31 gives INT_MIN; a count of 32 or more is at
least the width of int, so the language gives the expression no value:
shl_undefined stands for whatever the machine leaves there, read as an
int. -/
def shl_one (shl_undefined : Nat → Int) (k : Nat) : Int :=
  if k < 31 then 2 ^ k
  else if k = 31 then -(2 ^ 31)
  else int32_wrap (shl_undefined k)

/-- Complement `~z` of an int. -/
def int_not (z : Int) : Int := -z - 1

structure reservation_table where
  table_ : List (List Nat)
  map_sz_ : Nat
  map_sz_in_qwords_ : Nat
  deriving DecidableEq

namespace reservation_table

def LOG2_QWORD_SZ : Nat := 6

/-- Modelled from the spec: cpool.h is absent; the pool is taken to hand out
blocks of map_sz_in_qwords_ 64-bit words, so a fresh table has no rows. -/
def new (map_sz : Nat) : reservation_table :=
  { table_ := []
    map_sz_ := map_sz % 2 ^ 32
    map_sz_in_qwords_ := ((map_sz % 2 ^ 32) >>> LOG2_QWORD_SZ) + 1 }

/-- Read of `table_[timestep][i]`; `none` outside the allocated rows. -/
def word (tb : reservation_table) (timestep i : Nat) : Option Nat :=
  (tb.table_[timestep]?).bind (fun row => row[i]?)

/-- Write of `table_[timestep][i]`. -/
def set_word (tb : reservation_table) (timestep i w : Nat) :
    reservation_table :=
  { tb with
    table_ := tb.table_.modify (fun row => row.set i w) timestep }

def is_reserved (shl_undefined : Nat → Int) (tb : reservation_table)
    (xy_id timestep : Nat) : Option Bool :=
  if timestep ≥ tb.table_.length then some false
  else
    match tb.word timestep (xy_id >>> LOG2_QWORD_SZ) with
    | none => none
    | some w =>
      some (decide
        (w &&& to_uint64 (shl_one shl_undefined (xy_id &&& 63)) ≠ 0))

/-- Rows pushed by the while loop of reserve: one zeroed block per missing
timestep. -/
def grow (tb : reservation_table) (timestep : Nat) : reservation_table :=
  { tb with
    table_ := tb.table_ ++
      List.replicate (timestep + 1 - tb.table_.length)
        (List.replicate tb.map_sz_in_qwords_ 0) }

/-- The assertion `xy_id < map_sz_` is kept: `none` stands for its failure
(and for an access outside the row). -/
def reserve (shl_undefined : Nat → Int) (tb : reservation_table)
    (xy_id timestep : Nat) : Option reservation_table :=
  if ¬ xy_id < tb.map_sz_ then none
  else
    let tb1 := tb.grow timestep
    match tb1.word timestep (xy_id >>> LOG2_QWORD_SZ) with
    | none => none
    | some w =>
      some (tb1.set_word timestep (xy_id >>> LOG2_QWORD_SZ)
        (w ||| to_uint64 (shl_one shl_undefined (xy_id &&& 63))))

/-- Both assertions are kept: `none` stands for the failure of either. -/
def unreserve (shl_undefined : Nat → Int) (tb : reservation_table)
    (xy_id timestep : Nat) : Option reservation_table :=
  if ¬ timestep < tb.table_.length then none
  else if ¬ xy_id < tb.map_sz_ then none
  else
    match tb.word timestep (xy_id >>> LOG2_QWORD_SZ) with
    | none => none
    | some w =>
      some (tb.set_word timestep (xy_id >>> LOG2_QWORD_SZ)
        (w &&& to_uint64 (int_not (shl_one shl_undefined (xy_id &&& 63)))))

/-- Shape kept by the constructor and by reserve: every row has
map_sz_in_qwords_ words, and that count is (map_sz_ >> 6) + 1. -/
def wf (tb : reservation_table) : Prop :=
  tb.map_sz_in_qwords_ = (tb.map_sz_ >>> LOG2_QWORD_SZ) + 1
  ∧ ∀ row ∈ tb.table_, row.length = tb.map_sz_in_qwords_

end reservation_table

/-! ## Text input streams (std::istream as used by src/util/helpers.cpp and
src/util/dimacs_parser.cpp) -/

/-- State of a std::istream over a character sequence: the characters not
yet extracted and the eofbit and failbit flags (badbit never arises for an
in-memory sequence). -/
structure istream where
  rest : List Char
  eofbit : Bool
  failbit : Bool
  deriving DecidableEq

namespace istream

def good (s : istream) : Bool := !s.eofbit && !s.failbit

/-- Stream of std::ifstream(filename): `none` is a file that cannot be
opened, which leaves failbit set. -/
def open_file (file : Option (List Char)) : istream :=
  match file with
  | none => { rest := [], eofbit := false, failbit := true }
  | some cs => { rest := cs, eofbit := false, failbit := false }

/-- Result of peek(): the next character, `none` for EOF. A stream that is
not good gets failbit from the sentry; the end of the sequence sets
eofbit. -/
def peek (s : istream) : Option Char × istream :=
  if !s.good then (none, { s with failbit := true })
  else
    match s.rest with
    | [] => (none, { s with eofbit := true })
    | c :: _ => (some c, s)

/-- Result of get(): extracts one character; at the end of the sequence it
returns EOF and sets eofbit and failbit. -/
def get (s : istream) : Option Char × istream :=
  if !s.good then (none, { s with failbit := true })
  else
    match s.rest with
    | [] => (none, { s with eofbit := true, failbit := true })
    | c :: cs => (some c, { s with rest := cs })

/-- Characters std::isspace accepts in the C locale. -/
def isspace (c : Char) : Bool :=
  c = ' ' || c = '\t' || c = '\n' || c = '\x0b' || c = '\x0c' || c = '\r'

/-- Result of `s >> tmp` for a uint32_t: leading whitespace is skipped, then
the longest run of decimal digits is extracted. The value is meaningful only
when the stream is good afterwards. No digit sets failbit; running into the
end of the sequence sets eofbit; a value above UINT32_MAX is stored as
UINT32_MAX with failbit. `none`: the field starts with a sign, a case in
which standard libraries differ and which is left out. -/
def read_uint32 (s : istream) : Option (Nat × istream) :=
  if !s.good then some (0, { s with failbit := true })
  else
    match s.rest.dropWhile isspace with
    | [] => some (0, { rest := [], eofbit := true, failbit := true })
    | c :: cs =>
      if c = '+' ∨ c = '-' then none
      else
        let ds := (c :: cs).takeWhile Char.isDigit
        let rest1 := (c :: cs).dropWhile Char.isDigit
        let v := ds.foldl (fun a d => 10 * a + (d.toNat - 48)) 0
        if ds = [] then
          some (0, { rest := rest1, eofbit := false, failbit := true })
        else if v > UINT32_MAX then
          some (UINT32_MAX,
            { rest := rest1, eofbit := rest1.isEmpty, failbit := true })
        else
          some (v, { rest := rest1, eofbit := rest1.isEmpty, failbit := false })

end istream

namespace helpers

/-- What a call of load_integer_labels comes to: it returns a flag and
leaves labels, or it does not return within the fuel given, or it meets a
signed field (see read_uint32). -/
inductive load_outcome where
  | returned (ok : Bool) (labels : List Nat)
  | no_return
  | signed_field
  deriving DecidableEq

/-- Loop `while(ifs.get() != '\n');`. -/
def skip_line : Nat → istream → Option istream
  | 0, _ => none
  | fuel + 1, s =>
    if (s.get).1 = some '\n' then some (s.get).2
    else skip_line fuel (s.get).2

/-- Condition `ifs.peek() == '#' || ifs.peek() == 'c' || ifs.peek() == '%'`,
with the stream its peeks leave. -/
def at_comment (s : istream) : Bool × istream :=
  if (s.peek).1 = some '#' then (true, (s.peek).2)
  else if ((s.peek).2.peek).1 = some 'c' then (true, ((s.peek).2.peek).2)
  else
    (decide ((((s.peek).2.peek).2.peek).1 = some '%'),
      (((s.peek).2.peek).2.peek).2)

/-- Loop that skips comment lines. -/
def skip_comments : Nat → istream → Option istream
  | 0, _ => none
  | fuel + 1, s =>
    if (at_comment s).1 then
      match skip_line fuel (at_comment s).2 with
      | none => none
      | some s1 => skip_comments fuel s1
    else some (at_comment s).2

/-- The `while(true)` loop of load_integer_labels. -/
def load_loop : Nat → istream → List Nat → load_outcome
  | 0, _, _ => load_outcome.no_return
  | fuel + 1, s, labels =>
    match skip_comments fuel s with
    | none => load_outcome.no_return
    | some s1 =>
      match s1.read_uint32 with
      | none => load_outcome.signed_field
      | some (tmp, s2) =>
        if !s2.good then load_outcome.returned true labels
        else load_loop fuel s2 (labels ++ [tmp])

def load_integer_labels (fuel : Nat) (file : Option (List Char))
    (labels : List Nat) : load_outcome :=
  if !(istream.open_file file).good then load_outcome.returned false labels
  else load_loop fuel (istream.open_file file) labels

end helpers

namespace istream

/-- Result of getline(buf, n) for n >= 1: the characters stored in buf (before
the terminating null character) and the stream afterwards. Characters are
extracted until, tested in this order, the sequence ends (eofbit), the next
character is the newline (extracted, not stored), or n - 1 characters have
been stored (failbit). Extracting nothing sets failbit as well; a stream that
is not good gets failbit from the sentry and an empty buf. -/
def getline (s : istream) (n : Nat) : List Char × istream :=
  if !s.good then ([], { s with failbit := true })
  else if (s.rest.takeWhile (fun c => c ≠ '\n')).length ≤ n - 1 then
    match s.rest.dropWhile (fun c => c ≠ '\n') with
    | [] =>
      (s.rest.takeWhile (fun c => c ≠ '\n'),
        { rest := [], eofbit := true,
          failbit := (s.rest.takeWhile (fun c => c ≠ '\n')).isEmpty })
    | _ :: r => (s.rest.takeWhile (fun c => c ≠ '\n'), { s with rest := r })
  else
    (s.rest.take (n - 1), { s with rest := s.rest.drop (n - 1), failbit := true })

end istream

/-! ## DIMACS loaders (src/util/dimacs_parser.cpp) -/

/-- Pieces of a character sequence between the characters that satisfy p
(the pieces may be empty). -/
def split_on (p : Char → Bool) : List Char → List (List Char)
  | [] => [[]]
  | c :: cs =>
    if p c then [] :: split_on p cs
    else
      match split_on p cs with
      | [] => [[c]]
      | l :: ls => (c :: l) :: ls

/-- Tokens that successive calls strtok(buf, " \t"), strtok(NULL, " \t"), ...
return: the non-empty runs without blank or tab of the C string in buf,
which ends at the first null character. -/
def strtok_all (buf : List Char) : List (List Char) :=
  (split_on (fun c => c = ' ' || c = '\t')
    (buf.takeWhile (fun c => c ≠ '\x00'))).filter (fun t => !t.isEmpty)

/-- Value of atoi: whitespace is skipped, then an optional sign and the
longest run of decimal digits are read (0 when there is no digit). `none`:
the value is outside the range of int, for which atoi has no defined
result. -/
def atoi (s : List Char) : Option Int :=
  let t := s.dropWhile istream.isspace
  let neg := t.head? = some '-'
  let u := if t.head? = some '-' ∨ t.head? = some '+' then t.tail else t
  let v : Int :=
    ((u.takeWhile Char.isDigit).foldl (fun a d => 10 * a + (d.toNat - 48)) 0 : Nat)
  let z : Int := if neg then -v else v
  if -(2 ^ 31) ≤ z ∧ z < 2 ^ 31 then some z else none

/-- What a loader call comes to: it returns a flag and leaves a state, or it
does not return within the fuel given, or it calls atoi on a value outside
the range of int. -/
inductive parse_outcome (α : Type) where
  | returned (retval : Bool) (state : α)
  | no_return
  | atoi_undefined
  deriving DecidableEq

def parse_outcome.map {α β : Type} (f : α → β) :
    parse_outcome α → parse_outcome β
  | parse_outcome.returned b a => parse_outcome.returned b (f a)
  | parse_outcome.no_return => parse_outcome.no_return
  | parse_outcome.atoi_undefined => parse_outcome.atoi_undefined

namespace dimacs

/-- Modelled from the spec: dimacs_parser.h is absent; a node keeps the
three values atoi returned. -/
structure node where
  id_ : Int
  x_ : Int
  y_ : Int
  deriving DecidableEq

/-- Modelled from the spec: dimacs_parser.h is absent; an edge keeps the
three values atoi returned. -/
structure edge where
  tail_id_ : Int
  head_id_ : Int
  weight_ : Int
  deriving DecidableEq

end dimacs

/-- The collections of the class warthog::dimacs_parser that the two loaders
write. -/
structure dimacs where
  nodes_ : List dimacs.node
  edges_ : List dimacs.edge
  deriving DecidableEq

namespace dimacs

/-- Body of `case 'v':` (and of `case 'a':`) after getline: the second to
fourth tokens converted by atoi; `some none` is the badly formatted line
(fewer than four tokens), `none` an atoi call without a defined result. -/
def read_descriptor (buf : List Char) : Option (Option (Int × Int × Int)) :=
  match strtok_all buf with
  | _ :: a :: b :: c :: _ =>
    match atoi a, atoi b, atoi c with
    | some x, some y, some z => some (some (x, y, z))
    | _, _, _ => none
  | _ => some none

/-- One pass through the body of the while loop of load_co_file (tag 'v')
and load_gr_file (tag 'a'), entered with a good stream: either the loop is
left by the problem line or by atoi, or it goes on with the stream and the
records given. -/
def load_step (tag : Char) (s : istream) (acc : List (Int × Int × Int)) :
    parse_outcome (List (Int × Int × Int)) ⊕ (istream × List (Int × Int × Int)) :=
  if (s.peek).1 = some tag then
    match read_descriptor (((s.peek).2.getline 1024).1) with
    | none => Sum.inl parse_outcome.atoi_undefined
    | some none => Sum.inr (((s.peek).2.getline 1024).2, acc)
    | some (some r) => Sum.inr (((s.peek).2.getline 1024).2, acc ++ [r])
  else if (s.peek).1 = some 'p' then
    Sum.inl (parse_outcome.returned false acc)
  else Sum.inr (((s.peek).2.getline 1024).2, acc)

/-- The while loop `while(fdimacs.good() && !early_abort)` with the return
value `!early_abort`. -/
def load_loop (tag : Char) :
    Nat → istream → List (Int × Int × Int) →
      parse_outcome (List (Int × Int × Int))
  | 0, _, _ => parse_outcome.no_return
  | fuel + 1, s, acc =>
    if !s.good then parse_outcome.returned true acc
    else
      match load_step tag s acc with
      | Sum.inl o => o
      | Sum.inr (s1, acc1) => load_loop tag fuel s1 acc1

def load_co_file (fuel : Nat) (p : dimacs) (fdimacs : istream) :
    parse_outcome dimacs :=
  (load_loop 'v' fuel fdimacs []).map (fun recs =>
    { p with nodes_ := recs.map (fun r => { id_ := r.1, x_ := r.2.1, y_ := r.2.2 }) })

def load_gr_file (fuel : Nat) (p : dimacs) (fdimacs : istream) :
    parse_outcome dimacs :=
  (load_loop 'a' fuel fdimacs []).map (fun recs =>
    { p with
      edges_ := recs.map (fun r =>
        { tail_id_ := r.1, head_id_ := r.2.1, weight_ := r.2.2 }) })

/-- Records the amended claim lists, read off the lines of the input: up to
the first line that begins with 'p', one record for each line that begins
with the tag and has at least four tokens, its fields being atoi of the
second to fourth token; every other line gives nothing. The flag is false
exactly when a line beginning with 'p' was met. -/
def records_of_lines (tag : Char) :
    List (List Char) → parse_outcome (List (Int × Int × Int))
  | [] => parse_outcome.returned true []
  | l :: ls =>
    if l.head? = some 'p' then parse_outcome.returned false []
    else if l.head? = some tag ∧ 4 ≤ (strtok_all l).length then
      match atoi ((strtok_all l).getD 1 []), atoi ((strtok_all l).getD 2 []),
          atoi ((strtok_all l).getD 3 []) with
      | some x, some y, some z =>
        (records_of_lines tag ls).map (fun recs => (x, y, z) :: recs)
      | _, _, _ => parse_outcome.atoi_undefined
    else records_of_lines tag ls

/-- An input of 1024 letters c, a newline, and the line "v 1 2 3". -/
def long_comment_input : List Char :=
  List.replicate 1024 'c' ++ "\nv 1 2 3\n".toList

end dimacs

/-! ## Path extraction (other/topping/src/Entry.cpp, GetPath) -/

def int16_wrap (z : Int) : Int := (z + 2 ^ 15) % 2 ^ 16 - 2 ^ 15

/-- Modelled from the spec: Entry.h is absent; a location holds two
coordinates of the 16-bit signed type of dx and dy. -/
structure xyLoc where
  x : Int
  y : Int
  deriving DecidableEq

namespace topping

def dx : List Int := [0, 0, 1, -1, 1, -1, 1, -1]

def dy : List Int := [-1, 1, 0, 0, -1, -1, 1, 1]

/-- Modelled from the spec: mapper.h, cpd.h and the jump point oracle are
absent. The state gives the node of a location (mapper), the first move
symbol of a pair of nodes (an unsigned char), and the number of steps the
oracle reports for a goal, a location and a direction. -/
structure State where
  mapper : xyLoc → Int
  get_first_move : Int → Int → Nat
  next_jump_point : xyLoc → Int → Int → Int → Int

/-- What a call of GetPath comes to: it returns with the path vector, or it
indexes dx and dy outside their eight entries, or it shifts 1 by 32 or more,
or it does not return within the fuel given. -/
inductive GetPath_result where
  | returned (path : List xyLoc)
  | index_out_of_range (move : Nat)
  | shift_out_of_range (move : Nat)
  | out_of_fuel
  deriving DecidableEq

/-- The inner loop `for(int i = 0; i < number_step_to_turn; i++)`: `none`
when dx[move] or dy[move] lies outside the arrays. -/
def walk (state : State) (move : Nat) (current_target : Int) :
    Nat → xyLoc → Int → List xyLoc → Option (xyLoc × Int × List xyLoc)
  | 0, s, current_source, path => some (s, current_source, path)
  | k + 1, s, _, path =>
    match dx[move]?, dy[move]? with
    | some a, some b =>
      if state.mapper ⟨int16_wrap (s.x + a), int16_wrap (s.y + b)⟩
          = current_target then
        some (⟨int16_wrap (s.x + a), int16_wrap (s.y + b)⟩,
          state.mapper ⟨int16_wrap (s.x + a), int16_wrap (s.y + b)⟩,
          path ++ [⟨int16_wrap (s.x + a), int16_wrap (s.y + b)⟩])
      else
        walk state move current_target k
          ⟨int16_wrap (s.x + a), int16_wrap (s.y + b)⟩
          (state.mapper ⟨int16_wrap (s.x + a), int16_wrap (s.y + b)⟩)
          (path ++ [⟨int16_wrap (s.x + a), int16_wrap (s.y + b)⟩])
    | _, _ => none

/-- The loop `for(;;)`. -/
def follow (state : State) (t : xyLoc) (current_target : Int) :
    Nat → Nat → Int → xyLoc → Int → List xyLoc → GetPath_result
  | 0, _, _, _, _, _ => GetPath_result.out_of_fuel
  | fuel + 1, move, number_step_to_turn, s, current_source, path =>
    match walk state move current_target number_step_to_turn.toNat s
        current_source path with
    | none => GetPath_result.index_out_of_range move
    | some (s1, current_source1, path1) =>
      if current_source1 = current_target then GetPath_result.returned path1
      else if 32 ≤ state.get_first_move current_source1 current_target % 256 then
        GetPath_result.shift_out_of_range
          (state.get_first_move current_source1 current_target % 256)
      else
        follow state t current_target fuel
          (state.get_first_move current_source1 current_target % 256)
          (state.next_jump_point t s1.x s1.y
            (shl_one (fun _ => 0)
              (state.get_first_move current_source1 current_target % 256)))
          s1 current_source1 path1

def GetPath (fuel : Nat) (state : State) (s t : xyLoc) (path : List xyLoc) :
    GetPath_result :=
  if state.get_first_move (state.mapper s) (state.mapper t) % 256 ≠ 15
      ∧ state.mapper s ≠ state.mapper t then
    if 32 ≤ state.get_first_move (state.mapper s) (state.mapper t) % 256 then
      GetPath_result.shift_out_of_range
        (state.get_first_move (state.mapper s) (state.mapper t) % 256)
    else
      follow state t (state.mapper t) fuel
        (state.get_first_move (state.mapper s) (state.mapper t) % 256)
        (state.next_jump_point t s.x s.y
          (shl_one (fun _ => 0)
            (state.get_first_move (state.mapper s) (state.mapper t) % 256)))
        s (state.mapper s) (path ++ [s])
  else GetPath_result.returned path

/-- One move between two locations: the second is the first plus
(dx[m], dy[m]) for a move m below 8, in 16-bit arithmetic. -/
def is_move (a b : xyLoc) : Prop :=
  ∃ m, m < 8 ∧ b = ⟨int16_wrap (a.x + dx.getD m 0), int16_wrap (a.y + dy.getD m 0)⟩

/-- The corridor with first move east from every node. -/
def corridor_east : State :=
  { mapper := fun p => if p.y = 0 then p.x else -1
    get_first_move := fun _ _ => 2
    next_jump_point := fun _ _ _ _ => 1 }

end topping

namespace topping

/-- The path vector while GetPath runs: the vector on entry followed by
locations that start with s0, end with the current location, and are
joined by moves; the current node is the node of the current location. -/
def path_inv (state : State) (path0 : List xyLoc) (s0 cur : xyLoc)
    (current_source : Int) (path : List xyLoc) : Prop :=
  ∃ app, path = path0 ++ app ∧ app.head? = some s0
    ∧ app.getLast? = some cur ∧ List.Chain' is_move app
    ∧ current_source = state.mapper cur

end topping

/-! ## Time cutoff (src/search/cpd_search.h, lines 194-208) -/

/-- Conversion of a double whose value is the integer z to uint32_t: z itself
when it lies in 0..2^32-1. Outside that range the conversion has no defined
result: conv_undefined stands for what the machine leaves there. -/
def double_to_uint32 (conv_undefined : Int → Nat) (z : Int) : Nat :=
  if 0 ≤ z ∧ z < 2 ^ 32 then z.toNat else conv_undefined z % 2 ^ 32

/-- The function cpd_search::set_max_time_cutoff: the uint32_t argument is
stored in the double time_cutoff_. -/
def cpd_search.set_max_time_cutoff (S : cpd_search) (cutoff : Nat) :
    cpd_search :=
  { S with time_cutoff_ := ((cutoff % 2 ^ 32 : Nat) : Int) }

/-- The function cpd_search::set_max_us_cutoff: `cutoff * 1e3` is a double
(exact, the product being below 2^53) that is converted to the uint32_t
parameter of set_max_time_cutoff. -/
def cpd_search.set_max_us_cutoff (conv_undefined : Int → Nat) (S : cpd_search)
    (cutoff : Nat) : cpd_search :=
  S.set_max_time_cutoff
    (double_to_uint32 conv_undefined (((cutoff % 2 ^ 32 : Nat) : Int) * 1000))

/-- The function cpd_search::set_max_ms_cutoff (`cutoff * 1e6`, exact in
double). -/
def cpd_search.set_max_ms_cutoff (conv_undefined : Int → Nat) (S : cpd_search)
    (cutoff : Nat) : cpd_search :=
  S.set_max_time_cutoff
    (double_to_uint32 conv_undefined (((cutoff % 2 ^ 32 : Nat) : Int) * 1000000))

/-- The function cpd_search::set_max_s_cutoff (`cutoff * 1e9`, exact in
double: it is cutoff * 5^9 * 2^9 with cutoff * 5^9 below 2^53). -/
def cpd_search.set_max_s_cutoff (conv_undefined : Int → Nat) (S : cpd_search)
    (cutoff : Nat) : cpd_search :=
  S.set_max_time_cutoff
    (double_to_uint32 conv_undefined
      (((cutoff % 2 ^ 32 : Nat) : Int) * 1000000000))

/-- The function cpd_search::get_max_time_cutoff: the double time_cutoff_
converted to the uint32_t return type. -/
def cpd_search.get_max_time_cutoff (conv_undefined : Int → Nat)
    (S : cpd_search) : Nat :=
  double_to_uint32 conv_undefined S.time_cutoff_

/-! ## Weighted grid expansion (src/search/wgridmap_expansion_policy.cpp) -/

namespace wgridmap_expansion_policy

/-- The function wgridmap_expansion_policy::expand: the neighbours it adds,
in order, each with its cost. `tile_ids` and `tiles` are the ids and the
terrain values (dbword) that get_neighbours writes for the 3x3 square around
the node, row by row: 0 1 2 / 3 4 5 / 6 7 8, the node itself being 4
(weighted_gridmap.h is absent). `&` is the bitwise and of the terrain
values. The products are taken exactly; the double product with
DBL_ROOT_TWO is rounded. -/
def expand (DBL_ROOT_TWO : ℚ) (tile_ids tiles : Nat → Nat) : List (Nat × ℚ) :=
  (if tiles 1 ≠ 0 then
      [(tile_ids 1, ((tiles 1 + tiles 4 : Nat) : ℚ) * (1 / 2))] else [])
  ++ (if tiles 1 &&& tiles 2 &&& tiles 5 ≠ 0 then
      [(tile_ids 2,
        (((tiles 1 + tiles 2 + tiles 4 + tiles 5 : Nat) : ℚ) * DBL_ROOT_TWO)
          * (1 / 4))] else [])
  ++ (if tiles 5 ≠ 0 then
      [(tile_ids 5, ((tiles 5 + tiles 4 : Nat) : ℚ) * (1 / 2))] else [])
  ++ (if tiles 5 &&& tiles 7 &&& tiles 8 ≠ 0 then
      [(tile_ids 8,
        (((tiles 4 + tiles 5 + tiles 7 + tiles 8 : Nat) : ℚ) * DBL_ROOT_TWO)
          * (1 / 4))] else [])
  ++ (if tiles 7 ≠ 0 then
      [(tile_ids 7, ((tiles 7 + tiles 4 : Nat) : ℚ) * (1 / 2))] else [])
  ++ (if tiles 3 &&& tiles 6 &&& tiles 7 ≠ 0 then
      [(tile_ids 6,
        (((tiles 3 + tiles 4 + tiles 6 + tiles 7 : Nat) : ℚ) * DBL_ROOT_TWO)
          * (1 / 4))] else [])
  ++ (if tiles 3 ≠ 0 then
      [(tile_ids 3, ((tiles 3 + tiles 4 : Nat) : ℚ) * (1 / 2))] else [])
  ++ (if tiles 0 &&& tiles 1 &&& tiles 3 ≠ 0 then
      [(tile_ids 0,
        (((tiles 0 + tiles 1 + tiles 3 + tiles 4 : Nat) : ℚ) * DBL_ROOT_TWO)
          * (1 / 4))] else [])

/-- Terrain around a node whose N, NE and E tiles have the values 1, 2 and 4
and whose own tile has the value 1; the other tiles are not traversable. -/
def terrain_1_2_4 : Nat → Nat
  | 1 => 1
  | 2 => 2
  | 4 => 1
  | 5 => 4
  | _ => 0

end wgridmap_expansion_policy

namespace topping

/-- The progress lines of the sequential branch of PreprocessMap (lines
66-67): the values of source_node for which a line is printed, i.e. those
with `source_node % (node_count / 10) == 0`; nothing when node_count / 10 is
0 and the loop body runs, the remainder having no value then. -/
def sequential_progress (node_count : Int) : Option (List Int) :=
  if 0 < node_count ∧ Int.tdiv node_count 10 = 0 then none
  else some (((List.range node_count.toNat).map (fun (k : Nat) => (k : Int))).filter
    (fun s => decide (Int.tmod s (Int.tdiv node_count 10) = 0)))

/-- The progress lines of the parallel branch (lines 91-98): the values of
the shared counter `progress`, which runs through 1, ..., node_count under
the critical section, for which a line is printed. -/
def parallel_progress (node_count : Int) : Option (List Int) :=
  if 0 < node_count ∧ Int.tdiv node_count 10 = 0 then none
  else some (((List.range node_count.toNat).map
      (fun (k : Nat) => (k : Int) + 1)).filter
    (fun p => decide (Int.tmod p (Int.tdiv node_count 10) = 0)))

end topping

/-! ## Nodes of a planar graph (src/domains/planar_graph.h, lines 73-156) -/

namespace graph

def planar_graph.get_num_nodes (g : planar_graph) : Nat := g.nodes_sz_

/-- The function planar_graph::get_xy: the pair (x, y) it writes. The index
arithmetic is on uint32_t; an id outside the graph gives INF stored in
int32_t; `none` stands for a read outside the coordinate array. -/
def planar_graph.get_xy (g : planar_graph) (id : Nat) : Option (Int × Int) :=
  if id % 2 ^ 32 < g.nodes_sz_ then
    match g.xy_[(id % 2 ^ 32 * 2) % 2 ^ 32]?,
        g.xy_[(id % 2 ^ 32 * 2 + 1) % 2 ^ 32]? with
    | some x, some y => some (x, y)
    | _, _ => none
  else some (to_int32 INF.toNat, to_int32 INF.toNat)

/-- The function planar_graph::set_xy; `none` stands for a write outside the
coordinate array. -/
def planar_graph.set_xy (g : planar_graph) (id : Nat) (x y : Int) :
    Option planar_graph :=
  if id % 2 ^ 32 < g.nodes_sz_ then
    if (id % 2 ^ 32 * 2) % 2 ^ 32 < g.xy_.length
        ∧ (id % 2 ^ 32 * 2 + 1) % 2 ^ 32 < g.xy_.length then
      some { g with
        xy_ := (g.xy_.set ((id % 2 ^ 32 * 2) % 2 ^ 32) x).set
          ((id % 2 ^ 32 * 2 + 1) % 2 ^ 32) y }
    else none
  else some g

/-- The function planar_graph::get_node: the index of the node object the
returned pointer refers to, `none` for the null pointer. -/
def planar_graph.get_node (g : planar_graph) (id : Nat) : Option Nat :=
  if id % 2 ^ 32 < g.nodes_sz_ then some (id % 2 ^ 32) else none

/-- Modelled from the spec: planar_graph.cpp is absent; resize(new_cap) gives
the arrays room for new_cap nodes, keeps the entries stored so far and sets
nodes_cap_. -/
def planar_graph.resize (g : planar_graph) (new_cap : Nat) : planar_graph :=
  { g with
    nodes_cap_ := new_cap
    xy_ := (g.xy_ ++ List.replicate (2 * new_cap - g.xy_.length) 0).take
      (2 * new_cap) }

/-- The function planar_graph::add_node: the id it returns and the graph
afterwards; `none` stands for a write outside the coordinate array. -/
def planar_graph.add_node (g : planar_graph) (x y : Int) :
    Option (Nat × planar_graph) :=
  let g1 :=
    if g.nodes_cap_ = g.nodes_sz_ then
      g.resize (if g.nodes_cap_ = 0 then 1 else (g.nodes_cap_ * 2) % 2 ^ 32)
    else g
  if (g1.nodes_sz_ * 2) % 2 ^ 32 < g1.xy_.length
      ∧ (g1.nodes_sz_ * 2 + 1) % 2 ^ 32 < g1.xy_.length then
    some (g1.nodes_sz_,
      { g1 with
        nodes_sz_ := (g1.nodes_sz_ + 1) % 2 ^ 32
        xy_ := (g1.xy_.set ((g1.nodes_sz_ * 2) % 2 ^ 32) x).set
          ((g1.nodes_sz_ * 2 + 1) % 2 ^ 32) y })
  else none

/-- Successive calls of add_node, one for each point of the list: the ids
returned, in order, and the graph afterwards. -/
def planar_graph.add_nodes :
    planar_graph → List (Int × Int) → Option (List Nat × planar_graph)
  | g, [] => some ([], g)
  | g, p :: ps =>
    match g.add_node p.1 p.2 with
    | none => none
    | some (id, g1) =>
      match planar_graph.add_nodes g1 ps with
      | none => none
      | some (ids, g2) => some (id :: ids, g2)

/-- Shape of the arrays: no more nodes than capacity, a 32-bit capacity, and
two coordinates for each node the capacity allows. -/
def planar_graph.wf (g : planar_graph) : Prop :=
  g.nodes_sz_ ≤ g.nodes_cap_ ∧ g.nodes_cap_ < 2 ^ 32
    ∧ g.xy_.length = 2 * g.nodes_cap_

end graph

/-- The state at the pop of pass `k` of the expansion loop (passes are
counted from 0): the state after `k` passes that each went on to the next;
nothing when the loop ended before. -/
def state_before_pass (S : cpd_search) (pi : problem_instance)
    (timer : Nat → Int) : Nat → search_state → Option search_state
  | 0, st => some st
  | k + 1, st =>
    match state_before_pass S pi timer k st with
    | none => none
    | some st1 =>
      match expand_once S pi (timer k) st1 with
      | loop_exit.again st2 => some st2
      | _ => none

/-! ## Problem files (src/util/dimacs_parser.cpp, load_instance) -/

/-- Whether the first character sequence begins with the second. -/
def starts_with : List Char → List Char → Bool
  | _, [] => true
  | [], _ :: _ => false
  | c :: cs, d :: ds => c == d && starts_with cs ds

/-- Value of `strstr(hay, needle) != 0` for two C strings. -/
def strstr (hay needle : List Char) : Bool :=
  match hay with
  | [] => needle.isEmpty
  | c :: cs => starts_with (c :: cs) needle || strstr cs needle

/-- Tokens that successive calls strtok(buf, " \t\n"), strtok(0, " \t\n"),
... return. -/
def strtok_ws (buf : List Char) : List (List Char) :=
  (split_on (fun c => c = ' ' || c = '\t' || c = '\n')
    (buf.takeWhile (fun c => c ≠ '\x00'))).filter (fun t => !t.isEmpty)

/-- The C string in buf after strtok has returned its first token: strtok
writes a null character behind the token, so the string ends there. -/
def after_first_token (buf : List Char) : List Char :=
  (buf.takeWhile (fun c => c ≠ '\x00')).takeWhile
      (fun c => c = ' ' || c = '\t' || c = '\n')
  ++ ((buf.takeWhile (fun c => c ≠ '\x00')).dropWhile
      (fun c => c = ' ' || c = '\t' || c = '\n')).takeWhile
      (fun c => !(c = ' ' || c = '\t' || c = '\n'))

namespace dimacs

/-- Modelled from the spec: dimacs_parser.h is absent; an experiment keeps
the source and target that atoi returned (INF as target of a single-source
query) and the mode. -/
structure experiment where
  source : Int
  target : Int
  p2p : Bool
  deriving DecidableEq

/-- What a call of load_instance comes to: it returns a flag and leaves the
experiments, or it does not return within the fuel given, or it passes a
null pointer to strcmp or to atoi, or it calls atoi on a value outside the
range of int. -/
inductive instance_outcome where
  | returned (retval : Bool) (experiments_ : List experiment)
  | no_return
  | null_strcmp
  | null_atoi
  | atoi_undefined
  deriving DecidableEq

/-- The first loop of load_instance (lines 225-243): the mode flag and the
stream behind the problem line; nothing when `fuel` passes do not end
it. -/
def find_problem_line : Nat → istream → Option (Bool × istream)
  | 0, _ => none
  | fuel + 1, infile =>
    if !infile.good then some (true, infile)
    else if ((infile.getline 1024).1).head? = some 'c' then
      find_problem_line fuel (infile.getline 1024).2
    else if strstr (((infile.getline 1024).1).takeWhile (fun c => c ≠ '\x00'))
        "p aux sp p2p".toList then
      some (true, (infile.getline 1024).2)
    else if strstr (((infile.getline 1024).1).takeWhile (fun c => c ≠ '\x00'))
        "p aux sp ss".toList then
      some (false, (infile.getline 1024).2)
    else find_problem_line fuel (infile.getline 1024).2

/-- One pass through the second loop of load_instance (lines 246-291),
entered with the line that line 245 or the previous pass has read into buf:
either the call ends, or the loop goes on with the stream, the buffer and
the experiments given. -/
def query_step (p2p : Bool) (infile : istream) (buf : List Char)
    (experiments_ : List experiment) :
    instance_outcome ⊕ (istream × List Char × List experiment) :=
  if !infile.good then Sum.inl (instance_outcome.returned true experiments_)
  else if buf.head? = some 'c' then
    Sum.inr ((infile.getline 1024).2, (infile.getline 1024).1, experiments_)
  else
    match strtok_ws buf with
    | [] => Sum.inl instance_outcome.null_strcmp
    | tok :: rest =>
      if tok = ['q'] then
        match rest with
        | [] => Sum.inr (infile, after_first_token buf, experiments_)
        | src :: rest2 =>
          match atoi src with
          | none => Sum.inl instance_outcome.atoi_undefined
          | some source =>
            if p2p then
              match rest2 with
              | [] => Sum.inl instance_outcome.null_atoi
              | tgt :: _ =>
                match atoi tgt with
                | none => Sum.inl instance_outcome.atoi_undefined
                | some target =>
                  Sum.inr ((infile.getline 1024).2, (infile.getline 1024).1,
                    experiments_ ++
                      [{ source := source, target := target, p2p := p2p }])
            else
              Sum.inr ((infile.getline 1024).2, (infile.getline 1024).1,
                experiments_ ++
                  [{ source := source, target := INF, p2p := p2p }])
      else
        Sum.inr ((infile.getline 1024).2, (infile.getline 1024).1, experiments_)

/-- The second loop of load_instance, `while(infile.good())`. -/
def query_loop (p2p : Bool) :
    Nat → istream → List Char → List experiment → instance_outcome
  | 0, _, _, _ => instance_outcome.no_return
  | fuel + 1, infile, buf, experiments_ =>
    match query_step p2p infile buf experiments_ with
    | Sum.inl o => o
    | Sum.inr (infile1, buf1, experiments1) =>
      query_loop p2p fuel infile1 buf1 experiments1

/-- The function dimacs_parser::load_instance; `file` is the content of the
problem file, `none` a file that cannot be opened. -/
def load_instance (fuel : Nat) (file : Option (List Char))
    (experiments_ : List experiment) : instance_outcome :=
  match find_problem_line fuel (istream.open_file file) with
  | none => instance_outcome.no_return
  | some (p2p, infile) =>
    query_loop p2p fuel (infile.getline 1024).2 (infile.getline 1024).1
      experiments_

end dimacs

/-! ## Concrete queries

Small graphs on which the functions above are evaluated. -/

/-- A record as the pool holds it before any search has touched it. -/
def blank_node : search_node :=
  { parent_id_ := SN_ID_MAX, g_ := COST_MAX, f_ := COST_MAX, ub_ := COST_MAX,
    status_ := false, search_number_ := 0 }

def blank_pool : node_pool := fun _ => blank_node

def zero_solution : solution :=
  { sum_of_edge_costs_ := 0, nodes_expanded_ := 0, nodes_inserted_ := 0,
    nodes_updated_ := 0, nodes_touched_ := 0, path_ := [] }

/-- An expansion policy over the explicit graph `succ` with ids below `n`:
start and target ids are internal ids, the goal test compares ids. -/
def graph_policy (n : Nat) (succ : sn_id_t → List (sn_id_t × cost_t)) :
    expansion_policy :=
  { succ := succ,
    generate_start_node := fun pi =>
      if pi.start_id_ < n then some pi.start_id_ else none,
    generate_target_node := fun pi =>
      if pi.target_id_ < n then some pi.target_id_ else none,
    is_target := fun id pi => id == pi.target_id_ }

/-- The cost of walking `path` (first node first) along the expander's
edges; nothing when an edge is missing. -/
def path_cost (E : expansion_policy) : List sn_id_t → Option cost_t
  | [] => some 0
  | [_] => some 0
  | a :: b :: rest =>
    match (E.succ a).find? (fun e => e.1 == b), path_cost E (b :: rest) with
    | some e, some c => some (e.2 + c)
    | _, _ => none

/-- The ub of the incumbent, when there is one. -/
def incumbent_ub (st : search_state) : Option cost_t :=
  st.incumbent.map (fun i => (st.nodes i).ub_)

/-- The ub of the incumbent before the first successor loop of the first
pass and after each of its successors. -/
def first_pass_incumbent_ubs (S : cpd_search) (pi : problem_instance)
    (nodes : node_pool) (sol : solution) : List (Option cost_t) :=
  match search_init S pi nodes sol with
  | Sum.inl _ => []
  | Sum.inr (pi2, st0) =>
    match pqueue_min_pop st0.nodes st0.open_ with
    | none => []
    | some (cur, rest) =>
      let st1 := popped st0 cur rest
      let succs := S.expander_.succ cur
      (List.range (succs.length + 1)).map (fun k =>
        incumbent_ub ((succs.take k).foldl (generate_step S pi2 cur) st1))

/-- Graph A: start 0, target 4; the direct edge 0-4 costs 10, the cheapest
path 0-2-3-4 costs 4. -/
def graph_a : expansion_policy :=
  graph_policy 5 (fun n =>
    match n with
    | 0 => [(4, 10), (1, 1), (2, 2)]
    | 1 => [(3, 20)]
    | 2 => [(3, 1)]
    | 3 => [(4, 1)]
    | _ => [])

/-- A consistent lower bound for graph A that knows no upper bound. -/
def heuristic_a : heuristic :=
  { h := fun n _ => (match n with | 2 => 2 | 3 => 1 | _ => 0, COST_MAX),
    next := fun _ _ => SN_ID_MAX }

def query_a : problem_instance :=
  { start_id_ := 0, target_id_ := 4, instance_id_ := 1 }

/-- Graph B: the chain 0-1-2 with costs 1 and 5; start 0, target 2. -/
def graph_b : expansion_policy :=
  graph_policy 3 (fun n =>
    match n with
    | 0 => [(1, 1)]
    | 1 => [(2, 5)]
    | _ => [])

/-- A heuristic for graph B that knows the concrete path 1-2 (cost 5) from
node 1 and nothing from the start. -/
def heuristic_b : heuristic :=
  { h := fun n _ => (0, match n with | 1 => 5 | 2 => 0 | _ => COST_MAX),
    next := fun n _ => match n with | 1 => 2 | _ => SN_ID_MAX }

def query_b : problem_instance :=
  { start_id_ := 0, target_id_ := 2, instance_id_ := 1 }

/-- Graph C: edges 0-1 (1), 0-2 (10), 1-2 (4); start 0, target 2. -/
def graph_c : expansion_policy :=
  graph_policy 3 (fun n =>
    match n with
    | 0 => [(1, 1), (2, 10)]
    | 1 => [(2, 4)]
    | _ => [])

/-- A heuristic for graph C: exact lower bounds, and the concrete path 1-2
(cost 4) known from node 1 only. -/
def heuristic_c : heuristic :=
  { h := fun n _ => (match n with | 0 => 5 | 1 => 4 | _ => 0,
                     match n with | 1 => 4 | 2 => 0 | _ => COST_MAX),
    next := fun n _ => match n with | 1 => 2 | _ => SN_ID_MAX }

/-- Graph D: start 0, target 5. -/
def graph_d : expansion_policy :=
  graph_policy 6 (fun n =>
    match n with
    | 0 => [(2, 10), (3, 1), (1, 50)]
    | 1 => [(5, 100)]
    | 2 => [(4, 45)]
    | 3 => [(5, 60), (4, 1)]
    | 4 => [(2, 1), (5, 20)]
    | _ => [])

/-- An admissible heuristic for graph D; the concrete path 1-5 (cost 100) is
known from node 1 only. -/
def heuristic_d : heuristic :=
  { h := fun n _ => (match n with | 3 => 20 | _ => 0,
                     match n with | 1 => 100 | 5 => 0 | _ => COST_MAX),
    next := fun n _ => match n with | 1 => 5 | _ => SN_ID_MAX }

def query_d : problem_instance :=
  { start_id_ := 0, target_id_ := 5, instance_id_ := 1 }

/-- Graph F: edges 0-2 (10), 0-1 (1), 1-2 (1); start 0, target 2. The path
database still points from 0 straight to 2, an edge whose cost was raised
to 10. -/
def graph_f : expansion_policy :=
  graph_policy 3 (fun n =>
    match n with
    | 0 => [(2, 10), (1, 1)]
    | 1 => [(2, 1)]
    | _ => [])

/-- A heuristic for graph F: admissible lower bounds, and as upper bound of
each node the cost of the concrete path that `next` follows from it. -/
def heuristic_f : heuristic :=
  { h := fun n _ => (match n with | 0 => 1 | 1 => 1 | _ => 0,
                     match n with | 0 => 10 | 1 => 1 | _ => 0),
    next := fun n _ => match n with | 0 => 2 | 1 => 2 | _ => SN_ID_MAX }

/-- The state of the search on graph D (query D, fresh pool) at the pop of
pass `k`. -/
def graph_d_state (k : Nat) : Option search_state :=
  match search_init (cpd_search.new heuristic_d graph_d) query_d blank_pool
      zero_solution.reset with
  | Sum.inl _ => none
  | Sum.inr (pi2, st0) =>
    state_before_pass (cpd_search.new heuristic_d graph_d) pi2 (fun _ => 0) k st0

/-- The state in which the expansion loop starts on graph B (query B, fresh
pool, zero statistics). -/
def graph_b_start_state : search_state :=
  { nodes := blank_pool.set 0 ((blank_pool 0).init 1 SN_ID_MAX 0 0 COST_MAX),
    open_ := [0], incumbent := none,
    sol := { zero_solution with nodes_inserted_ := 1 } }

/-- The state with which the expansion loop ends on graph B. -/
def graph_b_loop_end : Option search_state :=
  expand_loop (cpd_search.new heuristic_b graph_b) query_b (fun _ => 0) 20 0
    graph_b_start_state

/-- What search returns on graph B. -/
def graph_b_search : Option search_result :=
  search (cpd_search.new heuristic_b graph_b) (fun _ => 0) 20 query_b
    blank_pool zero_solution

/-- Query B with the verbose option set. -/
def query_b_verbose : problem_instance :=
  { start_id_ := 0, target_id_ := 2, instance_id_ := 1, verbose_ := true }

/-- The state in which the expansion loop starts on graph F (query B, fresh
pool, statistics reset). -/
def graph_f_start_state : search_state :=
  { nodes := blank_pool.set 0 ((blank_pool 0).init 1 SN_ID_MAX 0 1 10),
    open_ := [0], incumbent := some 0,
    sol := { zero_solution.reset with nodes_inserted_ := 1 } }

/-! ## Theorems -/

theorem follow_parents_cycle (nodes : node_pool) (a b : sn_id_t)
    (hab : (nodes a).parent_id_ = b) (hba : (nodes b).parent_id_ = a)
    (ha : a ≠ SN_ID_MAX) (hb : b ≠ SN_ID_MAX) (fuel : Nat) :
    follow_parents nodes fuel a = none ∧ follow_parents nodes fuel b = none := by
  induction fuel with
  | zero => exact ⟨rfl, rfl⟩
  | succ k ih =>
    constructor
    · simp [follow_parents, hab, hb, ih.2]
    · simp [follow_parents, hba, ha, ih.1]

/-- Claim C1 (evaluation at the failing inputs). On graph A, with a consistent
lower bound, no upper bound and no cutoff, get_path reports cost 10 along the
path 4, 0 although the path 0, 2, 3, 4 costs 4: node 3 is generated under
node 1 with f = 22, pruned, and pruned again on that stale f when node 2
reaches it with g = 3. On graph F, where every upper bound is the cost of the
concrete path that next() follows and the lower bounds are admissible,
get_path reports cost 10 along 2, 0 without generating any successor,
although the path 0, 1, 2 costs 2: the start is the incumbent and is pruned
against itself. -/
theorem get_path_reports_suboptimal_cost :
    ((get_path (cpd_search.new heuristic_a graph_a) (fun _ => 0) 20 query_a
        blank_pool zero_solution).map
      (fun r => (r.target, r.sol.sum_of_edge_costs_, r.sol.path_))
      = some (some 4, 10, [4, 0])
    ∧ path_cost graph_a [0, 2, 3, 4] = some 4
    ∧ (heuristic_a.h 4 4).1 = 0
    ∧ (∀ u ∈ List.range 5, ∀ e ∈ graph_a.succ u,
        0 ≤ (heuristic_a.h u 4).1 ∧ 0 ≤ e.2
        ∧ (heuristic_a.h u 4).1 ≤ e.2 + (heuristic_a.h e.1 4).1))
    ∧ ((get_path (cpd_search.new heuristic_f graph_f) (fun _ => 0) 20 query_b
        blank_pool zero_solution).map
      (fun r => (r.target, r.sol.sum_of_edge_costs_, r.sol.path_,
        r.sol.nodes_touched_))
      = some (some 2, 10, [2, 0], 0)
    ∧ path_cost graph_f [0, 1, 2] = some 2
    ∧ path_cost graph_f [0, 2] = some 10 ∧ path_cost graph_f [1, 2] = some 1
    ∧ (heuristic_f.h 2 2).1 = 0
    ∧ (∀ u ∈ List.range 3, ∀ e ∈ graph_f.succ u,
        0 ≤ (heuristic_f.h u 2).1 ∧ 0 ≤ e.2
        ∧ (heuristic_f.h u 2).1 ≤ e.2 + (heuristic_f.h e.1 2).1)) := by
  refine ⟨⟨by decide, by decide, by decide, by decide⟩,
    ⟨by decide, by decide, by decide, by decide, by decide, by decide⟩⟩

set_option maxRecDepth 100000 in
/-- Claim C2 (evaluation at the failing input). On graph B the incumbent is
node 1, which is never put on the open list and keeps g = COST_MAX; the
rebuilt target gets g = COST_MAX + 5 in double arithmetic, which is COST_MAX
again and is what get_path reports, while the edges of the returned path
2, 1, 0 sum to 6. -/
theorem get_path_cost_differs_from_path_edges :
    (get_path (cpd_search.new heuristic_b graph_b) (fun _ => 0) 20 query_b
        blank_pool zero_solution).map
      (fun r => (r.sol.sum_of_edge_costs_, r.sol.path_))
      = some (COST_MAX, [2, 1, 0])
    ∧ path_cost graph_b [0, 1, 2] = some 6 := by
  refine ⟨by decide, by decide⟩

/-- Claim C3 (evaluation at the failing input). On graph C the first
successor loop of the start makes node 1 the incumbent with ub 5 and then
replaces it by the target with ub 10; the search then stops on node 1
(f = ub) and returns the target with cost 10. -/
theorem incumbent_ub_increases_at_target :
    first_pass_incumbent_ubs (cpd_search.new heuristic_c graph_c) query_b
        blank_pool zero_solution = [none, some 5, some 10]
    ∧ (get_path (cpd_search.new heuristic_c graph_c) (fun _ => 0) 20 query_b
        blank_pool zero_solution).map
      (fun r => (r.sol.sum_of_edge_costs_, r.sol.path_)) = some (10, [2, 0])
    ∧ path_cost graph_c [0, 1, 2] = some 5 := by
  refine ⟨by decide, by decide, by decide⟩

/-- Claim C4. should_prune_ is false without an incumbent; with an incumbent
it is true exactly when f(n) >= f(incumbent), or ub(n) and ub(incumbent) are
both below COST_MAX and ub(n) >= ub(incumbent). -/
theorem should_prune_iff (incumbent : Option search_node) (n : search_node) :
    should_prune_ none n = false
    ∧ (should_prune_ incumbent n = true ↔
        ∃ inc, incumbent = some inc ∧
          (n.f_ ≥ inc.f_ ∨
            (n.ub_ < COST_MAX ∧ inc.ub_ < COST_MAX ∧ n.ub_ ≥ inc.ub_))) := by
  refine ⟨rfl, ?_⟩
  cases incumbent with
  | none => simp [should_prune_]
  | some inc =>
    simp only [should_prune_, Option.some.injEq, exists_eq_left']
    by_cases h1 : n.f_ ≥ inc.f_
    · by_cases h2 : n.ub_ < COST_MAX ∧ n.ub_ ≥ inc.ub_
      · simp [h1, h2]
      · simp [h1, h2]
    · by_cases h2 : n.ub_ < COST_MAX ∧ n.ub_ ≥ inc.ub_
      · have h3 : inc.ub_ < COST_MAX := lt_of_le_of_lt h2.2 h2.1
        simp [h1, h2, h3]
      · have h4 : ¬ (n.ub_ < COST_MAX ∧ inc.ub_ < COST_MAX ∧ n.ub_ ≥ inc.ub_) :=
          fun h => h2 ⟨h.1, h.2.2⟩
        simp [h1, h2, h4]

theorem early_stop_eq_true_iff (S : cpd_search) (current : search_node)
    (sol : solution) (elapsed : Int) :
    early_stop_ S current sol elapsed = true ↔
      current.f_ > S.cost_cutoff_ ∨ sol.nodes_expanded_ ≥ S.exp_cutoff_
        ∨ elapsed > S.time_cutoff_ ∨ current.f_ = current.ub_ := by
  simp only [early_stop_]
  by_cases h1 : current.f_ > S.cost_cutoff_ <;>
  by_cases h2 : sol.nodes_expanded_ ≥ S.exp_cutoff_ <;>
  by_cases h3 : elapsed > S.time_cutoff_ <;>
  by_cases h4 : current.f_ = current.ub_ <;>
  simp [h1, h2, h3, h4]

theorem pqueue_min_pop_eq_none (nodes : node_pool) (l : List sn_id_t) :
    pqueue_min_pop nodes l = none ↔ l = [] := by
  cases l with
  | nil => simp [pqueue_min_pop]
  | cons x xs => simp [pqueue_min_pop]

theorem expand_once_of_pop (S : cpd_search) (pi : problem_instance)
    (elapsed : Int) (st : search_state) (cur : sn_id_t) (rest : List sn_id_t)
    (hp : pqueue_min_pop st.nodes st.open_ = some (cur, rest)) :
    expand_once S pi elapsed st =
      if early_stop_ S ((popped st cur rest).nodes cur) (popped st cur rest).sol
          elapsed = true then
        loop_exit.early_stop (popped st cur rest)
      else if should_prune_
          ((popped st cur rest).incumbent.map (popped st cur rest).nodes)
          ((popped st cur rest).nodes cur) = true then
        loop_exit.again (popped st cur rest)
      else
        loop_exit.again ((S.expander_.succ cur).foldl (relax_step cur)
          ((S.expander_.succ cur).foldl (generate_step S pi cur)
            (popped st cur rest))) := by
  unfold expand_once
  rw [hp]

/-- Claim C5 (counterexample). With the expansion cutoff set to 1 the first
pop already stops the search (one expansion counted, nothing generated):
early_stop_ holds although f is below the cost cutoff, the number of
expansions does not exceed the cutoff, no time has elapsed and f differs from
ub. -/
theorem early_stop_at_cutoff_not_beyond :
    ¬ (early_stop_
          ((cpd_search.new heuristic_a graph_a).set_max_expansions_cutoff 1)
          { blank_node with f_ := 0 }
          { zero_solution with nodes_expanded_ := 1 } 0 = true ↔
        (0 > ((cpd_search.new heuristic_a graph_a).set_max_expansions_cutoff
                1).cost_cutoff_
          ∨ 1 > ((cpd_search.new heuristic_a graph_a).set_max_expansions_cutoff
                1).exp_cutoff_
          ∨ 0 > ((cpd_search.new heuristic_a graph_a).set_max_expansions_cutoff
                1).time_cutoff_
          ∨ (0 : cost_t) = COST_MAX))
    ∧ (get_path
          ((cpd_search.new heuristic_a graph_a).set_max_expansions_cutoff 1)
          (fun _ => 0) 20 query_a blank_pool zero_solution).map
        (fun r => (r.target, r.sol.nodes_expanded_, r.sol.nodes_touched_))
        = some (none, 1, 0) := by
  refine ⟨by decide, by decide⟩

/-- Claim C5 (as amended). early_stop_ holds exactly when the popped node's
f exceeds the cost cutoff, or the number of expansions (the popped node
counted) has reached the expansion cutoff, or the elapsed time exceeds the
time cutoff, or the popped node's f equals its ub; a pass of the expansion
loop ends the loop exactly when the open list is empty or early_stop_ holds
for the node just popped, and otherwise the loop goes on with the next
pass. -/
theorem early_stop_iff_and_loop_exit (S : cpd_search) (pi : problem_instance)
    (timer : Nat → Int) (fuel k : Nat) (st : search_state)
    (current : search_node) (sol : solution) (elapsed : Int) :
    (early_stop_ S current sol elapsed = true ↔
        current.f_ > S.cost_cutoff_ ∨ sol.nodes_expanded_ ≥ S.exp_cutoff_
          ∨ elapsed > S.time_cutoff_ ∨ current.f_ = current.ub_)
    ∧ ((∀ st1, expand_once S pi elapsed st ≠ loop_exit.again st1) ↔
        (st.open_ = [] ∨
          ∃ cur rest, pqueue_min_pop st.nodes st.open_ = some (cur, rest) ∧
            early_stop_ S ((popped st cur rest).nodes cur)
              (popped st cur rest).sol elapsed = true))
    ∧ expand_loop S pi timer (fuel + 1) k st =
        (match expand_once S pi (timer k) st with
          | loop_exit.open_empty st1 => some st1
          | loop_exit.early_stop st1 => some st1
          | loop_exit.again st1 => expand_loop S pi timer fuel (k + 1) st1) := by
  refine ⟨early_stop_eq_true_iff S current sol elapsed, ?_, rfl⟩
  by_cases ho : st.open_ = []
  · have hp : pqueue_min_pop st.nodes st.open_ = none :=
      (pqueue_min_pop_eq_none _ _).2 ho
    constructor
    · intro _; exact Or.inl ho
    · intro _ st1
      simp [expand_once, hp]
  · obtain ⟨cur, rest, hp⟩ : ∃ cur rest,
        pqueue_min_pop st.nodes st.open_ = some (cur, rest) := by
      cases hq : pqueue_min_pop st.nodes st.open_ with
      | none => exact absurd ((pqueue_min_pop_eq_none _ _).1 hq) ho
      | some cr => exact ⟨cr.1, cr.2, rfl⟩
    rw [expand_once_of_pop S pi elapsed st cur rest hp]
    by_cases hes : early_stop_ S ((popped st cur rest).nodes cur)
        (popped st cur rest).sol elapsed = true
    · constructor
      · intro _; exact Or.inr ⟨cur, rest, hp, hes⟩
      · intro _ st1
        rw [if_pos hes]
        simp
    · constructor
      · intro hall
        exfalso
        rw [if_neg hes] at hall
        by_cases hpr : should_prune_
            ((popped st cur rest).incumbent.map (popped st cur rest).nodes)
            ((popped st cur rest).nodes cur) = true
        · rw [if_pos hpr] at hall
          exact hall _ rfl
        · rw [if_neg hpr] at hall
          exact hall _ rfl
      · intro hor
        exfalso
        rcases hor with h0 | ⟨c2, r2, hp2, hes2⟩
        · exact ho h0
        · rw [hp] at hp2
          simp only [Option.some.injEq, Prod.mk.injEq] at hp2
          obtain ⟨hc, hr⟩ := hp2
          subst hc hr
          exact hes hes2

/-- Claim C9. When the start id is SN_ID_MAX, or the expander cannot
generate the start node, or a target id is given and the expander cannot
generate the target node, get_path returns (whatever the fuel) with a null
target, an untouched node pool and the reset solution: nothing inserted,
nothing expanded, an empty path and the reset cost. The weighted-grid policy
generates no start (target) node for an id that is at least
header_width * header_height. -/
theorem get_path_invalid_endpoints (S : cpd_search) (timer : Nat → Int)
    (fuel : Nat) (pi : problem_instance) (nodes : node_pool) (sol : solution)
    (h : pi.start_id_ = SN_ID_MAX
      ∨ (∀ p : problem_instance, p.start_id_ = pi.start_id_ →
            S.expander_.generate_start_node p = none)
      ∨ (pi.target_id_ ≠ SN_ID_MAX ∧ S.expander_.generate_target_node pi = none)) :
    (∃ r, get_path S timer fuel pi nodes sol = some r ∧ r.target = none
        ∧ r.nodes = nodes ∧ r.sol = sol.reset
        ∧ r.sol.nodes_inserted_ = 0 ∧ r.sol.nodes_expanded_ = 0
        ∧ r.sol.path_ = [] ∧ r.sol.sum_of_edge_costs_ = INF)
    ∧ (∀ (w hh : Nat) (pad : Nat → Nat) (p : problem_instance),
        (w * hh ≤ p.start_id_ → wgridmap_generate_start_node w hh pad p = none)
        ∧ (w * hh ≤ p.target_id_ →
            wgridmap_generate_target_node w hh pad p = none)) := by
  constructor
  · have key : ∃ r, search_init S pi nodes sol.reset = Sum.inl r ∧
        r.target = none ∧ r.nodes = nodes ∧ r.sol = sol.reset := by
      unfold search_init resolve_target
      rcases h with h | h | h
      · by_cases ht : pi.target_id_ ≠ SN_ID_MAX
        · cases hg : S.expander_.generate_target_node pi with
          | none => simp [ht, hg]
          | some t => simp [ht, hg, h]
        · simp [ht, h]
      · by_cases ht : pi.target_id_ ≠ SN_ID_MAX
        · cases hg : S.expander_.generate_target_node pi with
          | none => simp [ht, hg]
          | some t =>
            by_cases hs : pi.start_id_ = SN_ID_MAX
            · simp [ht, hg, hs]
            · simp [ht, hg, hs, h { pi with target_id_ := t } rfl]
        · by_cases hs : pi.start_id_ = SN_ID_MAX
          · simp [ht, hs]
          · simp [ht, hs, h pi rfl]
      · simp [h.1, h.2]
    obtain ⟨r, hr, h1, h2, h3⟩ := key
    refine ⟨r, ?_, h1, h2, h3, ?_, ?_, ?_, ?_⟩
    · simp [get_path, search, hr, h1]
    · rw [h3]; rfl
    · rw [h3]; rfl
    · rw [h3]; rfl
    · rw [h3]; rfl
  · intro w hh pad p
    constructor
    · intro hle
      have : (w * hh) % 2 ^ 32 ≤ p.start_id_ :=
        le_trans (Nat.mod_le _ _) hle
      simp only [wgridmap_generate_start_node, ge_iff_le, this, if_true]
    · intro hle
      have : (w * hh) % 2 ^ 32 ≤ p.target_id_ :=
        le_trans (Nat.mod_le _ _) hle
      simp only [wgridmap_generate_target_node, ge_iff_le, this, if_true]

theorem get_path_invalid_endpoints_witness :
    (∃ r, get_path (cpd_search.new heuristic_a graph_a) (fun _ => 0) 0
          { start_id_ := 7, target_id_ := 4, instance_id_ := 1 }
          blank_pool zero_solution = some r ∧ r.target = none
        ∧ r.nodes = blank_pool ∧ r.sol = zero_solution.reset
        ∧ r.sol.nodes_inserted_ = 0 ∧ r.sol.nodes_expanded_ = 0
        ∧ r.sol.path_ = [] ∧ r.sol.sum_of_edge_costs_ = INF)
    ∧ (∀ (w hh : Nat) (pad : Nat → Nat) (p : problem_instance),
        (w * hh ≤ p.start_id_ → wgridmap_generate_start_node w hh pad p = none)
        ∧ (w * hh ≤ p.target_id_ →
            wgridmap_generate_target_node w hh pad p = none)) :=
  get_path_invalid_endpoints (cpd_search.new heuristic_a graph_a) (fun _ => 0) 0
    { start_id_ := 7, target_id_ := 4, instance_id_ := 1 }
    blank_pool zero_solution
    (Or.inr (Or.inl (fun p hp => by
      simp only [cpd_search.new, graph_a, graph_policy]
      rw [hp]
      decide)))

/-- Claim C6 (evaluation at the failing input). On graph D, with an
admissible lower bound, search returns the target 5 whose parent chain is
5, 4, 2, 4, 2, ...: node 4 keeps the parent 2 it was generated (and pruned)
under when node 3 later gives it its g, and node 2 is then relaxed through
node 4. The backpointer walk of get_path never reaches a node without a
parent, for any number of steps. -/
theorem get_path_parent_walk_cycles :
    ∃ r, search (cpd_search.new heuristic_d graph_d) (fun _ => 0) 20 query_d
          blank_pool zero_solution.reset = some r
      ∧ r.target = some 5
      ∧ (r.nodes 5).parent_id_ = 4 ∧ (r.nodes 4).parent_id_ = 2
      ∧ (r.nodes 2).parent_id_ = 4
      ∧ ∀ fuel, follow_parents r.nodes fuel 5 = none := by
  have h : (search (cpd_search.new heuristic_d graph_d) (fun _ => 0) 20 query_d
      blank_pool zero_solution.reset).map
        (fun r => (r.target, (r.nodes 5).parent_id_, (r.nodes 4).parent_id_,
          (r.nodes 2).parent_id_)) = some (some 5, 4, 2, 4) := by decide
  cases hs : search (cpd_search.new heuristic_d graph_d) (fun _ => 0) 20 query_d
      blank_pool zero_solution.reset with
  | none => rw [hs] at h; simp at h
  | some r =>
    rw [hs] at h
    simp only [Option.map_some', Option.some.injEq, Prod.mk.injEq] at h
    obtain ⟨h1, h2, h3, h4⟩ := h
    refine ⟨r, rfl, h1, h2, h3, h4, ?_⟩
    intro fuel
    have hc := follow_parents_cycle r.nodes 4 2 h3 h4 (by decide) (by decide)
    cases fuel with
    | zero => rfl
    | succ k =>
      have h5 : (r.nodes 5).parent_id_ ≠ SN_ID_MAX := by rw [h2]; decide
      simp only [follow_parents, h5, if_false]
      rw [h2, (hc k).1]

theorem generate_step_nodes_expanded (S : cpd_search) (pi : problem_instance)
    (cur : sn_id_t) (st : search_state) (e : sn_id_t × cost_t) :
    (generate_step S pi cur st e).sol.nodes_expanded_ = st.sol.nodes_expanded_ := by
  unfold generate_step
  simp only
  repeat' split
  all_goals rfl

theorem relax_step_nodes_expanded (cur : sn_id_t) (st : search_state)
    (e : sn_id_t × cost_t) :
    (relax_step cur st e).sol.nodes_expanded_ = st.sol.nodes_expanded_ := by
  unfold relax_step
  simp only
  repeat' split
  all_goals rfl

theorem foldl_generate_step_nodes_expanded (S : cpd_search)
    (pi : problem_instance) (cur : sn_id_t) (l : List (sn_id_t × cost_t))
    (st : search_state) :
    (l.foldl (generate_step S pi cur) st).sol.nodes_expanded_
      = st.sol.nodes_expanded_ := by
  induction l generalizing st with
  | nil => rfl
  | cons e l ih => rw [List.foldl_cons, ih, generate_step_nodes_expanded]

theorem foldl_relax_step_nodes_expanded (cur : sn_id_t)
    (l : List (sn_id_t × cost_t)) (st : search_state) :
    (l.foldl (relax_step cur) st).sol.nodes_expanded_
      = st.sol.nodes_expanded_ := by
  induction l generalizing st with
  | nil => rfl
  | cons e l ih => rw [List.foldl_cons, ih, relax_step_nodes_expanded]

theorem expand_once_nodes_expanded (S : cpd_search) (pi : problem_instance)
    (elapsed : Int) (st : search_state)
    (hlt : st.sol.nodes_expanded_ < S.exp_cutoff_) :
    match expand_once S pi elapsed st with
    | loop_exit.open_empty st1 => st1.sol.nodes_expanded_ ≤ S.exp_cutoff_
    | loop_exit.early_stop st1 => st1.sol.nodes_expanded_ ≤ S.exp_cutoff_
    | loop_exit.again st1 => st1.sol.nodes_expanded_ < S.exp_cutoff_ := by
  cases hp : pqueue_min_pop st.nodes st.open_ with
  | none =>
    simp only [expand_once, hp]
    exact le_of_lt hlt
  | some cr =>
    obtain ⟨cur, rest⟩ := cr
    rw [expand_once_of_pop S pi elapsed st cur rest hp]
    have hmod : (popped st cur rest).sol.nodes_expanded_ ≤ S.exp_cutoff_ :=
      le_trans (Nat.mod_le _ _) hlt
    by_cases hes : early_stop_ S ((popped st cur rest).nodes cur)
        (popped st cur rest).sol elapsed = true
    · rw [if_pos hes]
      exact hmod
    · have hlt2 : (popped st cur rest).sol.nodes_expanded_ < S.exp_cutoff_ := by
        by_contra hc
        apply hes
        rw [early_stop_eq_true_iff]
        right; left
        omega
      rw [if_neg hes]
      by_cases hpr : should_prune_
          ((popped st cur rest).incumbent.map (popped st cur rest).nodes)
          ((popped st cur rest).nodes cur) = true
      · rw [if_pos hpr]
        exact hlt2
      · rw [if_neg hpr]
        simp only
        rw [foldl_relax_step_nodes_expanded, foldl_generate_step_nodes_expanded]
        exact hlt2

theorem expand_loop_nodes_expanded (S : cpd_search) (pi : problem_instance)
    (timer : Nat → Int) (fuel : Nat) :
    ∀ (k : Nat) (st st1 : search_state),
      st.sol.nodes_expanded_ < S.exp_cutoff_ →
      expand_loop S pi timer fuel k st = some st1 →
      st1.sol.nodes_expanded_ ≤ S.exp_cutoff_ := by
  induction fuel with
  | zero => intro k st st1 _ h; simp [expand_loop] at h
  | succ n ih =>
    intro k st st1 hlt h
    have h1 := expand_once_nodes_expanded S pi (timer k) st hlt
    simp only [expand_loop] at h
    cases hx : expand_once S pi (timer k) st with
    | open_empty s2 =>
      rw [hx] at h h1
      simp only [Option.some.injEq] at h
      rw [← h]; exact h1
    | early_stop s2 =>
      rw [hx] at h h1
      simp only [Option.some.injEq] at h
      rw [← h]; exact h1
    | again s2 =>
      rw [hx] at h h1
      exact ih (k + 1) s2 st1 h1 h

theorem resolve_target_some (S : cpd_search) (pi pi1 : problem_instance)
    (h : resolve_target S pi = some pi1) :
    pi1.instance_id_ = pi.instance_id_ ∧ pi1.start_id_ = pi.start_id_ := by
  unfold resolve_target at h
  by_cases ht : pi.target_id_ ≠ SN_ID_MAX
  · rw [if_pos ht] at h
    cases hg : S.expander_.generate_target_node pi with
    | none => rw [hg] at h; simp at h
    | some t =>
      rw [hg] at h
      simp only [Option.some.injEq] at h
      subst h
      exact ⟨rfl, rfl⟩
  · rw [if_neg ht] at h
    simp only [Option.some.injEq] at h
    subst h
    exact ⟨rfl, rfl⟩

theorem search_init_inl (S : cpd_search) (pi : problem_instance)
    (nodes : node_pool) (sol : solution) (r : search_result)
    (h : search_init S pi nodes sol = Sum.inl r) :
    r.target = none ∧ r.nodes = nodes ∧ r.sol = sol := by
  unfold search_init at h
  cases hrt : resolve_target S pi with
  | none =>
    rw [hrt] at h
    simp only [Sum.inl.injEq] at h
    subst h
    exact ⟨rfl, rfl, rfl⟩
  | some pi1 =>
    rw [hrt] at h
    simp only at h
    by_cases hs : pi1.start_id_ = SN_ID_MAX
    · rw [if_pos hs] at h
      simp only [Sum.inl.injEq] at h
      subst h
      exact ⟨rfl, rfl, rfl⟩
    · rw [if_neg hs] at h
      cases hg : S.expander_.generate_start_node pi1 with
      | none =>
        rw [hg] at h
        simp only [Sum.inl.injEq] at h
        subst h
        exact ⟨rfl, rfl, rfl⟩
      | some s0 => rw [hg] at h; simp at h

theorem search_init_inr (S : cpd_search) (pi : problem_instance)
    (nodes : node_pool) (sol : solution) (pi2 : problem_instance)
    (st : search_state)
    (h : search_init S pi nodes sol = Sum.inr (pi2, st)) :
    pi2.instance_id_ = pi.instance_id_
    ∧ st.nodes = nodes.set pi2.start_id_
        ((nodes pi2.start_id_).init pi2.instance_id_ SN_ID_MAX 0
          (S.heuristic_.h pi2.start_id_ pi2.target_id_).1
          (S.heuristic_.h pi2.start_id_ pi2.target_id_).2)
    ∧ st.open_ = [pi2.start_id_]
    ∧ st.incumbent =
        (if (S.heuristic_.h pi2.start_id_ pi2.target_id_).2 < COST_MAX
          then some pi2.start_id_ else none)
    ∧ st.sol = { sol with
        nodes_inserted_ := (sol.nodes_inserted_ + 1) % 2 ^ 32 } := by
  unfold search_init at h
  cases hrt : resolve_target S pi with
  | none => rw [hrt] at h; simp at h
  | some pi1 =>
    rw [hrt] at h
    simp only at h
    by_cases hs : pi1.start_id_ = SN_ID_MAX
    · rw [if_pos hs] at h; simp at h
    · rw [if_neg hs] at h
      cases hg : S.expander_.generate_start_node pi1 with
      | none => rw [hg] at h; simp at h
      | some s0 =>
        rw [hg] at h
        simp only [Sum.inr.injEq, Prod.mk.injEq] at h
        obtain ⟨h1, h2⟩ := h
        subst h1 h2
        exact ⟨(resolve_target_some S pi pi1 hrt).1, rfl, rfl, rfl, rfl⟩

/-- Claim C10. For every expansion cutoff k with 1 <= k < 2^32 set with
set_max_expansions_cutoff, when get_path (search) returns, the number of
expanded nodes it reports is at most k. -/
theorem nodes_expanded_le_cutoff (S : cpd_search) (timer : Nat → Int)
    (fuel k : Nat) (pi : problem_instance) (nodes : node_pool) (sol : solution)
    (r : search_result) (hk1 : 1 ≤ k) (hk2 : k < 2 ^ 32)
    (hr : get_path (S.set_max_expansions_cutoff k) timer fuel pi nodes sol
            = some r) :
    r.sol.nodes_expanded_ ≤ k := by
  have hcut : (S.set_max_expansions_cutoff k).exp_cutoff_ = k := by
    simp only [cpd_search.set_max_expansions_cutoff]
    exact Nat.mod_eq_of_lt hk2
  have hsearch : ∀ r1, search (S.set_max_expansions_cutoff k) timer fuel pi
      nodes sol.reset = some r1 → r1.sol.nodes_expanded_ ≤ k := by
    intro r1 h1
    unfold search at h1
    cases hsi : search_init (S.set_max_expansions_cutoff k) pi nodes sol.reset with
    | inl r0 =>
      rw [hsi] at h1
      simp only [Option.some.injEq] at h1
      rw [← h1, (search_init_inl _ _ _ _ _ hsi).2.2]
      exact Nat.zero_le _
    | inr ps =>
      obtain ⟨pi2, st0⟩ := ps
      rw [hsi] at h1
      simp only at h1
      by_cases hnull :
          null_incumbent_read (S.set_max_expansions_cutoff k) pi2 = true
      · rw [if_pos hnull] at h1; simp at h1
      rw [if_neg hnull] at h1
      have hi : st0.sol.nodes_expanded_ = 0 := by
        rw [(search_init_inr _ _ _ _ _ _ hsi).2.2.2.2]; rfl
      cases hl : expand_loop (S.set_max_expansions_cutoff k) pi2 timer fuel 0 st0 with
      | none => rw [hl] at h1; simp at h1
      | some st =>
        rw [hl] at h1
        simp only at h1
        have hle := expand_loop_nodes_expanded (S.set_max_expansions_cutoff k)
          pi2 timer fuel 0 st0 st (by rw [hi, hcut]; exact hk1) hl
        cases hb : rebuild (S.set_max_expansions_cutoff k) pi2 fuel st.nodes
            st.incumbent with
        | none => rw [hb] at h1; simp at h1
        | some nr =>
          rw [hb] at h1
          simp only [Option.some.injEq] at h1
          rw [← h1]
          rw [hcut] at hle
          exact hle
  unfold get_path at hr
  cases hs : search (S.set_max_expansions_cutoff k) timer fuel pi nodes
      sol.reset with
  | none => rw [hs] at hr; simp at hr
  | some r1 =>
    rw [hs] at hr
    have h1 := hsearch r1 hs
    simp only at hr
    cases ht : r1.target with
    | none =>
      rw [ht] at hr
      simp only [Option.some.injEq] at hr
      rw [← hr]; exact h1
    | some t =>
      rw [ht] at hr
      simp only at hr
      cases hf : follow_parents r1.nodes fuel t with
      | none => rw [hf] at hr; simp at hr
      | some path =>
        rw [hf] at hr
        simp only [Option.some.injEq] at hr
        rw [← hr]; exact h1

theorem nodes_expanded_le_cutoff_witness :
    ((get_path ((cpd_search.new heuristic_a graph_a).set_max_expansions_cutoff 2)
        (fun _ => 0) 20 query_a blank_pool zero_solution).get
      (by decide)).sol.nodes_expanded_ ≤ 2 :=
  nodes_expanded_le_cutoff (cpd_search.new heuristic_a graph_a) (fun _ => 0) 20 2
    query_a blank_pool zero_solution _ (by decide) (by decide)
    (Option.some_get _).symm

theorem next_chain_succ_left (S : cpd_search) (pi : problem_instance)
    (n : sn_id_t) (k : Nat) :
    next_chain S pi (S.heuristic_.next n pi.target_id_) k
      = next_chain S pi n (k + 1) := by
  induction k with
  | zero => rfl
  | succ k ih => simp only [next_chain, ih]

theorem next_chain_shift (S : cpd_search) (pi : problem_instance)
    (n : sn_id_t) (i j : Nat)
    (h : next_chain S pi n i = next_chain S pi n j) (t : Nat) :
    next_chain S pi n (i + t) = next_chain S pi n (j + t) := by
  induction t with
  | zero => exact h
  | succ t ih =>
    show next_chain S pi n (i + t + 1) = next_chain S pi n (j + t + 1)
    simp only [next_chain, ih]

/-- The nodes of the chain up to the node at which the rebuild loop stops
are pairwise different. -/
theorem next_chain_distinct (S : cpd_search) (pi : problem_instance)
    (n : sn_id_t) (m : Nat)
    (hgo : ∀ j < m, S.expander_.is_target (next_chain S pi n j) pi = false
      ∧ next_chain S pi n (j + 1) ≠ SN_ID_MAX)
    (hstop : ¬ (S.expander_.is_target (next_chain S pi n m) pi = false
      ∧ next_chain S pi n (m + 1) ≠ SN_ID_MAX))
    (i j : Nat) (hij : i < j) (hjm : j ≤ m) :
    next_chain S pi n i ≠ next_chain S pi n j := by
  intro heq
  have h1 := next_chain_shift S pi n i j heq (m - j)
  have h2 := next_chain_shift S pi n i j heq (m - j + 1)
  have hj : j + (m - j) = m := by omega
  have hj2 : j + (m - j + 1) = m + 1 := by omega
  rw [hj] at h1
  rw [hj2] at h2
  have hlt : i + (m - j) < m := by omega
  have hgo1 := hgo (i + (m - j)) hlt
  apply hstop
  rw [← h1]
  refine ⟨hgo1.1, ?_⟩
  have : i + (m - j) + 1 = i + (m - j + 1) := by omega
  rw [← h2, ← this]
  exact hgo1.2

theorem rebuild_none (S : cpd_search) (pi : problem_instance) (fuel : Nat)
    (nodes nodes1 : node_pool) (r : Option sn_id_t)
    (h : rebuild S pi fuel nodes none = some (nodes1, r)) :
    nodes1 = nodes ∧ r = none := by
  cases fuel with
  | zero => simp [rebuild] at h
  | succ k =>
    simp only [rebuild, Option.some.injEq, Prod.mk.injEq] at h
    exact ⟨h.1.symm, h.2.symm⟩

/-- What the rebuild loop does from a given incumbent `n`: it follows the
chain for `m` steps, stops at the first node that is the target or has no
next node, leaves every node off the chain alone, and gives each node of the
chain its predecessor as parent and the predecessor's g plus the edge cost
(a sum of doubles) as g. -/
theorem rebuild_some_spec (S : cpd_search) (pi : problem_instance) (fuel : Nat) :
    ∀ (nodes nodes1 : node_pool) (n : sn_id_t) (r : Option sn_id_t),
      rebuild S pi fuel nodes (some n) = some (nodes1, r) →
      ∃ m, (∀ j < m, S.expander_.is_target (next_chain S pi n j) pi = false
              ∧ next_chain S pi n (j + 1) ≠ SN_ID_MAX)
        ∧ ¬ (S.expander_.is_target (next_chain S pi n m) pi = false
              ∧ next_chain S pi n (m + 1) ≠ SN_ID_MAX)
        ∧ r = (if S.expander_.is_target (next_chain S pi n m) pi = true
                then some (next_chain S pi n m) else none)
        ∧ (∀ x, (∀ j < m, x ≠ next_chain S pi n (j + 1)) → nodes1 x = nodes x)
        ∧ (∀ k < m, (nodes1 (next_chain S pi n (k + 1))).parent_id_
                = next_chain S pi n k
            ∧ (nodes1 (next_chain S pi n (k + 1))).g_
                = cost_add (nodes1 (next_chain S pi n k)).g_
                    (get_cost_ S.expander_ (next_chain S pi n k)
                      (next_chain S pi n (k + 1)))) := by
  induction fuel with
  | zero => intro nodes nodes1 n r h; simp [rebuild] at h
  | succ fuel ih =>
    intro nodes nodes1 n r h
    simp only [rebuild] at h
    by_cases ht : S.expander_.is_target n pi = true
    · rw [if_pos ht] at h
      simp only [Option.some.injEq, Prod.mk.injEq] at h
      refine ⟨0, ?_, ?_, ?_, ?_, ?_⟩
      · intro j hj; omega
      · simp [next_chain, ht]
      · simp [next_chain, ht, h.2]
      · intro x _; rw [h.1]
      · intro k hk; omega
    · rw [if_neg ht] at h
      have htf : S.expander_.is_target n pi = false := by
        cases hb : S.expander_.is_target n pi with
        | true => exact absurd hb ht
        | false => rfl
      by_cases hn : S.heuristic_.next n pi.target_id_ = SN_ID_MAX
      · rw [if_pos hn] at h
        obtain ⟨h1, h2⟩ := rebuild_none S pi fuel nodes nodes1 r h
        refine ⟨0, ?_, ?_, ?_, ?_, ?_⟩
        · intro j hj; omega
        · simp [next_chain, hn]
        · simp [next_chain, htf, h2]
        · intro x _; rw [h1]
        · intro k hk; omega
      · rw [if_neg hn] at h
        obtain ⟨m, hgo, hstop, hr, hframe, hchain⟩ := ih _ nodes1 _ r h
        simp only [next_chain_succ_left] at hgo hstop hr hframe hchain
        have hgo2 : ∀ j < m + 1,
            S.expander_.is_target (next_chain S pi n j) pi = false
              ∧ next_chain S pi n (j + 1) ≠ SN_ID_MAX := by
          intro j hj
          cases j with
          | zero => exact ⟨htf, hn⟩
          | succ j => exact hgo j (by omega)
        have hdist := next_chain_distinct S pi n (m + 1) hgo2 hstop
        refine ⟨m + 1, hgo2, hstop, hr, ?_, ?_⟩
        · intro x hx
          have h0 : x ≠ S.heuristic_.next n pi.target_id_ := hx 0 (by omega)
          rw [hframe x (fun j hj => hx (j + 1) (by omega))]
          simp [node_pool.set, h0]
        · intro k hk
          cases k with
          | zero =>
            have hA : nodes1 (next_chain S pi n 1)
                = (nodes.set (S.heuristic_.next n pi.target_id_)
                    ((nodes (S.heuristic_.next n pi.target_id_)).relax
                      (cost_add (nodes n).g_ (get_cost_ S.expander_ n
                        (S.heuristic_.next n pi.target_id_))) n))
                  (next_chain S pi n 1) :=
              hframe _ (fun j hj => hdist 1 (j + 1 + 1) (by omega) (by omega))
            have hB : nodes1 (next_chain S pi n 0)
                = (nodes.set (S.heuristic_.next n pi.target_id_)
                    ((nodes (S.heuristic_.next n pi.target_id_)).relax
                      (cost_add (nodes n).g_ (get_cost_ S.expander_ n
                        (S.heuristic_.next n pi.target_id_))) n))
                  (next_chain S pi n 0) :=
              hframe _ (fun j hj => hdist 0 (j + 1 + 1) (by omega) (by omega))
            have h01 : next_chain S pi n 0 ≠ next_chain S pi n 1 :=
              hdist 0 1 (by omega) (by omega)
            rw [hA, hB]
            simp only [next_chain] at h01 ⊢
            simp [node_pool.set, search_node.relax, h01]
          | succ k => exact hchain k (by omega)

theorem get_cost_of_no_edge (E : expansion_policy) (p n : sn_id_t)
    (h : ∀ e ∈ E.succ p, e.1 ≠ n) : get_cost_ E p n = COST_MAX := by
  unfold get_cost_
  have hf : (E.succ p).find? (fun e => e.1 == n) = none := by
    rw [List.find?_eq_none]
    intro e he
    simpa using h e he
  rw [hf]

theorem find_first_edge (n : sn_id_t) (c : cost_t)
    (post : List (sn_id_t × cost_t)) :
    ∀ pre : List (sn_id_t × cost_t), (∀ e ∈ pre, e.1 ≠ n) →
      (pre ++ (n, c) :: post).find? (fun e => e.1 == n) = some (n, c) := by
  intro pre
  induction pre with
  | nil => intro _; simp
  | cons a pre ih =>
    intro hpre
    have ha : a.1 ≠ n := hpre a (List.mem_cons_self _ _)
    have hrest : ∀ e ∈ pre, e.1 ≠ n :=
      fun e he => hpre e (List.mem_cons_of_mem _ he)
    rw [List.cons_append, List.find?_cons_of_neg _ (by simpa using ha)]
    exact ih hrest

theorem get_cost_of_first_edge (E : expansion_policy) (p n : sn_id_t)
    (pre : List (sn_id_t × cost_t)) (c : cost_t)
    (post : List (sn_id_t × cost_t))
    (hs : E.succ p = pre ++ (n, c) :: post) (hpre : ∀ e ∈ pre, e.1 ≠ n) :
    get_cost_ E p n = c := by
  unfold get_cost_
  rw [hs, find_first_edge n c post pre hpre]

theorem round_double_exact (z : Int) (h : z.natAbs < 9007199254740992) :
    round_double z = z := by
  unfold round_double
  have hu : double_ulp z.natAbs 972 1 = some 1 := by
    show (if z.natAbs < 9007199254740992 * 1 then some 1
      else double_ulp z.natAbs 971 (2 * 1)) = some 1
    rw [if_pos (by omega)]
  rw [hu]
  simp only [Nat.div_one, Nat.mod_one, Nat.mul_one]
  have h1 : ¬ (1 < 2 * 0 ∨ (2 * 0 = 1 ∧ z.natAbs % 2 = 1)) := by omega
  rw [if_neg h1]
  have h2 : ¬ DOUBLE_OVERFLOW ≤ z.natAbs := by
    have : (9007199254740992 : Nat) ≤ DOUBLE_OVERFLOW := by decide
    omega
  rw [if_neg h2]
  exact Int.sign_mul_natAbs z

theorem cost_add_exact (a b : cost_t) (ha : a.natAbs < 9007199254740992)
    (hb : b.natAbs < 9007199254740992)
    (hab : (a + b).natAbs < 9007199254740992) : cost_add a b = a + b := by
  have hov : (9007199254740992 : Nat) ≤ DOUBLE_OVERFLOW := by decide
  unfold cost_add
  rw [if_neg (by omega), if_neg (by omega)]
  exact round_double_exact _ hab

/-- What the rebuild loop of a search that returned made of the incumbent
`inc0` the expansion loop ended with. -/
theorem rebuild_result_spec (S : cpd_search) (pi2 : problem_instance)
    (fuel : Nat) (nodes0 nodes1 : node_pool) (inc0 tgt : Option sn_id_t)
    (hb : rebuild S pi2 fuel nodes0 inc0 = some (nodes1, tgt)) :
    (∀ t, tgt = some t → S.expander_.is_target t pi2 = true)
    ∧ (tgt = none ↔
        (inc0 = none ∨
          ∃ inc k, inc0 = some inc
            ∧ (∀ j ≤ k, S.expander_.is_target
                  (next_chain S pi2 inc j) pi2 = false)
            ∧ (∀ j < k, next_chain S pi2 inc (j + 1) ≠ SN_ID_MAX)
            ∧ next_chain S pi2 inc (k + 1) = SN_ID_MAX))
    ∧ (∀ inc, inc0 = some inc → ∀ k,
        (∀ j ≤ k, S.expander_.is_target (next_chain S pi2 inc j) pi2 = false
            ∧ next_chain S pi2 inc (j + 1) ≠ SN_ID_MAX) →
        (nodes1 (next_chain S pi2 inc (k + 1))).parent_id_
            = next_chain S pi2 inc k
        ∧ (nodes1 (next_chain S pi2 inc (k + 1))).g_
            = cost_add (nodes1 (next_chain S pi2 inc k)).g_
                (get_cost_ S.expander_ (next_chain S pi2 inc k)
                  (next_chain S pi2 inc (k + 1)))) := by
  cases hinc : inc0 with
  | none =>
    rw [hinc] at hb
    obtain ⟨_, h2⟩ := rebuild_none S pi2 fuel nodes0 nodes1 tgt hb
    subst h2
    refine ⟨?_, ?_, ?_⟩
    · intro t ht; simp at ht
    · simp
    · intro inc hi; simp at hi
  | some inc =>
    rw [hinc] at hb
    obtain ⟨m, hgo, hstop, hres, _, hchain⟩ :=
      rebuild_some_spec S pi2 fuel nodes0 nodes1 inc tgt hb
    refine ⟨?_, ?_, ?_⟩
    · intro t ht
      by_cases htm : S.expander_.is_target (next_chain S pi2 inc m) pi2
          = true
      · rw [if_pos htm] at hres
        rw [hres] at ht
        simp only [Option.some.injEq] at ht
        rw [← ht]; exact htm
      · rw [if_neg htm] at hres
        rw [hres] at ht
        simp at ht
    · constructor
      · intro hnone
        right
        have htm : S.expander_.is_target (next_chain S pi2 inc m) pi2
            = false := by
          cases hq : S.expander_.is_target (next_chain S pi2 inc m) pi2 with
          | false => rfl
          | true =>
            rw [if_pos hq] at hres
            rw [hres] at hnone
            simp at hnone
        refine ⟨inc, m, rfl, ?_, ?_, ?_⟩
        · intro j hj
          by_cases hjm : j < m
          · exact (hgo j hjm).1
          · have : j = m := by omega
            rw [this]; exact htm
        · intro j hj; exact (hgo j hj).2
        · by_contra hne
          exact hstop ⟨htm, hne⟩
      · intro hor
        rcases hor with h0 | ⟨inc2, k, hi2, hk1, hk2, hk3⟩
        · simp at h0
        · simp only [Option.some.injEq] at hi2
          subst hi2
          have htm : S.expander_.is_target (next_chain S pi2 inc m) pi2
              = false := by
            rcases Nat.lt_trichotomy k m with hlt | heq | hgt
            · exact absurd hk3 (hgo k hlt).2
            · rw [← heq]; exact hk1 k (le_refl k)
            · exact hk1 m (le_of_lt hgt)
          rw [hres]
          simp [htm]
    · intro inc2 hi2 k hk
      simp only [Option.some.injEq] at hi2
      subst hi2
      have hkm : k < m := by
        by_contra hge
        exact hstop (hk m (by omega))
      exact hchain k hkm

/-- Claim C7. Whenever search returns, its result is null or a node for
which is_target holds. After an invalid start or target it is null.
Otherwise the expansion loop has ended with a state, and the result is what
the rebuild loop makes of the incumbent of that state: it is null exactly
when there was no incumbent or the chain of heuristic next() from the
incumbent met SN_ID_MAX before a target; and every node n of that chain
reached before the loop stopped has its predecessor p on the chain as parent
and g(n) = g(p) + cost(p, n), a sum of doubles, where cost(p, n) is what
get_cost_ finds: the cost of the first edge to n among the successors the
expander lists for p, and COST_MAX when it lists none. A sum of doubles is
exact while the operands and the result stay below 2^53 in magnitude. -/
theorem search_returns_null_or_target (S : cpd_search) (timer : Nat → Int)
    (fuel : Nat) (pi : problem_instance) (nodes : node_pool) (sol : solution)
    (r : search_result)
    (hr : search S timer fuel pi nodes sol = some r) :
    (∀ t, r.target = some t → S.expander_.is_target t r.pi = true)
    ∧ (∀ r0, search_init S pi nodes sol = Sum.inl r0 → r.target = none)
    ∧ (∀ pi2 st0, search_init S pi nodes sol = Sum.inr (pi2, st0) →
        ∃ st, expand_loop S pi2 timer fuel 0 st0 = some st)
    ∧ (∀ pi2 st0 st, search_init S pi nodes sol = Sum.inr (pi2, st0) →
        expand_loop S pi2 timer fuel 0 st0 = some st →
        r.pi = pi2
        ∧ rebuild S pi2 fuel st.nodes st.incumbent = some (r.nodes, r.target)
        ∧ (r.target = none ↔
            (st.incumbent = none ∨
              ∃ inc k, st.incumbent = some inc
                ∧ (∀ j ≤ k, S.expander_.is_target
                      (next_chain S pi2 inc j) pi2 = false)
                ∧ (∀ j < k, next_chain S pi2 inc (j + 1) ≠ SN_ID_MAX)
                ∧ next_chain S pi2 inc (k + 1) = SN_ID_MAX))
        ∧ (∀ inc, st.incumbent = some inc → ∀ k,
            (∀ j ≤ k, S.expander_.is_target (next_chain S pi2 inc j) pi2
                  = false
                ∧ next_chain S pi2 inc (j + 1) ≠ SN_ID_MAX) →
            (r.nodes (next_chain S pi2 inc (k + 1))).parent_id_
                = next_chain S pi2 inc k
            ∧ (r.nodes (next_chain S pi2 inc (k + 1))).g_
                = cost_add (r.nodes (next_chain S pi2 inc k)).g_
                    (get_cost_ S.expander_ (next_chain S pi2 inc k)
                      (next_chain S pi2 inc (k + 1)))
            ∧ (∀ pre c post,
                S.expander_.succ (next_chain S pi2 inc k)
                    = pre ++ (next_chain S pi2 inc (k + 1), c) :: post →
                (∀ e ∈ pre, e.1 ≠ next_chain S pi2 inc (k + 1)) →
                (r.nodes (next_chain S pi2 inc (k + 1))).g_
                  = cost_add (r.nodes (next_chain S pi2 inc k)).g_ c)
            ∧ ((∀ e ∈ S.expander_.succ (next_chain S pi2 inc k),
                  e.1 ≠ next_chain S pi2 inc (k + 1)) →
                (r.nodes (next_chain S pi2 inc (k + 1))).g_
                  = cost_add (r.nodes (next_chain S pi2 inc k)).g_ COST_MAX)))
    ∧ (∀ a b : cost_t, a.natAbs < 9007199254740992 →
        b.natAbs < 9007199254740992 → (a + b).natAbs < 9007199254740992 →
        cost_add a b = a + b) := by
  unfold search at hr
  cases hsi : search_init S pi nodes sol with
  | inl r0 =>
    rw [hsi] at hr
    simp only [Option.some.injEq] at hr
    have h0 := (search_init_inl S pi nodes sol r0 hsi).1
    subst hr
    refine ⟨?_, ?_, ?_, ?_, cost_add_exact⟩
    · intro t ht
      rw [h0] at ht
      simp at ht
    · intro _ _; exact h0
    · intro pi2 st0 h; cases h
    · intro pi2 st0 st h; cases h
  | inr ps =>
    obtain ⟨pi2, st0⟩ := ps
    rw [hsi] at hr
    simp only at hr
    by_cases hnull : null_incumbent_read S pi2 = true
    · rw [if_pos hnull] at hr; simp at hr
    rw [if_neg hnull] at hr
    cases hl : expand_loop S pi2 timer fuel 0 st0 with
    | none => rw [hl] at hr; simp at hr
    | some st =>
      rw [hl] at hr
      simp only at hr
      cases hb : rebuild S pi2 fuel st.nodes st.incumbent with
      | none => rw [hb] at hr; simp at hr
      | some nr =>
        obtain ⟨nodes1, tgt⟩ := nr
        rw [hb] at hr
        simp only [Option.some.injEq] at hr
        subst hr
        simp only
        obtain ⟨k1, k2, k3⟩ :=
          rebuild_result_spec S pi2 fuel st.nodes nodes1 st.incumbent tgt hb
        refine ⟨k1, ?_, ?_, ?_, cost_add_exact⟩
        · intro r0 h; cases h
        · intro pi3 st3 h
          simp only [Sum.inr.injEq, Prod.mk.injEq] at h
          obtain ⟨h1, h2⟩ := h
          subst h1 h2
          exact ⟨st, hl⟩
        · intro pi3 st3 st4 h hl4
          simp only [Sum.inr.injEq, Prod.mk.injEq] at h
          obtain ⟨h1, h2⟩ := h
          subst h1 h2
          rw [hl] at hl4
          simp only [Option.some.injEq] at hl4
          subst hl4
          refine ⟨rfl, hb, k2, ?_⟩
          intro inc hinc k hk
          obtain ⟨hp, hg⟩ := k3 inc hinc k hk
          refine ⟨hp, hg, ?_, ?_⟩
          · intro pre c post hs hpre
            rw [hg, get_cost_of_first_edge _ _ _ pre c post hs hpre]
          · intro hno
            rw [hg, get_cost_of_no_edge _ _ _ hno]

set_option maxRecDepth 100000 in
theorem search_returns_null_or_target_witness :
    (graph_b_search.get (by decide)).target = some 2
    ∧ graph_b.is_target 2 (graph_b_search.get (by decide)).pi = true
    ∧ (graph_b_loop_end.get (by decide)).incumbent = some 1
    ∧ graph_b.succ 1 = [] ++ (2, 5) :: []
    ∧ ((graph_b_search.get (by decide)).nodes 2).parent_id_ = 1
    ∧ ((graph_b_search.get (by decide)).nodes 2).g_
      = cost_add ((graph_b_search.get (by decide)).nodes 1).g_ 5
    ∧ ((graph_b_search.get (by decide)).nodes 1).g_ = COST_MAX
    ∧ ((graph_b_search.get (by decide)).nodes 2).g_ = COST_MAX
    ∧ cost_add 1 5 = 1 + 5 :=
  ⟨by decide,
   (search_returns_null_or_target (cpd_search.new heuristic_b graph_b)
      (fun _ => 0) 20 query_b blank_pool zero_solution
      (graph_b_search.get (by decide)) (Option.some_get _).symm).1 2
      (by decide),
   by decide,
   rfl,
   (((search_returns_null_or_target (cpd_search.new heuristic_b graph_b)
      (fun _ => 0) 20 query_b blank_pool zero_solution
      (graph_b_search.get (by decide)) (Option.some_get _).symm).2.2.2.1
      query_b graph_b_start_state (graph_b_loop_end.get (by decide)) rfl
      (Option.some_get _).symm).2.2.2 1 (by decide) 0 (by decide)).1,
   (((search_returns_null_or_target (cpd_search.new heuristic_b graph_b)
      (fun _ => 0) 20 query_b blank_pool zero_solution
      (graph_b_search.get (by decide)) (Option.some_get _).symm).2.2.2.1
      query_b graph_b_start_state (graph_b_loop_end.get (by decide)) rfl
      (Option.some_get _).symm).2.2.2 1 (by decide) 0 (by decide)).2.2.1
      [] 5 [] rfl (by decide),
   by decide,
   by decide,
   (search_returns_null_or_target (cpd_search.new heuristic_b graph_b)
      (fun _ => 0) 20 query_b blank_pool zero_solution
      (graph_b_search.get (by decide)) (Option.some_get _).symm).2.2.2.2 1 5
      (by decide) (by decide) (by decide)⟩

theorem node_pool.set_self (nodes : node_pool) (id : sn_id_t)
    (n : search_node) : (nodes.set id n) id = n := by
  simp [node_pool.set]

/-- Claim C19. For every planar_graph and every 32-bit id, to_graph_id and
to_external_id undo each other, and to_external_id(id) is id + ID_OFFSET
modulo 2^32. -/
theorem to_graph_id_to_external_id (g : graph.planar_graph) (id : Nat)
    (hid : id < 2 ^ 32) :
    g.to_graph_id (g.to_external_id id) = id
    ∧ g.to_external_id (g.to_graph_id id) = id
    ∧ g.to_external_id id = (id + g.ID_OFFSET) % 2 ^ 32 := by
  simp only [graph.planar_graph.to_graph_id, graph.planar_graph.to_external_id]
  refine ⟨?_, ?_, ?_⟩ <;> omega

theorem to_graph_id_to_external_id_witness :
    ({ nodes_sz_ := 0, nodes_cap_ := 0, xy_ := [], ID_OFFSET := 1 } :
        graph.planar_graph).to_graph_id
      (({ nodes_sz_ := 0, nodes_cap_ := 0, xy_ := [], ID_OFFSET := 1 } :
        graph.planar_graph).to_external_id 4294967295) = 4294967295
    ∧ ({ nodes_sz_ := 0, nodes_cap_ := 0, xy_ := [], ID_OFFSET := 1 } :
        graph.planar_graph).to_external_id
      (({ nodes_sz_ := 0, nodes_cap_ := 0, xy_ := [], ID_OFFSET := 1 } :
        graph.planar_graph).to_graph_id 4294967295) = 4294967295
    ∧ ({ nodes_sz_ := 0, nodes_cap_ := 0, xy_ := [], ID_OFFSET := 1 } :
        graph.planar_graph).to_external_id 4294967295
      = (4294967295 + 1) % 2 ^ 32 :=
  to_graph_id_to_external_id
    { nodes_sz_ := 0, nodes_cap_ := 0, xy_ := [], ID_OFFSET := 1 } 4294967295
    (by decide)

/-- Claim C18 (counterexample). With mapwidth 1, x = 0 and y = 2^31 the id
y * mapwidth + x = 2^31 fits an unsigned int, but index_to_xy stores the
quotient in an int32_t and yields y = -2^31, not (0, 2^31). -/
theorem index_to_xy_large_id :
    (0 : Nat) < 1
    ∧ scen_node_id 0 2147483648 1 = 2147483648 * 1 + 0
    ∧ helpers.index_to_xy (2147483648 * 1 + 0) 1 = some (0, -2147483648)
    ∧ helpers.index_to_xy (2147483648 * 1 + 0) 1
        ≠ some (((0 : Nat) : Int), ((2147483648 : Nat) : Int)) := by
  refine ⟨by decide, by decide, by decide, by decide⟩

/-- Claim C18 (as amended). For every mapwidth > 0 and every id below 2^31,
index_to_xy yields x and y with 0 <= x < mapwidth and y * mapwidth + x = id;
conversely, for every x < mapwidth and y with y * mapwidth + x below 2^31,
index_to_xy(y * mapwidth + x, mapwidth) yields (x, y), and
y * mapwidth + x is the id grid2dimacs computes. -/
theorem index_to_xy_inverts_encoding (mapwidth id : Nat)
    (hw : 0 < mapwidth) (hw2 : mapwidth < 2 ^ 32) (hid : id < 2 ^ 31) :
    (∃ x y : Nat, helpers.index_to_xy id mapwidth = some ((x : Int), (y : Int))
        ∧ x < mapwidth ∧ y * mapwidth + x = id)
    ∧ (∀ x y : Nat, x < mapwidth → y * mapwidth + x < 2 ^ 31 →
        helpers.index_to_xy (y * mapwidth + x) mapwidth
            = some ((x : Int), (y : Int))
        ∧ scen_node_id x y mapwidth = y * mapwidth + x) := by
  have hmw : mapwidth % 2 ^ 32 = mapwidth := Nat.mod_eq_of_lt hw2
  have hne : ¬ mapwidth % 2 ^ 32 = 0 := by omega
  have key : ∀ n : Nat, n < 2 ^ 31 →
      helpers.index_to_xy n mapwidth
        = some (((n % mapwidth : Nat) : Int), ((n / mapwidth : Nat) : Int)) := by
    intro n hn
    have hn32 : n % 2 ^ 32 = n := Nat.mod_eq_of_lt (by omega)
    have hx : n % mapwidth < 2 ^ 31 :=
      lt_of_le_of_lt (Nat.mod_le _ _) hn
    have hy : n / mapwidth < 2 ^ 31 :=
      lt_of_le_of_lt (Nat.div_le_self _ _) hn
    have hx32 : n % mapwidth % 2 ^ 32 = n % mapwidth :=
      Nat.mod_eq_of_lt (by omega)
    have hy32 : n / mapwidth % 2 ^ 32 = n / mapwidth :=
      Nat.mod_eq_of_lt (by omega)
    have hne2 : ¬ mapwidth = 0 := by omega
    simp only [helpers.index_to_xy, hmw, hne2, if_false, hn32, to_int32, hx32,
      hy32, hx, hy, if_true]
  constructor
  · refine ⟨id % mapwidth, id / mapwidth, key id hid, Nat.mod_lt _ hw, ?_⟩
    rw [Nat.mul_comm]
    exact Nat.div_add_mod id mapwidth
  · intro x y hx hxy
    have h1 : (y * mapwidth + x) % mapwidth = x := by
      rw [Nat.mul_comm, Nat.mul_add_mod, Nat.mod_eq_of_lt hx]
    have h2 : (y * mapwidth + x) / mapwidth = y := by
      rw [Nat.mul_comm, Nat.mul_add_div hw, Nat.div_eq_of_lt hx, Nat.add_zero]
    constructor
    · rw [key _ hxy, h1, h2]
    · have hy : y * mapwidth < 2 ^ 31 := by omega
      have hyy : y < 2 ^ 31 := by
        have : y * 1 ≤ y * mapwidth := Nat.mul_le_mul_left y hw
        omega
      have hx32 : x % 2 ^ 32 = x := Nat.mod_eq_of_lt (by omega)
      have hy32 : y % 2 ^ 32 = y := Nat.mod_eq_of_lt (by omega)
      simp only [scen_node_id, hmw, hx32, hy32]
      exact Nat.mod_eq_of_lt (by omega)

theorem index_to_xy_inverts_encoding_witness :
    (∃ x y : Nat, helpers.index_to_xy 7 3 = some ((x : Int), (y : Int))
        ∧ x < 3 ∧ y * 3 + x = 7)
    ∧ (∀ x y : Nat, x < 3 → y * 3 + x < 2 ^ 31 →
        helpers.index_to_xy (y * 3 + x) 3 = some ((x : Int), (y : Int))
        ∧ scen_node_id x y 3 = y * 3 + x) :=
  index_to_xy_inverts_encoding 3 7 (by decide) (by decide) (by decide)

/-- Claim C15 (evaluation at the failing input). A cell whose only safe
interval is [0, COST_MAX) keeps that interval unchanged when the obstacle
[5, 10) is added: the second test of the loop (start_time < e_time) treats
it as unaffected, and the stored interval overlaps the obstacle. -/
theorem add_obstacle_keeps_overlapping_interval :
    (({ header_width := 1,
        intervals_ := [[{ s_time_ := 0, e_time_ := COST_MAX, action_ := 0 }]] } :
        sipp_gridmap).add_obstacle 0 0 5 10 1).map (fun m => m.intervals_)
      = some [[{ s_time_ := 0, e_time_ := COST_MAX, action_ := 0 }]]
    ∧ ¬ (COST_MAX ≤ (5 : cost_t) ∨ (0 : cost_t) ≥ 10) := by
  refine ⟨by decide, by decide⟩

namespace topping

theorem int32_wrap_of_small (z : Int) (h0 : 0 ≤ z) (h1 : z < 2 ^ 31) :
    int32_wrap z = z := by
  unfold int32_wrap
  omega

theorem node_begin_eq (n T i : Nat) (hi : i ≤ T) (hnT : n * T < 2 ^ 31) :
    node_begin n T i = ((n * i / T : Nat) : Int) := by
  unfold node_begin
  have h1 : n * i ≤ n * T := Nat.mul_le_mul_left n hi
  have h2 : ((n : Int) * (i : Int)) = ((n * i : Nat) : Int) := by push_cast; rfl
  rw [h2, int32_wrap_of_small _ (Int.ofNat_nonneg _) (by exact_mod_cast (by omega : n * i < 2 ^ 31))]
  exact (Int.ofNat_tdiv _ _).symm

theorem node_end_eq_begin (n T i : Nat) :
    node_end n T i = node_begin n T ((i + 1 : Nat) : Int) := by
  unfold node_end node_begin
  push_cast
  rfl

end topping

namespace topping

theorem div_mono_mul (n T i j : Nat) (hij : i ≤ j) : n * i / T ≤ n * j / T :=
  Nat.div_le_div_right (Nat.mul_le_mul_left n hij)

theorem thread_sources_eq (n T i : Nat) (hi : i < T) (hnT : n * T < 2 ^ 31) :
    thread_sources n T i
      = (List.range (n * (i + 1) / T - n * i / T)).map
          (fun (k : Nat) => ((n * i / T + k : Nat) : Int)) := by
  unfold thread_sources
  rw [node_end_eq_begin, node_begin_eq n T (i + 1) (by omega) hnT,
    node_begin_eq n T i (by omega) hnT]
  have hm := div_mono_mul n T i (i + 1) (by omega)
  have h1 : (((n * (i + 1) / T : Nat) : Int) - ((n * i / T : Nat) : Int)).toNat
      = n * (i + 1) / T - n * i / T := by omega
  rw [h1]
  apply List.map_congr_left
  intro k _
  push_cast
  rfl

theorem sources_concat (n T : Nat) (hnT : n * T < 2 ^ 31) (m : Nat) (hm : m ≤ T) :
    (List.range m).flatMap (fun i => thread_sources n T (i : Nat))
      = (List.range (n * m / T)).map (fun (k : Nat) => (k : Int)) := by
  induction m with
  | zero => simp
  | succ m ih =>
    rw [List.range_succ, List.flatMap_append, ih (by omega)]
    simp only [List.flatMap_singleton]
    rw [thread_sources_eq n T m (by omega) hnT]
    have hmono := div_mono_mul n T m (m + 1) (by omega)
    have hsplit : n * (m + 1) / T = n * m / T + (n * (m + 1) / T - n * m / T) := by
      omega
    conv_rhs => rw [hsplit, List.range_add, List.map_append, List.map_map]
    rfl

theorem append_all_some {α : Type} (l : List Nat) (f : Nat → CPD α) :
    append_all (l.map (fun i => some (f i))) = some (l.flatMap f) := by
  induction l with
  | nil => rfl
  | cons a l ih => simp only [List.map_cons, append_all, ih, List.flatMap_cons]

theorem append_all_none {α : Type} (l : List (Option (CPD α))) (h : none ∈ l) :
    append_all l = none := by
  induction l with
  | nil => simp at h
  | cons a l ih =>
    cases a with
    | none => rfl
    | some c =>
      have h1 : none ∈ l := by simpa using h
      simp only [append_all, ih h1]

end topping

namespace topping

theorem flatMap_range_of_le {β : Type} (g : Nat → List β) (T M : Nat)
    (hM : T ≤ M) (hg : ∀ i, T ≤ i → g i = []) :
    (List.range M).flatMap g = (List.range T).flatMap g := by
  obtain ⟨d, rfl⟩ : ∃ d, M = T + d := ⟨M - T, by omega⟩
  rw [List.range_add, List.flatMap_append]
  have : ((List.range d).map (fun x => T + x)).flatMap g = [] := by
    rw [List.flatMap_eq_nil_iff]
    intro x hx
    obtain ⟨k, _, rfl⟩ := List.mem_map.1 hx
    exact hg _ (by omega)
  rw [this, List.append_nil]

theorem parallel_build_none_of_small {α : Type} (run : Int → α) (n T M : Nat)
    (hn : 0 < n) (hdiv : Int.tdiv (n : Int) 10 = 0) (hT : 1 ≤ T) (hM : T ≤ M)
    (hnT : n * T < 2 ^ 31) :
    parallel_build run n M T = none := by
  have hcat : (List.range T).flatMap (fun i => thread_sources n T (i : Nat))
      = (List.range n).map (fun (k : Nat) => (k : Int)) := by
    rw [sources_concat n T hnT T (le_refl T), Nat.mul_div_cancel n hT]
  obtain ⟨i, hiT, hne⟩ : ∃ i : Nat, i < T ∧ thread_sources n T i ≠ [] := by
    by_contra hall
    have hnil : (List.range T).flatMap
        (fun i => thread_sources n T (i : Nat)) = [] := by
      rw [List.flatMap_eq_nil_iff]
      intro i hi
      by_contra hne
      exact hall ⟨i, List.mem_range.1 hi, hne⟩
    rw [hcat] at hnil
    have hlen := congrArg List.length hnil
    simp at hlen
    omega
  unfold parallel_build
  apply append_all_none
  refine List.mem_map.2 ⟨i, List.mem_range.2 (by omega), ?_⟩
  rw [if_pos hiT]
  unfold thread_build
  rw [if_pos ⟨hne, hdiv⟩]

/-- The per-thread ranges partition the sources 0, ..., n-1 in thread order,
and the parallel build yields what the sequential build yields. -/
theorem thread_ranges_and_builds {α : Type} (run : Int → α)
    (n T M : Nat) (hT : 1 ≤ T) (hM : T ≤ M) (hnT : n * T < 2 ^ 31) :
    node_begin n T 0 = 0
    ∧ node_end n T ((T - 1 : Nat) : Int) = n
    ∧ (∀ i : Nat, i < T →
        node_end n T i = node_begin n T ((i + 1 : Nat) : Int)
        ∧ node_begin n T i ≤ node_end n T i)
    ∧ (∀ s : Nat, s < n →
        ∃! i : Nat, i < T ∧ node_begin n T i ≤ s ∧ (s : Int) < node_end n T i)
    ∧ (List.range T).flatMap (fun i => thread_sources n T (i : Nat))
        = (List.range n).map (fun (k : Nat) => (k : Int))
    ∧ parallel_build run n M T = sequential_build run n
    ∧ (n = 0 ∨ 10 ≤ n →
        sequential_build run n
          = some ((List.range n).map (fun (k : Nat) => ((k : Int), run k)))) := by
  have hTpos : 0 < T := hT
  have hb : ∀ i : Nat, i ≤ T → node_begin n T i = ((n * i / T : Nat) : Int) :=
    fun i hi => node_begin_eq n T i hi hnT
  have he : ∀ i : Nat, i < T → node_end n T i = ((n * (i + 1) / T : Nat) : Int) :=
    fun i hi => by rw [node_end_eq_begin, hb (i + 1) (by omega)]
  have hfull : n * T / T = n := Nat.mul_div_cancel n hTpos
  have hcat : (List.range T).flatMap (fun i => thread_sources n T (i : Nat))
      = (List.range n).map (fun (k : Nat) => (k : Int)) := by
    rw [sources_concat n T hnT T (le_refl T), hfull]
  have hseq_good : ¬ (0 < (n : Int) ∧ Int.tdiv (n : Int) 10 = 0) →
      sequential_build run n
        = some ((List.range n).map (fun (k : Nat) => ((k : Int), run k))) := by
    intro hg
    unfold sequential_build
    rw [if_neg hg, Int.toNat_ofNat]
  have htdiv : Int.tdiv (n : Int) 10 = ((n / 10 : Nat) : Int) :=
    (Int.ofNat_tdiv n 10).symm
  refine ⟨?_, ?_, ?_, ?_, hcat, ?_, ?_⟩
  · have := hb 0 (by omega)
    simpa using this
  · rw [he (T - 1) (by omega)]
    have : T - 1 + 1 = T := by omega
    rw [this, hfull]
  · intro i hi
    refine ⟨node_end_eq_begin n T i, ?_⟩
    rw [he i hi, hb i (by omega)]
    exact_mod_cast div_mono_mul n T i (i + 1) (by omega)
  · intro s hs
    have hmem : (s : Int) ∈ (List.range n).map (fun (k : Nat) => (k : Int)) :=
      List.mem_map.2 ⟨s, List.mem_range.2 hs, rfl⟩
    rw [← hcat] at hmem
    obtain ⟨i, hi, hsi⟩ := List.mem_flatMap.1 hmem
    have hiT : i < T := List.mem_range.1 hi
    rw [thread_sources_eq n T i hiT hnT] at hsi
    obtain ⟨k, hk, hks⟩ := List.mem_map.1 hsi
    have hk1 : k < n * (i + 1) / T - n * i / T := List.mem_range.1 hk
    have hsk : n * i / T + k = s := by exact_mod_cast hks
    refine ⟨i, ⟨hiT, ?_, ?_⟩, ?_⟩
    · rw [hb i (by omega)]; exact_mod_cast (by omega : n * i / T ≤ s)
    · rw [he i hiT]; exact_mod_cast (by omega : s < n * (i + 1) / T)
    · intro j ⟨hjT, hj1, hj2⟩
      rw [hb j (by omega)] at hj1
      rw [he j hjT] at hj2
      have hj1' : n * j / T ≤ s := by exact_mod_cast hj1
      have hj2' : s < n * (j + 1) / T := by exact_mod_cast hj2
      rcases Nat.lt_trichotomy i j with h | h | h
      · have := div_mono_mul n T (i + 1) j (by omega)
        omega
      · exact h.symm
      · have := div_mono_mul n T (j + 1) i (by omega)
        omega
  · by_cases hbad : 0 < (n : Int) ∧ Int.tdiv (n : Int) 10 = 0
    · have hseq : sequential_build run n = none := by
        unfold sequential_build
        rw [if_pos hbad]
      rw [hseq]
      have hnpos : 0 < n := by exact_mod_cast hbad.1
      obtain ⟨i, hiT, hne⟩ : ∃ i : Nat, i < T ∧ thread_sources n T i ≠ [] := by
        by_contra hall
        have hnil : (List.range T).flatMap
            (fun i => thread_sources n T (i : Nat)) = [] := by
          rw [List.flatMap_eq_nil_iff]
          intro i hi
          by_contra hne
          exact hall ⟨i, List.mem_range.1 hi, hne⟩
        rw [hcat] at hnil
        have hlen := congrArg List.length hnil
        simp at hlen
        omega
      unfold parallel_build
      apply append_all_none
      refine List.mem_map.2 ⟨i, List.mem_range.2 (by omega), ?_⟩
      rw [if_pos hiT]
      unfold thread_build
      rw [if_pos ⟨hne, hbad.2⟩]
    · rw [hseq_good hbad]
      have hthread : ∀ i : Nat, i < T →
          thread_build run n T i
            = some ((thread_sources n T i).map (fun s => (s, run s))) := by
        intro i hiT
        unfold thread_build
        have hc : ¬ (thread_sources n T i ≠ [] ∧ Int.tdiv (n : Int) 10 = 0) := by
          intro ⟨h1, h2⟩
          apply hbad
          refine ⟨?_, h2⟩
          by_contra hn0
          have hn : n = 0 := by
            have : ¬ (0 < n) := by exact_mod_cast hn0
            omega
          apply h1
          rw [thread_sources_eq n T i hiT hnT, hn]
          simp
        rw [if_neg hc]
      unfold parallel_build
      have hlist : (List.range M).map (fun i =>
            if i < T then thread_build run (n : Int) (T : Int) (i : Int)
            else some [])
          = (List.range M).map (fun i => some
              (if i < T then (thread_sources n T i).map (fun s => (s, run s))
               else [])) := by
        apply List.map_congr_left
        intro i _
        by_cases hiT : i < T
        · rw [if_pos hiT, if_pos hiT, hthread i hiT]
        · rw [if_neg hiT, if_neg hiT]
      rw [hlist, append_all_some]
      refine congrArg some ?_
      rw [flatMap_range_of_le _ T M hM (fun i hi => by rw [if_neg (by omega)])]
      have hpre : (List.range T).flatMap (fun i =>
            if i < T then (thread_sources n T i).map (fun s => (s, run s))
            else [])
          = (List.range T).flatMap (fun i =>
              (thread_sources n T (i : Nat)).map (fun s => (s, run s))) := by
        apply List.flatMap_congr
        intro i hi
        rw [if_pos (List.mem_range.1 hi)]
      rw [hpre, ← List.map_flatMap, hcat, List.map_map]
      rfl
  · intro h
    apply hseq_good
    intro ⟨h1, h2⟩
    rw [htdiv] at h2
    have h3 : n / 10 = 0 := by exact_mod_cast h2
    have h4 : 0 < n := by exact_mod_cast h1
    omega

/-- Claim C11. For every node count n >= 0 and thread count T >= 1 with n*T
below 2^31 (and T at most the number of thread-local CPDs): the per-thread
ranges start at 0, end at n, each ends where the next begins, and every
source below n lies in exactly one of them; the sources of the threads,
taken in thread order, are 0, 1, ..., n-1 in that order; and the parallel
build yields what the sequential build yields. That is the rows of sources
0, ..., n-1 in that order when n = 0 or n >= 10. For n from 1 to 9 the
progress test of either build divides by node_count / 10 = 0, and neither
build yields a row. -/
theorem parallel_build_eq_sequential_build {α : Type} (run : Int → α)
    (n T M : Nat) (hT : 1 ≤ T) (hM : T ≤ M) (hnT : n * T < 2 ^ 31) :
    node_begin n T 0 = 0
    ∧ node_end n T ((T - 1 : Nat) : Int) = n
    ∧ (∀ i : Nat, i < T →
        node_end n T i = node_begin n T ((i + 1 : Nat) : Int)
        ∧ node_begin n T i ≤ node_end n T i)
    ∧ (∀ s : Nat, s < n →
        ∃! i : Nat, i < T ∧ node_begin n T i ≤ s ∧ (s : Int) < node_end n T i)
    ∧ (List.range T).flatMap (fun i => thread_sources n T (i : Nat))
        = (List.range n).map (fun (k : Nat) => (k : Int))
    ∧ parallel_build run n M T = sequential_build run n
    ∧ (n = 0 ∨ 10 ≤ n →
        sequential_build run n
          = some ((List.range n).map (fun (k : Nat) => ((k : Int), run k))))
    ∧ (1 ≤ n ∧ n ≤ 9 →
        Int.tdiv (n : Int) 10 = 0
        ∧ sequential_build run n = none
        ∧ parallel_build run n M T = none) := by
  obtain ⟨h1, h2, h3, h4, h5, h6, h7⟩ :=
    thread_ranges_and_builds run n T M hT hM hnT
  refine ⟨h1, h2, h3, h4, h5, h6, h7, ?_⟩
  intro hn
  have hdiv : Int.tdiv (n : Int) 10 = 0 := by
    have h := (Int.ofNat_tdiv n 10).symm
    have h0 : n / 10 = 0 := by omega
    rw [h0] at h
    exact h
  have hpos : 0 < (n : Int) := by exact_mod_cast hn.1
  refine ⟨hdiv, ?_,
    parallel_build_none_of_small run n T M (by omega) hdiv hT hM hnT⟩
  unfold sequential_build
  rw [if_pos ⟨hpos, hdiv⟩]

theorem parallel_build_eq_sequential_build_witness :
    (parallel_build (fun s => s * s) 12 8 5
      = sequential_build (fun s => s * s) 12
    ∧ sequential_build (fun s => s * s) 12
      = some ((List.range 12).map (fun (k : Nat) => ((k : Int), (k : Int) * k))))
    ∧ (List.range 4).flatMap (fun i => thread_sources 9 4 (i : Nat))
        = [0, 1, 2, 3, 4, 5, 6, 7, 8]
    ∧ sequential_build (fun s => s * s) 9 = none
    ∧ parallel_build (fun s => s * s) 9 4 4 = none :=
  ⟨⟨(parallel_build_eq_sequential_build (fun s => s * s) 12 5 8 (by decide)
      (by decide) (by decide)).2.2.2.2.2.1,
    (parallel_build_eq_sequential_build (fun s => s * s) 12 5 8 (by decide)
      (by decide) (by decide)).2.2.2.2.2.2.1 (Or.inr (by decide))⟩,
   (parallel_build_eq_sequential_build (fun s => s * s) 9 4 4 (by decide)
      (by decide) (by decide)).2.2.2.2.1,
   ((parallel_build_eq_sequential_build (fun s => s * s) 9 4 4 (by decide)
      (by decide) (by decide)).2.2.2.2.2.2.2 ⟨by decide, by decide⟩).2.1,
   ((parallel_build_eq_sequential_build (fun s => s * s) 9 4 4 (by decide)
      (by decide) (by decide)).2.2.2.2.2.2.2 ⟨by decide, by decide⟩).2.2⟩

end topping


namespace reservation_table

theorem shl_one_defined (u : Nat → Int) (k : Nat) (hk : k < 32) :
    shl_one u k = shl_one (fun _ => 0) k := by
  unfold shl_one
  by_cases h1 : k < 31
  · rw [if_pos h1, if_pos h1]
  · have h2 : k = 31 := by omega
    rw [if_neg h1, if_neg h1, if_pos h2, if_pos h2]

set_option maxRecDepth 100000 in
theorem mask_facts : ∀ k < 32, ∀ j < 32,
    to_uint64 (shl_one (fun _ => 0) k)
        &&& to_uint64 (int_not (shl_one (fun _ => 0) k)) = 0
    ∧ to_uint64 (shl_one (fun _ => 0) k) ≠ 0
    ∧ (j ≠ k →
        to_uint64 (int_not (shl_one (fun _ => 0) k))
            &&& to_uint64 (shl_one (fun _ => 0) j)
          = to_uint64 (shl_one (fun _ => 0) j)
        ∧ to_uint64 (shl_one (fun _ => 0) k)
            &&& to_uint64 (shl_one (fun _ => 0) j) = 0) := by
  decide

end reservation_table

namespace reservation_table

theorem land_lor_distrib (a b c : Nat) :
    (a ||| b) &&& c = (a &&& c) ||| (b &&& c) := by
  apply Nat.eq_of_testBit_eq
  intro i
  simp only [Nat.testBit_land, Nat.testBit_lor]
  cases a.testBit i <;> cases b.testBit i <;> cases c.testBit i <;> rfl

theorem length_set_word (tb : reservation_table) (t i w : Nat) :
    (tb.set_word t i w).table_.length = tb.table_.length := by
  simp [set_word, List.length_modify]

theorem word_set_word (tb : reservation_table) (t i w t2 i2 : Nat) :
    (tb.set_word t i w).word t2 i2
      = if t = t2 ∧ i = i2 then (tb.word t i).map (fun _ => w)
        else tb.word t2 i2 := by
  unfold word set_word
  simp only [List.getElem?_modify]
  by_cases ht : t = t2
  · subst ht
    cases hrow : tb.table_[t]? with
    | none => simp
    | some row =>
      simp only [if_true, Option.map_eq_map, Option.map_some', Option.some_bind,
        List.getElem?_set, true_and]
      by_cases hi : i = i2
      · subst hi
        rw [if_pos rfl, if_pos rfl]
        by_cases hlt : i < row.length
        · rw [if_pos hlt, List.getElem?_eq_getElem hlt]; rfl
        · rw [if_neg hlt, List.getElem?_eq_none (by omega)]; rfl
      · rw [if_neg hi, if_neg hi]
  · have hne : ¬ (t = t2 ∧ i = i2) := fun h => ht h.1
    rw [if_neg hne]
    cases hrow : tb.table_[t2]? with
    | none => simp
    | some row => simp [ht]

theorem int32_wrap_range (z : Int) :
    -(2 ^ 31) ≤ int32_wrap z ∧ int32_wrap z < 2 ^ 31 := by
  unfold int32_wrap
  omega

theorem reserve_new_64_32 (u : Nat → Int) :
    reserve u (new 64) 32 0
      = some { table_ := [[to_uint64 (int32_wrap (u 32)), 0]]
               map_sz_ := 64
               map_sz_in_qwords_ := 2 } := by
  have h1 : (32 : Nat) >>> 6 = 0 := by decide
  have h2 : (32 : Nat) &&& 63 = 32 := by decide
  have h3 : (64 : Nat) % 2 ^ 32 = 64 := by decide
  have h4 : (64 : Nat) >>> 6 = 1 := by decide
  simp [reserve, new, grow, word, set_word, shl_one, LOG2_QWORD_SZ, h1, h2, h3,
    h4, List.modify]

end reservation_table

namespace reservation_table

theorem is_reserved_row0 (u : Nat → Int) (m j : Nat) (hj : j < 32) :
    is_reserved u { table_ := [[m, 0]], map_sz_ := 64, map_sz_in_qwords_ := 2 }
        j 0
      = some (decide (m &&& to_uint64 (shl_one (fun _ => 0) (j &&& 63)) ≠ 0)) := by
  have h1 : j >>> 6 = 0 := by
    rw [Nat.shiftRight_eq_div_pow]; omega
  have h2 : j &&& 63 = j := by
    have := Nat.and_pow_two_sub_one_eq_mod j 6
    simp only [Nat.reducePow, Nat.add_one_sub_one] at this
    rw [this]; omega
  unfold is_reserved word
  simp only [LOG2_QWORD_SZ, h1, h2, shl_one_defined u j hj]
  rfl

theorem to_uint64_pos (v : Int) (h0 : 0 < v) (h1 : v < 2 ^ 31) :
    to_uint64 v ≠ 0 ∧ to_uint64 v < 2 ^ 31 := by
  unfold to_uint64
  omega

theorem to_uint64_neg (v : Int) (h0 : -(2 ^ 31) ≤ v) (h1 : v < 0) :
    ∃ r, r < 2 ^ 63 ∧ to_uint64 v = 2 ^ 63 + r := by
  refine ⟨(v + 2 ^ 63).toNat, ?_, ?_⟩
  · omega
  · unfold to_uint64
    omega

/-- Claim C13. A cell whose index within its 64-bit word is 32 or more is
marked with the int expression 1 << 32, which has no defined value.
Whatever value the shift leaves, reserve(32, 0) on a fresh table of 64 cells
either leaves cell 32 unreserved or makes another cell, unreserved before,
read as reserved; where the shift count is taken modulo 32, it is cell 0
that becomes reserved and cell 32 reads reserved only through it. -/
theorem reserve_cell_32_marks_wrong_cell :
    (∀ shl_undefined : Nat → Int,
      ∃ tb1, reserve shl_undefined (new 64) 32 0 = some tb1
        ∧ (is_reserved shl_undefined tb1 32 0 = some false
          ∨ ∃ j, j < 64 ∧ j ≠ 32
              ∧ is_reserved shl_undefined (new 64) j 0 = some false
              ∧ is_reserved shl_undefined tb1 j 0 = some true))
    ∧ (∃ tb1, reserve (fun k => 2 ^ (k % 32)) (new 64) 32 0 = some tb1
        ∧ is_reserved (fun k => 2 ^ (k % 32)) (new 64) 0 0 = some false
        ∧ is_reserved (fun k => 2 ^ (k % 32)) tb1 0 0 = some true) := by
  have hfresh : ∀ (u : Nat → Int) (j : Nat),
      is_reserved u (new 64) j 0 = some false := by
    intro u j
    simp [is_reserved, new]
  constructor
  · intro u
    refine ⟨_, reserve_new_64_32 u, ?_⟩
    obtain ⟨hlo, hhi⟩ := int32_wrap_range (u 32)
    rcases lt_trichotomy (int32_wrap (u 32)) 0 with hneg | hzero | hpos
    · right
      refine ⟨31, by decide, by decide, hfresh u 31, ?_⟩
      rw [is_reserved_row0 u _ 31 (by decide)]
      obtain ⟨r, hr, hm⟩ := to_uint64_neg _ hlo hneg
      rw [hm]
      have hbit : ((2 ^ 63 + r) &&&
          to_uint64 (shl_one (fun _ => 0) (31 &&& 63))).testBit 63 = true := by
        rw [Nat.testBit_land, Nat.testBit_two_pow_add_eq,
          Nat.testBit_lt_two_pow hr]
        decide
      have hne : (2 ^ 63 + r) &&&
          to_uint64 (shl_one (fun _ => 0) (31 &&& 63)) ≠ 0 := by
        intro h0
        rw [h0] at hbit
        simp at hbit
      rw [decide_eq_true hne]
    · left
      have h32 : (32 : Nat) >>> 6 = 0 := by decide
      simp [is_reserved, word, LOG2_QWORD_SZ, h32, hzero, to_uint64]
    · right
      obtain ⟨hm0, hmlt⟩ := to_uint64_pos _ hpos hhi
      obtain ⟨j, hj⟩ := Nat.ne_zero_implies_bit_true hm0
      have hj31 : j < 31 := by
        by_contra hge
        have hle : (2 : Nat) ^ 31 ≤ 2 ^ j :=
          Nat.pow_le_pow_right (by decide) (by omega)
        have := Nat.testBit_lt_two_pow (lt_of_lt_of_le hmlt hle)
        rw [this] at hj
        exact Bool.noConfusion hj
      refine ⟨j, by omega, by omega, hfresh u j, ?_⟩
      rw [is_reserved_row0 u _ j (by omega)]
      have h2 : j &&& 63 = j := by
        have := Nat.and_pow_two_sub_one_eq_mod j 6
        simp only [Nat.reducePow, Nat.add_one_sub_one] at this
        rw [this]; omega
      have hmask : to_uint64 (shl_one (fun _ => 0) (j &&& 63)) = 2 ^ j := by
        rw [h2]
        unfold shl_one to_uint64
        rw [if_pos hj31]
        have hlt : (2 : Int) ^ j < 2 ^ 64 := by
          have : (2 : Nat) ^ j < 2 ^ 64 :=
            Nat.pow_lt_pow_right (by decide) (by omega)
          exact_mod_cast this
        have hnn : (0 : Int) ≤ 2 ^ j := by positivity
        rw [Int.emod_eq_of_lt hnn hlt]
        have : ((2 : Int) ^ j) = (((2 : Nat) ^ j : Nat) : Int) := by push_cast; rfl
        rw [this, Int.toNat_ofNat]
      rw [hmask, Nat.and_two_pow, hj]
      have hp : (2 : Nat) ^ j ≠ 0 := by positivity
      simp [hp]
  · exact ⟨_, reserve_new_64_32 _, hfresh _ 0, by decide⟩

end reservation_table

namespace reservation_table

theorem compl_and_mask (u : Nat → Int) (k : Nat) (hk : k < 32) :
    to_uint64 (int_not (shl_one u k)) &&& to_uint64 (shl_one u k) = 0 := by
  rw [shl_one_defined u k hk, Nat.and_comm]
  exact (mask_facts k hk k hk).1

theorem compl_and_other (u : Nat → Int) (k j : Nat) (hk : k < 32) (hj : j < 32)
    (hne : j ≠ k) :
    to_uint64 (int_not (shl_one u k)) &&& to_uint64 (shl_one u j)
      = to_uint64 (shl_one u j) := by
  rw [shl_one_defined u k hk, shl_one_defined u j hj]
  exact ((mask_facts k hk j hj).2.2 hne).1

theorem mask_and_other (u : Nat → Int) (k j : Nat) (hk : k < 32) (hj : j < 32)
    (hne : j ≠ k) :
    to_uint64 (shl_one u k) &&& to_uint64 (shl_one u j) = 0 := by
  rw [shl_one_defined u k hk, shl_one_defined u j hj]
  exact ((mask_facts k hk j hj).2.2 hne).2

theorem cell_split (xy : Nat) : xy = 64 * (xy >>> 6) + (xy &&& 63) := by
  have h := Nat.and_pow_two_sub_one_eq_mod xy 6
  simp only [Nat.reducePow, Nat.add_one_sub_one] at h
  rw [h, Nat.shiftRight_eq_div_pow]
  omega

theorem word_of_wf (tb : reservation_table) (hwf : tb.wf) (xy t : Nat)
    (hxy : xy < tb.map_sz_) (ht : t < tb.table_.length) :
    ∃ w, tb.word t (xy >>> LOG2_QWORD_SZ) = some w := by
  unfold word
  rw [List.getElem?_eq_getElem ht]
  have hrow := hwf.2 _ (List.getElem_mem ht)
  have hlt : xy >>> LOG2_QWORD_SZ < (tb.table_[t]).length := by
    rw [hrow, hwf.1]
    simp only [LOG2_QWORD_SZ, Nat.shiftRight_eq_div_pow]
    have : xy / 2 ^ 6 ≤ tb.map_sz_ / 2 ^ 6 := Nat.div_le_div_right (by omega)
    omega
  exact ⟨(tb.table_[t])[xy >>> LOG2_QWORD_SZ], by
    simp [List.getElem?_eq_getElem hlt]⟩

theorem is_reserved_set_word (u : Nat → Int) (tb : reservation_table)
    (t i w0 w xy2 t2 : Nat) (hw0 : tb.word t i = some w0) :
    is_reserved u (tb.set_word t i w) xy2 t2
      = if t = t2 ∧ i = xy2 >>> LOG2_QWORD_SZ ∧ t2 < tb.table_.length then
          some (decide (w &&& to_uint64 (shl_one u (xy2 &&& 63)) ≠ 0))
        else is_reserved u tb xy2 t2 := by
  unfold is_reserved
  rw [length_set_word, word_set_word]
  by_cases hlen : t2 ≥ tb.table_.length
  · rw [if_pos hlen, if_pos hlen, if_neg (by omega)]
  · rw [if_neg hlen, if_neg hlen]
    by_cases hsame : t = t2 ∧ i = xy2 >>> LOG2_QWORD_SZ
    · rw [if_pos hsame, if_pos ⟨hsame.1, hsame.2, by omega⟩, hw0]
      rfl
    · rw [if_neg hsame, if_neg (fun h => hsame ⟨h.1, h.2.1⟩)]

theorem grow_of_lt (tb : reservation_table) (t : Nat)
    (ht : t < tb.table_.length) : tb.grow t = tb := by
  unfold grow
  have : t + 1 - tb.table_.length = 0 := by omega
  rw [this]
  simp

theorem is_reserved_of_word (u : Nat → Int) (tb : reservation_table)
    (xy t w : Nat) (ht : t < tb.table_.length)
    (hw : tb.word t (xy >>> LOG2_QWORD_SZ) = some w) :
    is_reserved u tb xy t
      = some (decide (w &&& to_uint64 (shl_one u (xy &&& 63)) ≠ 0)) := by
  unfold is_reserved
  rw [if_neg (by omega), hw]

/-- Claim C14 (counterexample). A cell that was already reserved does not
get its answer back: reserve(5, 0) followed by unreserve(5, 0) on a table in
which cell 5 is reserved at timestep 0 leaves is_reserved(5, 0) false, where
it was true before the reserve. -/
theorem unreserve_forgets_earlier_reserve :
    ((reserve (fun _ => 0) (new 64) 5 0).bind
        (fun tb => is_reserved (fun _ => 0) tb 5 0)) = some true
    ∧ ((((reserve (fun _ => 0) (new 64) 5 0).bind
          (fun tb => reserve (fun _ => 0) tb 5 0)).bind
          (fun tb => unreserve (fun _ => 0) tb 5 0)).bind
          (fun tb => is_reserved (fun _ => 0) tb 5 0)) = some false := by
  decide

/-- Claim C14 (amended). For a table of the shape the constructor and reserve
keep, a cell xy < map_sz whose index within its word is below 32 and a
timestep t below the horizon: unreserve(xy, t) succeeds, is_reserved(xy, t)
is false afterwards, and is_reserved is unchanged at every other pair
(xy2, t2) whose cell index within its word is below 32; and when (xy, t) was
not reserved, reserve(xy, t) followed by unreserve(xy, t) restores the
answer of is_reserved at every such pair. -/
theorem unreserve_clears_only_its_cell (shl_undefined : Nat → Int)
    (tb : reservation_table) (xy t : Nat) (hwf : tb.wf)
    (hxy : xy < tb.map_sz_) (hk : xy &&& 63 < 32)
    (ht : t < tb.table_.length) :
    ∃ tb1, unreserve shl_undefined tb xy t = some tb1
      ∧ is_reserved shl_undefined tb1 xy t = some false
      ∧ (∀ xy2 t2, xy2 &&& 63 < 32 → (xy2, t2) ≠ (xy, t) →
          is_reserved shl_undefined tb1 xy2 t2
            = is_reserved shl_undefined tb xy2 t2)
      ∧ (is_reserved shl_undefined tb xy t = some false →
          ∃ tb2 tb3, reserve shl_undefined tb xy t = some tb2
            ∧ unreserve shl_undefined tb2 xy t = some tb3
            ∧ ∀ xy2 t2, xy2 &&& 63 < 32 →
                is_reserved shl_undefined tb3 xy2 t2
                  = is_reserved shl_undefined tb xy2 t2) := by
  obtain ⟨w, hw⟩ := word_of_wf tb hwf xy t hxy ht
  have hun : unreserve shl_undefined tb xy t
      = some (tb.set_word t (xy >>> LOG2_QWORD_SZ)
          (w &&& to_uint64 (int_not (shl_one shl_undefined (xy &&& 63))))) := by
    unfold unreserve
    rw [if_neg (by omega), if_neg (by omega), hw]
  have hkey : ∀ xy2, xy2 >>> LOG2_QWORD_SZ = xy >>> LOG2_QWORD_SZ →
      xy2 ≠ xy → xy2 &&& 63 ≠ xy &&& 63 := by
    intro xy2 h1 h2 h3
    apply h2
    rw [cell_split xy2, cell_split xy]
    simp only [LOG2_QWORD_SZ] at h1
    rw [h1, h3]
  refine ⟨_, hun, ?_, ?_, ?_⟩
  · rw [is_reserved_set_word _ _ _ _ w _ _ _ hw, if_pos ⟨rfl, rfl, ht⟩,
      Nat.and_assoc, compl_and_mask _ _ hk]
    simp
  · intro xy2 t2 hk2 hne
    rw [is_reserved_set_word _ _ _ _ w _ _ _ hw]
    by_cases hsame : t = t2 ∧ xy >>> LOG2_QWORD_SZ = xy2 >>> LOG2_QWORD_SZ
        ∧ t2 < tb.table_.length
    · rw [if_pos hsame]
      obtain ⟨h1, h2, h3⟩ := hsame
      subst h1
      have hxyne : xy2 ≠ xy := fun h => hne (by rw [h])
      have hkne := hkey xy2 h2.symm hxyne
      rw [is_reserved_of_word _ _ _ _ w ht (by rw [← h2]; exact hw),
        Nat.and_assoc, compl_and_other _ _ _ hk hk2 hkne]
    · rw [if_neg hsame]
  · intro hfree
    rw [is_reserved_of_word _ _ _ _ w ht hw] at hfree
    have hw0 : w &&& to_uint64 (shl_one shl_undefined (xy &&& 63)) = 0 := by
      by_contra hne
      rw [decide_eq_true hne] at hfree
      exact Bool.noConfusion (Option.some.inj hfree)
    have hres : reserve shl_undefined tb xy t
        = some (tb.set_word t (xy >>> LOG2_QWORD_SZ)
            (w ||| to_uint64 (shl_one shl_undefined (xy &&& 63)))) := by
      unfold reserve
      rw [if_neg (by omega)]
      simp only [grow_of_lt tb t ht, hw]
    have hw2 : (tb.set_word t (xy >>> LOG2_QWORD_SZ)
        (w ||| to_uint64 (shl_one shl_undefined (xy &&& 63)))).word t
          (xy >>> LOG2_QWORD_SZ)
        = some (w ||| to_uint64 (shl_one shl_undefined (xy &&& 63))) := by
      rw [word_set_word, if_pos ⟨rfl, rfl⟩, hw]
      rfl
    have hun2 : unreserve shl_undefined (tb.set_word t (xy >>> LOG2_QWORD_SZ)
        (w ||| to_uint64 (shl_one shl_undefined (xy &&& 63)))) xy t
        = some ((tb.set_word t (xy >>> LOG2_QWORD_SZ)
            (w ||| to_uint64 (shl_one shl_undefined (xy &&& 63)))).set_word t
              (xy >>> LOG2_QWORD_SZ)
            ((w ||| to_uint64 (shl_one shl_undefined (xy &&& 63)))
              &&& to_uint64 (int_not (shl_one shl_undefined (xy &&& 63))))) := by
      unfold unreserve
      rw [length_set_word, if_neg (by omega)]
      have hsz : (tb.set_word t (xy >>> LOG2_QWORD_SZ)
          (w ||| to_uint64 (shl_one shl_undefined (xy &&& 63)))).map_sz_
          = tb.map_sz_ := rfl
      rw [hsz, if_neg (by omega), hw2]
    refine ⟨_, _, hres, hun2, ?_⟩
    intro xy2 t2 hk2
    rw [is_reserved_set_word _ _ _ _ _ _ _ _ hw2, length_set_word,
      is_reserved_set_word _ _ _ _ w _ _ _ hw]
    by_cases hsame : t = t2 ∧ xy >>> LOG2_QWORD_SZ = xy2 >>> LOG2_QWORD_SZ
        ∧ t2 < tb.table_.length
    · rw [if_pos hsame]
      obtain ⟨h1, h2, h3⟩ := hsame
      subst h1
      rw [is_reserved_of_word _ _ _ _ w ht (by rw [← h2]; exact hw),
        Nat.and_assoc]
      by_cases hkk : xy2 &&& 63 = xy &&& 63
      · rw [hkk, compl_and_mask _ _ hk, hw0]
        simp
      · rw [compl_and_other _ _ _ hk hk2 hkk, land_lor_distrib,
          mask_and_other _ _ _ hk hk2 hkk, Nat.or_zero]
    · rw [if_neg hsame, if_neg hsame]

theorem wf_new (map_sz : Nat) : (new map_sz).wf := by
  refine ⟨rfl, ?_⟩
  intro row hrow
  simp [new] at hrow

theorem unreserve_clears_only_its_cell_witness :
    ∃ tb1, unreserve (fun _ => 0)
        { table_ := [[32, 0]], map_sz_ := 64, map_sz_in_qwords_ := 2 } 5 0
          = some tb1
      ∧ is_reserved (fun _ => 0) tb1 5 0 = some false :=
  (unreserve_clears_only_its_cell (fun _ => 0)
      { table_ := [[32, 0]], map_sz_ := 64, map_sz_in_qwords_ := 2 } 5 0
      ⟨by decide, by decide⟩ (by decide) (by decide) (by decide)).imp
    (fun _ h => ⟨h.1, h.2.1⟩)

end reservation_table


namespace helpers

theorem skip_line_mono (fuel : Nat) : ∀ (s r : istream),
    skip_line fuel s = some r → skip_line (fuel + 1) s = some r := by
  induction fuel with
  | zero => intro s r h; simp [skip_line] at h
  | succ n ih =>
    intro s r h
    rw [skip_line] at h ⊢
    by_cases hc : (s.get).1 = some '\n'
    · rw [if_pos hc] at h ⊢; exact h
    · rw [if_neg hc] at h ⊢; exact ih _ _ h

theorem skip_comments_mono (fuel : Nat) : ∀ (s r : istream),
    skip_comments fuel s = some r → skip_comments (fuel + 1) s = some r := by
  induction fuel with
  | zero => intro s r h; simp [skip_comments] at h
  | succ n ih =>
    intro s r h
    rw [skip_comments] at h ⊢
    by_cases hc : (at_comment s).1 = true
    · rw [if_pos hc] at h ⊢
      cases hl : skip_line n (at_comment s).2 with
      | none => rw [hl] at h; exact Option.noConfusion h
      | some s1 =>
        rw [hl] at h
        rw [skip_line_mono n _ _ hl]
        exact ih _ _ h
    · rw [if_neg hc] at h ⊢; exact h

theorem load_loop_mono (fuel : Nat) : ∀ (s : istream) (labels : List Nat)
    (ok : Bool) (out : List Nat),
    load_loop fuel s labels = load_outcome.returned ok out →
    load_loop (fuel + 1) s labels = load_outcome.returned ok out := by
  induction fuel with
  | zero => intro s labels ok out h; simp [load_loop] at h
  | succ n ih =>
    intro s labels ok out h
    rw [load_loop] at h ⊢
    cases hs : skip_comments n s with
    | none => rw [hs] at h; exact load_outcome.noConfusion h
    | some s1 =>
      rw [hs] at h
      rw [skip_comments_mono n _ _ hs]
      simp only at h ⊢
      cases hr : s1.read_uint32 with
      | none => rw [hr] at h; exact load_outcome.noConfusion h
      | some p =>
        obtain ⟨tmp, s2⟩ := p
        rw [hr] at h
        simp only at h ⊢
        by_cases hg : (!s2.good) = true
        · rw [if_pos hg] at h ⊢; exact h
        · rw [if_neg hg] at h ⊢; exact ih _ _ _ _ h

theorem load_integer_labels_mono (fuel : Nat) (file : Option (List Char))
    (labels : List Nat) (ok : Bool) (out : List Nat)
    (h : load_integer_labels fuel file labels = load_outcome.returned ok out) :
    ∀ more, fuel ≤ more →
      load_integer_labels more file labels = load_outcome.returned ok out := by
  intro more hle
  induction more, hle using Nat.le_induction with
  | base => exact h
  | succ m _ ih =>
    unfold load_integer_labels at ih ⊢
    by_cases hg : (!(istream.open_file file).good) = true
    · rw [if_pos hg] at ih ⊢; exact ih
    · rw [if_neg hg] at ih ⊢; exact load_loop_mono m _ _ _ _ ih

theorem skip_line_no_newline (fuel : Nat) : ∀ (s : istream),
    '\n' ∉ s.rest → skip_line fuel s = none := by
  induction fuel with
  | zero => intro s _; rfl
  | succ n ih =>
    intro s hs
    rw [skip_line]
    have hget : (s.get).1 ≠ some '\n' ∧ '\n' ∉ (s.get).2.rest := by
      unfold istream.get
      by_cases hg : (!s.good) = true
      · rw [if_pos hg]; exact ⟨fun h => Option.noConfusion h, hs⟩
      · rw [if_neg hg]
        cases hr : s.rest with
        | nil => exact ⟨fun h => Option.noConfusion h, by rw [hr] at hs; exact hs⟩
        | cons c cs =>
          rw [hr] at hs
          refine ⟨?_, fun h => hs (List.mem_cons_of_mem _ h)⟩
          intro h
          apply hs
          rw [Option.some.inj h]
          exact List.mem_cons_self _ _
    rw [if_neg hget.1]
    exact ih _ hget.2

/-- Claim C16. The loader loses labels on files the claim covers: with a
comment line after the first integer it returns true with the integers
before the comment only; without a newline after the last integer it
returns true without that integer; and on a comment line that is not ended
by a newline it never returns. A file whose comment lines all come first and
which ends with a newline is loaded in full. -/
theorem load_integer_labels_loses_labels :
    (∀ fuel, 3 ≤ fuel →
      load_integer_labels fuel (some "1\n# two\n2\n".toList) []
        = load_outcome.returned true [1])
    ∧ (∀ fuel, 3 ≤ fuel →
      load_integer_labels fuel (some "1\n2".toList) []
        = load_outcome.returned true [1])
    ∧ (∀ fuel,
      load_integer_labels fuel (some "# x".toList) []
        = load_outcome.no_return)
    ∧ (∀ fuel, 8 ≤ fuel →
      load_integer_labels fuel (some "# two\n1\n2\n".toList) []
        = load_outcome.returned true [1, 2])
    ∧ load_integer_labels 0 none [] = load_outcome.returned false [] := by
  refine ⟨?_, ?_, ?_, ?_, by decide⟩
  · exact load_integer_labels_mono 3 _ _ _ _ (by decide)
  · exact load_integer_labels_mono 3 _ _ _ _ (by decide)
  · intro fuel
    cases fuel with
    | zero => rfl
    | succ n =>
      cases n with
      | zero => rfl
      | succ m =>
        have h := skip_line_no_newline m
          { rest := "# x".toList, eofbit := false, failbit := false }
          (by decide)
        unfold load_integer_labels
        rw [if_neg (by decide), load_loop, skip_comments, if_pos (by decide)]
        have hat : (at_comment (istream.open_file (some "# x".toList))).2
            = { rest := "# x".toList, eofbit := false, failbit := false } := by
          decide
        rw [hat, h]
  · exact load_integer_labels_mono 8 _ _ _ _ (by decide)

end helpers


namespace dimacs

theorem split_on_line (q : Char → Bool) (x : Char) (hx : q x = true)
    (r : List Char) : ∀ l : List Char, (∀ c ∈ l, q c = false) →
    split_on q (l ++ x :: r) = l :: split_on q r := by
  intro l
  induction l with
  | nil => intro _; simp [split_on, hx]
  | cons c cs ih =>
    intro h
    have hc : q c = false := h c (List.mem_cons_self _ _)
    have ih1 := ih (fun d hd => h d (List.mem_cons_of_mem _ hd))
    show split_on q (c :: (cs ++ x :: r)) = (c :: cs) :: split_on q r
    rw [split_on, ih1, hc]
    rfl

theorem split_on_last (q : Char → Bool) : ∀ l : List Char,
    (∀ c ∈ l, q c = false) → split_on q l = [l] := by
  intro l
  induction l with
  | nil => intro _; rfl
  | cons c cs ih =>
    intro h
    have hc : q c = false := h c (List.mem_cons_self _ _)
    have ih1 := ih (fun d hd => h d (List.mem_cons_of_mem _ hd))
    rw [split_on, ih1, hc]
    rfl

theorem first_newline : ∀ cs : List Char, '\n' ∈ cs →
    ∃ l r, cs = l ++ '\n' :: r ∧ '\n' ∉ l := by
  intro cs
  induction cs with
  | nil => intro h; exact absurd h (List.not_mem_nil _)
  | cons c cs ih =>
    intro h
    by_cases hc : c = '\n'
    · exact ⟨[], cs, by rw [hc]; rfl, List.not_mem_nil _⟩
    · have hmem : '\n' ∈ cs := by
        rcases List.mem_cons.1 h with h1 | h1
        · exact absurd h1.symm hc
        · exact h1
      obtain ⟨l, r, hlr, hl⟩ := ih hmem
      refine ⟨c :: l, r, by rw [hlr]; rfl, ?_⟩
      intro h2
      rcases List.mem_cons.1 h2 with h3 | h3
      · exact hc h3.symm
      · exact hl h3

theorem map_map {α β γ : Type} (f : α → β) (g : β → γ) (o : parse_outcome α) :
    (o.map f).map g = o.map (fun a => g (f a)) := by
  cases o <;> rfl

theorem read_descriptor_eq (buf : List Char) :
    read_descriptor buf
      = if 4 ≤ (strtok_all buf).length then
          match atoi ((strtok_all buf).getD 1 []),
              atoi ((strtok_all buf).getD 2 []),
              atoi ((strtok_all buf).getD 3 []) with
          | some x, some y, some z => some (some (x, y, z))
          | _, _, _ => none
        else some none := by
  unfold read_descriptor
  rcases strtok_all buf with _ | ⟨t0, _ | ⟨t1, _ | ⟨t2, _ | ⟨t3, ts⟩⟩⟩⟩
  · rfl
  · rfl
  · rfl
  · rfl
  · simp

/-- First line of a good stream: what peek and getline give, and the stream
that is left. -/
theorem first_line (s : istream) (hg : s.good = true)
    (hshort : ∀ l ∈ split_on (fun c => c = '\n') s.rest, l.length < 1024) :
    ∃ l ls s2, split_on (fun c => c = '\n') s.rest = l :: ls
      ∧ (∀ c : Char, c ≠ '\n' → ((s.peek).1 = some c ↔ l.head? = some c))
      ∧ (s.peek).2.getline 1024 = (l, s2)
      ∧ ((s2.good = false ∧ ls = [])
        ∨ (s2.good = true ∧ ls = split_on (fun c => c = '\n') s2.rest
            ∧ s2.rest.length < s.rest.length)) := by
  have hgood : (!s.good) = false := by rw [hg]; rfl
  have hflags : s.eofbit = false ∧ s.failbit = false := by
    unfold istream.good at hg
    cases h1 : s.eofbit <;> cases h2 : s.failbit <;> simp [h1, h2] at hg ⊢
  by_cases hnl : '\n' ∈ s.rest
  · obtain ⟨l, r, hlr, hl⟩ := first_newline s.rest hnl
    have hq : ∀ c ∈ l, (fun c : Char => decide (c = '\n')) c = false := by
      intro c hc
      simp only [decide_eq_false_iff_not]
      intro h
      exact hl (h ▸ hc)
    have hp : ∀ c ∈ l, (fun c : Char => decide (c ≠ '\n')) c = true := by
      intro c hc
      simp only [decide_eq_true_eq]
      intro h
      exact hl (h ▸ hc)
    have hsplit : split_on (fun c => c = '\n') s.rest
        = l :: split_on (fun c => c = '\n') r := by
      rw [hlr]
      exact split_on_line _ '\n' (by simp) r l hq
    have hlen : l.length < 1024 := hshort l (by rw [hsplit]; exact List.mem_cons_self _ _)
    have hpeek : s.peek = ((l ++ '\n' :: r).head?, s) := by
      unfold istream.peek
      rw [hgood, hlr]
      cases l <;> rfl
    have htake : (s.rest.takeWhile (fun c => c ≠ '\n')) = l := by
      rw [hlr, List.takeWhile_append_of_pos hp]
      simp
    have hdrop : (s.rest.dropWhile (fun c => c ≠ '\n')) = '\n' :: r := by
      rw [hlr, List.dropWhile_append_of_pos hp]
      simp
    refine ⟨l, split_on (fun c => c = '\n') r, { s with rest := r }, hsplit,
      ?_, ?_, Or.inr ⟨?_, rfl, ?_⟩⟩
    · intro c hc
      rw [hpeek]
      cases l with
      | nil =>
        simp only [List.nil_append, List.head?_cons, List.head?_nil]
        constructor
        · intro h; exact absurd (Option.some.inj h).symm hc
        · intro h; exact Option.noConfusion h
      | cons d ds => simp
    · rw [hpeek]
      unfold istream.getline
      simp only [hgood, htake, hdrop]
      rw [if_neg (by simp), if_pos (by omega)]
    · unfold istream.good
      simp [hflags.1, hflags.2]
    · rw [hlr]
      simp only [List.length_append, List.length_cons]
      omega
  · have hq : ∀ c ∈ s.rest, (fun c : Char => decide (c = '\n')) c = false := by
      intro c hc
      simp only [decide_eq_false_iff_not]
      intro h
      exact hnl (h ▸ hc)
    have hp : ∀ c ∈ s.rest, (fun c : Char => decide (c ≠ '\n')) c = true := by
      intro c hc
      simp only [decide_eq_true_eq]
      intro h
      exact hnl (h ▸ hc)
    have hsplit : split_on (fun c => c = '\n') s.rest = [s.rest] :=
      split_on_last _ _ hq
    have hlen : s.rest.length < 1024 :=
      hshort _ (by rw [hsplit]; exact List.mem_cons_self _ _)
    have htake : (s.rest.takeWhile (fun c => c ≠ '\n')) = s.rest :=
      List.takeWhile_eq_self_iff.2 hp
    have hdrop : (s.rest.dropWhile (fun c => c ≠ '\n')) = [] :=
      List.dropWhile_eq_nil_iff.2 hp
    cases hrest : s.rest with
    | nil =>
      refine ⟨[], [], { s with eofbit := true, failbit := true }, ?_, ?_, ?_,
        Or.inl ⟨?_, rfl⟩⟩
      · rw [hrest] at hsplit; exact hsplit
      · intro c _
        unfold istream.peek
        rw [hgood, hrest]
        simp
      · unfold istream.peek
        rw [hgood, hrest]
        unfold istream.getline istream.good
        simp
      · unfold istream.good
        simp
    | cons d ds =>
      refine ⟨d :: ds, [],
        { rest := [], eofbit := true, failbit := false }, ?_, ?_, ?_,
        Or.inl ⟨rfl, rfl⟩⟩
      · rw [hrest] at hsplit; exact hsplit
      · intro c _
        unfold istream.peek
        rw [hgood, hrest]
        simp
      · have hpeek : s.peek = (some d, s) := by
          unfold istream.peek
          rw [hgood, hrest]
          rfl
        rw [hpeek]
        unfold istream.getline
        simp only [hgood, htake, hdrop]
        rw [if_neg (by simp), if_pos (by omega), hrest]
        rfl

theorem load_loop_not_good (tag : Char) (fuel : Nat) (s : istream)
    (acc : List (Int × Int × Int)) (hg : s.good = false) :
    load_loop tag (fuel + 1) s acc = parse_outcome.returned true acc := by
  rw [load_loop, hg]
  rfl

theorem load_loop_eq_records (tag : Char) (h1 : tag ≠ 'p') (h2 : tag ≠ '\n') :
    ∀ (n : Nat) (s : istream) (acc : List (Int × Int × Int)) (fuel : Nat),
      s.rest.length ≤ n → s.good = true →
      (∀ l ∈ split_on (fun c => c = '\n') s.rest, l.length < 1024) →
      s.rest.length + 2 ≤ fuel →
      load_loop tag fuel s acc
        = (records_of_lines tag (split_on (fun c => c = '\n') s.rest)).map
            (fun recs => acc ++ recs) := by
  intro n
  induction n using Nat.strong_induction_on with
  | _ n ih =>
    intro s acc fuel hn hg hshort hfuel
    obtain ⟨f, rfl⟩ : ∃ f, fuel = f + 1 := ⟨fuel - 1, by omega⟩
    obtain ⟨l, ls, s2, hsplit, hpeek, hget, htail⟩ := first_line s hg hshort
    have hrest : ∀ acc1 : List (Int × Int × Int),
        load_loop tag f s2 acc1
          = (records_of_lines tag ls).map (fun recs => acc1 ++ recs) := by
      intro acc1
      rcases htail with ⟨hbad, hls⟩ | ⟨hgood2, hls, hlt⟩
      · obtain ⟨f2, rfl⟩ : ∃ f2, f = f2 + 1 := ⟨f - 1, by omega⟩
        rw [load_loop_not_good tag f2 s2 acc1 hbad, hls]
        simp [records_of_lines, parse_outcome.map]
      · rw [hls]
        apply ih s2.rest.length (by omega) s2 acc1 f (le_refl _) hgood2
        · intro l2 hl2
          apply hshort
          rw [hsplit, hls]
          exact List.mem_cons_of_mem _ hl2
        · omega
    have hgood : (!s.good) = false := by rw [hg]; rfl
    rw [load_loop, hgood, hsplit]
    simp only [Bool.false_eq_true, if_false]
    unfold load_step
    rw [hget]
    simp only
    rw [records_of_lines]
    by_cases htag : l.head? = some tag
    · have hne : ¬ l.head? = some 'p' := by
        rw [htag]
        intro h
        exact h1 (Option.some.inj h)
      rw [if_pos ((hpeek tag h2).2 htag), if_neg hne, read_descriptor_eq]
      by_cases h4 : 4 ≤ (strtok_all l).length
      · rw [if_pos h4, if_pos ⟨htag, h4⟩]
        cases hx : atoi ((strtok_all l).getD 1 []) with
        | none => rfl
        | some x =>
          cases hy : atoi ((strtok_all l).getD 2 []) with
          | none => rfl
          | some y =>
            cases hz : atoi ((strtok_all l).getD 3 []) with
            | none => rfl
            | some z =>
              simp only
              rw [hrest, map_map]
              congr 1
              funext recs
              simp
      · rw [if_neg h4, if_neg (fun h => h4 h.2)]
        simp only
        exact hrest acc
    · have hnt : ¬ (s.peek).1 = some tag := fun h => htag ((hpeek tag h2).1 h)
      have hnt2 : ¬ (l.head? = some tag ∧ 4 ≤ (strtok_all l).length) :=
        fun h => htag h.1
      rw [if_neg hnt, if_neg hnt2]
      by_cases hp : l.head? = some 'p'
      · rw [if_pos ((hpeek 'p' (by decide)).2 hp), if_pos hp]
        simp [parse_outcome.map]
      · rw [if_neg (fun h => hp ((hpeek 'p' (by decide)).1 h)), if_neg hp]
        simp only
        exact hrest acc

end dimacs

namespace dimacs

set_option maxRecDepth 100000 in
/-- Claim C17 (counterexample). A comment line of 1024 characters makes
getline set failbit, so the loop ends and the well-formed line "v 1 2 3"
after it is not loaded; and the lines "v a b c" and "vertex 1 2 3", which
are not of the form 'v id x y', each give a node. -/
theorem load_co_file_long_line_and_malformed :
    load_co_file 8 { nodes_ := [], edges_ := [] }
        { rest := long_comment_input, eofbit := false, failbit := false }
      = parse_outcome.returned true { nodes_ := [], edges_ := [] }
    ∧ load_co_file 8 { nodes_ := [], edges_ := [] }
        { rest := "v a b c\nvertex 1 2 3\n".toList,
          eofbit := false, failbit := false }
      = parse_outcome.returned true
          { nodes_ := [⟨0, 0, 0⟩, ⟨1, 2, 3⟩], edges_ := [] } := by
  decide

/-- Claim C17 (amended). For an input whose lines all have fewer than 1024
characters, load_co_file (load_gr_file) returns and replaces nodes_ (edges_)
by the records of the lines before the first line beginning with 'p', in
input order: one record for each line that begins with 'v' ('a') and has at
least four tokens separated by blanks or tabs, its fields being atoi of the
second, third and fourth token; every other line is skipped; the other
collection is left as it was. -/
theorem load_co_gr_file_records (p : dimacs) (cs : List Char)
    (fuel : Nat)
    (hshort : ∀ l ∈ split_on (fun c => c = '\n') cs, l.length < 1024)
    (hfuel : cs.length + 2 ≤ fuel) :
    load_co_file fuel p { rest := cs, eofbit := false, failbit := false }
      = (records_of_lines 'v' (split_on (fun c => c = '\n') cs)).map
          (fun recs =>
            { p with
              nodes_ := recs.map (fun r =>
                { id_ := r.1, x_ := r.2.1, y_ := r.2.2 }) })
    ∧ load_gr_file fuel p { rest := cs, eofbit := false, failbit := false }
      = (records_of_lines 'a' (split_on (fun c => c = '\n') cs)).map
          (fun recs =>
            { p with
              edges_ := recs.map (fun r =>
                { tail_id_ := r.1, head_id_ := r.2.1, weight_ := r.2.2 }) }) := by
  have hv := load_loop_eq_records 'v' (by decide) (by decide) cs.length
    { rest := cs, eofbit := false, failbit := false } [] fuel (le_refl _) rfl
    hshort hfuel
  have ha := load_loop_eq_records 'a' (by decide) (by decide) cs.length
    { rest := cs, eofbit := false, failbit := false } [] fuel (le_refl _) rfl
    hshort hfuel
  simp only [List.nil_append] at hv ha
  constructor
  · unfold load_co_file
    rw [hv]
    cases records_of_lines 'v' (split_on (fun c => c = '\n') cs) <;> rfl
  · unfold load_gr_file
    rw [ha]
    cases records_of_lines 'a' (split_on (fun c => c = '\n') cs) <;> rfl

theorem load_co_gr_file_records_witness :
    load_co_file 60 { nodes_ := [], edges_ := [⟨5, 6, 7⟩] }
        { rest := "c hi\nv 1 2 3\nv 4\nq\nv -7 +8 9x\np sp\nv 1 1 1\n".toList,
          eofbit := false, failbit := false }
      = parse_outcome.returned false
          { nodes_ := [⟨1, 2, 3⟩, ⟨-7, 8, 9⟩], edges_ := [⟨5, 6, 7⟩] } :=
  (load_co_gr_file_records { nodes_ := [], edges_ := [⟨5, 6, 7⟩] }
    "c hi\nv 1 2 3\nv 4\nq\nv -7 +8 9x\np sp\nv 1 1 1\n".toList 60
    (by decide) (by decide)).1.trans (by decide)

end dimacs


namespace topping

end topping

namespace topping

theorem dx_dy_lookup (move : Nat) (a b : Int) (ha : dx[move]? = some a)
    (hb : dy[move]? = some b) :
    move < 8 ∧ a = dx.getD move 0 ∧ b = dy.getD move 0 := by
  have hlt : move < 8 := by
    by_contra h
    have : dx[move]? = none := List.getElem?_eq_none (by simp [dx]; omega)
    rw [this] at ha
    exact Option.noConfusion ha
  refine ⟨hlt, ?_, ?_⟩
  · rw [List.getD_eq_getElem?_getD, ha]; rfl
  · rw [List.getD_eq_getElem?_getD, hb]; rfl

theorem path_inv_snoc (state : State) (path0 : List xyLoc) (s0 s : xyLoc)
    (cs : Int) (path : List xyLoc) (move : Nat) (a b : Int)
    (ha : dx[move]? = some a) (hb : dy[move]? = some b)
    (h : path_inv state path0 s0 s cs path) :
    path_inv state path0 s0 ⟨int16_wrap (s.x + a), int16_wrap (s.y + b)⟩
      (state.mapper ⟨int16_wrap (s.x + a), int16_wrap (s.y + b)⟩)
      (path ++ [⟨int16_wrap (s.x + a), int16_wrap (s.y + b)⟩]) := by
  obtain ⟨app, hp, hh, hl, hc, _⟩ := h
  obtain ⟨hlt, hxa, hyb⟩ := dx_dy_lookup move a b ha hb
  have hne : app ≠ [] := by
    intro h0
    rw [h0] at hh
    exact Option.noConfusion hh
  refine ⟨app ++ [⟨int16_wrap (s.x + a), int16_wrap (s.y + b)⟩], ?_, ?_, ?_,
    ?_, rfl⟩
  · rw [hp, List.append_assoc]
  · rw [List.head?_append_of_ne_nil _ hne, hh]
  · simp
  · apply List.Chain'.append hc (List.chain'_singleton _)
    intro u hu v hv
    rw [hl] at hu
    have hu2 : u = s := (Option.some.inj hu).symm
    have hv2 : v = ⟨int16_wrap (s.x + a), int16_wrap (s.y + b)⟩ := by
      simpa using hv.symm
    rw [hu2, hv2, hxa, hyb]
    exact ⟨move, hlt, rfl⟩

theorem walk_inv (state : State) (move : Nat) (ct : Int)
    (path0 : List xyLoc) (s0 : xyLoc) :
    ∀ (k : Nat) (s : xyLoc) (cs : Int) (path : List xyLoc) (s1 : xyLoc)
      (cs1 : Int) (path1 : List xyLoc),
      walk state move ct k s cs path = some (s1, cs1, path1) →
      path_inv state path0 s0 s cs path →
      path_inv state path0 s0 s1 cs1 path1 := by
  intro k
  induction k with
  | zero =>
    intro s cs path s1 cs1 path1 h hinv
    simp only [walk, Option.some.injEq, Prod.mk.injEq] at h
    obtain ⟨h1, h2, h3⟩ := h
    rw [← h1, ← h2, ← h3]
    exact hinv
  | succ k ih =>
    intro s cs path s1 cs1 path1 h hinv
    rw [walk] at h
    cases ha : dx[move]? with
    | none => rw [ha] at h; exact Option.noConfusion h
    | some a =>
      cases hb : dy[move]? with
      | none => rw [ha, hb] at h; exact Option.noConfusion h
      | some b =>
        rw [ha, hb] at h
        simp only at h
        have hnext := path_inv_snoc state path0 s0 s cs path move a b ha hb hinv
        by_cases hhit : state.mapper
            ⟨int16_wrap (s.x + a), int16_wrap (s.y + b)⟩ = ct
        · rw [if_pos hhit] at h
          simp only [Option.some.injEq, Prod.mk.injEq] at h
          obtain ⟨h1, h2, h3⟩ := h
          rw [← h1, ← h2, ← h3]
          exact hnext
        · rw [if_neg hhit] at h
          exact ih _ _ _ _ _ _ h hnext

theorem follow_inv (state : State) (t : xyLoc) (ct : Int)
    (path0 : List xyLoc) (s0 : xyLoc) :
    ∀ (fuel move : Nat) (steps : Int) (s : xyLoc) (cs : Int)
      (path r : List xyLoc),
      follow state t ct fuel move steps s cs path = GetPath_result.returned r →
      path_inv state path0 s0 s cs path →
      ∃ last, path_inv state path0 s0 last ct r := by
  intro fuel
  induction fuel with
  | zero =>
    intro move steps s cs path r h _
    exact GetPath_result.noConfusion h
  | succ fuel ih =>
    intro move steps s cs path r h hinv
    rw [follow] at h
    cases hw : walk state move ct steps.toNat s cs path with
    | none => rw [hw] at h; exact GetPath_result.noConfusion h
    | some res =>
      obtain ⟨s1, cs1, path1⟩ := res
      rw [hw] at h
      simp only at h
      have hinv1 := walk_inv state move ct path0 s0 _ _ _ _ _ _ _ hw hinv
      by_cases hhit : cs1 = ct
      · rw [if_pos hhit] at h
        have hr : path1 = r := GetPath_result.returned.inj h
        rw [← hr, ← hhit]
        exact ⟨s1, hinv1⟩
      · rw [if_neg hhit] at h
        by_cases hsh : 32 ≤ state.get_first_move cs1 ct % 256
        · rw [if_pos hsh] at h
          exact GetPath_result.noConfusion h
        · rw [if_neg hsh] at h
          exact ih _ _ _ _ _ _ h hinv1

theorem follow_mono (state : State) (t : xyLoc) (ct : Int) :
    ∀ (fuel move : Nat) (steps : Int) (s : xyLoc) (cs : Int)
      (path r : List xyLoc),
      follow state t ct fuel move steps s cs path = GetPath_result.returned r →
      follow state t ct (fuel + 1) move steps s cs path
        = GetPath_result.returned r := by
  intro fuel
  induction fuel with
  | zero =>
    intro move steps s cs path r h
    exact GetPath_result.noConfusion h
  | succ fuel ih =>
    intro move steps s cs path r h
    rw [follow] at h ⊢
    cases hw : walk state move ct steps.toNat s cs path with
    | none => rw [hw] at h; exact GetPath_result.noConfusion h
    | some res =>
      obtain ⟨s1, cs1, path1⟩ := res
      rw [hw] at h
      simp only at h ⊢
      by_cases hhit : cs1 = ct
      · rw [if_pos hhit] at h ⊢; exact h
      · rw [if_neg hhit] at h ⊢
        by_cases hsh : 32 ≤ state.get_first_move cs1 ct % 256
        · rw [if_pos hsh] at h; exact GetPath_result.noConfusion h
        · rw [if_neg hsh] at h ⊢
          exact ih _ _ _ _ _ _ h

/-- What holds whenever GetPath returns: if s and t have the same
node or the first lookup yields 0xF, the path vector is unchanged; otherwise
the appended locations begin with s, end with a location whose node is the
node of t (which is t when no other location has that node), and every
consecutive pair differs by (dx[m], dy[m]) for one move m below 8, in
16-bit arithmetic; and more fuel gives the same path. -/
theorem GetPath_returned_path (fuel : Nat) (state : State) (s t : xyLoc)
    (path r : List xyLoc)
    (h : GetPath fuel state s t path = GetPath_result.returned r) :
    (state.mapper s = state.mapper t
        ∨ state.get_first_move (state.mapper s) (state.mapper t) % 256 = 15 →
      r = path)
    ∧ (¬ (state.mapper s = state.mapper t
        ∨ state.get_first_move (state.mapper s) (state.mapper t) % 256 = 15) →
      ∃ app last, r = path ++ app ∧ app.head? = some s
        ∧ app.getLast? = some last ∧ state.mapper last = state.mapper t
        ∧ ((∀ u, state.mapper u = state.mapper t → u = t) → last = t)
        ∧ List.Chain' is_move app)
    ∧ GetPath (fuel + 1) state s t path = GetPath_result.returned r := by
  unfold GetPath at h ⊢
  by_cases hc : state.get_first_move (state.mapper s) (state.mapper t) % 256 ≠ 15
      ∧ state.mapper s ≠ state.mapper t
  · rw [if_pos hc] at h ⊢
    by_cases hsh : 32 ≤ state.get_first_move (state.mapper s) (state.mapper t) % 256
    · rw [if_pos hsh] at h
      exact GetPath_result.noConfusion h
    · rw [if_neg hsh] at h ⊢
      refine ⟨fun hor => ?_, fun _ => ?_, follow_mono _ _ _ _ _ _ _ _ _ _ h⟩
      · rcases hor with h1 | h1
        · exact absurd h1 hc.2
        · exact absurd h1 hc.1
      · have hinv0 : path_inv state path s s (state.mapper s) (path ++ [s]) :=
          ⟨[s], rfl, rfl, rfl, List.chain'_singleton _, rfl⟩
        obtain ⟨last, app, hp, hh, hl, hch, hm⟩ :=
          follow_inv state t _ path s _ _ _ _ _ _ _ h hinv0
        exact ⟨app, last, hp, hh, hl, hm.symm, fun hinj => hinj _ hm.symm, hch⟩
  · rw [if_neg hc] at h ⊢
    refine ⟨fun _ => (GetPath_result.returned.inj h).symm, fun hnot => ?_, h⟩
    exfalso
    apply hc
    constructor
    · intro h1; exact hnot (Or.inr h1)
    · intro h1; exact hnot (Or.inl h1)

theorem GetPath_returned_path_witness :
    ∃ app last, [(⟨0, 0⟩ : xyLoc), ⟨1, 0⟩, ⟨2, 0⟩] = [] ++ app
      ∧ app.head? = some ⟨0, 0⟩
      ∧ app.getLast? = some last
      ∧ corridor_east.mapper last = corridor_east.mapper ⟨2, 0⟩
      ∧ ((∀ u, corridor_east.mapper u = corridor_east.mapper ⟨2, 0⟩
            → u = ⟨2, 0⟩) → last = ⟨2, 0⟩)
      ∧ List.Chain' is_move app :=
  (GetPath_returned_path 5 corridor_east ⟨0, 0⟩ ⟨2, 0⟩ []
    [⟨0, 0⟩, ⟨1, 0⟩, ⟨2, 0⟩] (by decide)).2.1 (by decide)

end topping


theorem should_prune_self (x : search_node) :
    should_prune_ (some x) x = true := by
  simp [should_prune_]

theorem rebuild_total (S : cpd_search) (pi : problem_instance) :
    ∀ (m : Nat) (n : sn_id_t) (nodes : node_pool) (fuel : Nat),
      (∀ j < m, S.expander_.is_target (next_chain S pi n j) pi = false
        ∧ next_chain S pi n (j + 1) ≠ SN_ID_MAX) →
      ¬ (S.expander_.is_target (next_chain S pi n m) pi = false
        ∧ next_chain S pi n (m + 1) ≠ SN_ID_MAX) →
      m + 2 ≤ fuel →
      ∃ nodes1 r, rebuild S pi fuel nodes (some n) = some (nodes1, r) := by
  intro m
  induction m with
  | zero =>
    intro n nodes fuel _ hstop hfuel
    obtain ⟨f, rfl⟩ : ∃ f, fuel = f + 2 := ⟨fuel - 2, by omega⟩
    simp only [rebuild]
    by_cases ht : S.expander_.is_target n pi = true
    · rw [if_pos ht]; exact ⟨_, _, rfl⟩
    · rw [if_neg ht]
      have hn : S.heuristic_.next n pi.target_id_ = SN_ID_MAX := by
        by_contra hne
        apply hstop
        refine ⟨?_, hne⟩
        cases hb : S.expander_.is_target n pi with
        | true => exact absurd hb ht
        | false => exact hb
      rw [if_pos hn]
      exact ⟨_, _, rfl⟩
  | succ m ih =>
    intro n nodes fuel hgo hstop hfuel
    obtain ⟨f, rfl⟩ : ∃ f, fuel = f + 1 := ⟨fuel - 1, by omega⟩
    have h0 := hgo 0 (by omega)
    simp only [rebuild]
    have ht : ¬ S.expander_.is_target n pi = true := by
      have := h0.1
      simp only [next_chain] at this
      rw [this]
      exact Bool.false_ne_true
    have h02 : S.heuristic_.next n pi.target_id_ ≠ SN_ID_MAX := h0.2
    rw [if_neg ht, if_neg h02]
    apply ih (S.heuristic_.next n pi.target_id_) _ f
    · intro j hj
      simp only [next_chain_succ_left]
      exact hgo (j + 1) (by omega)
    · simp only [next_chain_succ_left]
      exact hstop
    · omega

theorem chain_stop_unique (S : cpd_search) (pi : problem_instance)
    (n : sn_id_t) (m m2 : Nat)
    (hgo : ∀ j < m, S.expander_.is_target (next_chain S pi n j) pi = false
      ∧ next_chain S pi n (j + 1) ≠ SN_ID_MAX)
    (hstop : ¬ (S.expander_.is_target (next_chain S pi n m) pi = false
      ∧ next_chain S pi n (m + 1) ≠ SN_ID_MAX))
    (hgo2 : ∀ j < m2, S.expander_.is_target (next_chain S pi n j) pi = false
      ∧ next_chain S pi n (j + 1) ≠ SN_ID_MAX)
    (hstop2 : ¬ (S.expander_.is_target (next_chain S pi n m2) pi = false
      ∧ next_chain S pi n (m2 + 1) ≠ SN_ID_MAX)) :
    m2 = m := by
  rcases Nat.lt_trichotomy m2 m with h | h | h
  · exact absurd (hgo m2 h) hstop2
  · exact h
  · exact absurd (hgo2 m h) hstop

theorem follow_parents_chain (nodes1 : node_pool) (chain : Nat → sn_id_t)
    (m : Nat) (h0 : (nodes1 (chain 0)).parent_id_ = SN_ID_MAX)
    (hpar : ∀ k < m, (nodes1 (chain (k + 1))).parent_id_ = chain k)
    (hne : ∀ k < m, chain k ≠ SN_ID_MAX) :
    ∀ k ≤ m, ∀ fuel, k + 1 ≤ fuel →
      follow_parents nodes1 fuel (chain k)
        = some (((List.range (k + 1)).map chain).reverse) := by
  intro k
  induction k with
  | zero =>
    intro _ fuel hf
    obtain ⟨f, rfl⟩ : ∃ f, fuel = f + 1 := ⟨fuel - 1, by omega⟩
    simp [follow_parents, h0, List.range_succ]
  | succ k ih =>
    intro hk fuel hf
    obtain ⟨f, rfl⟩ : ∃ f, fuel = f + 1 := ⟨fuel - 1, by omega⟩
    rw [follow_parents, hpar k (by omega), if_neg (hne k (by omega)),
      ih (by omega) f (by omega)]
    rw [List.range_succ (k + 1), List.map_append, List.reverse_append]
    rfl

theorem chain_g_sum (nodes1 : node_pool) (chain : Nat → sn_id_t)
    (cost : Nat → cost_t) (m : Nat) (h0 : (nodes1 (chain 0)).g_ = 0)
    (hg : ∀ k < m, (nodes1 (chain (k + 1))).g_ = (nodes1 (chain k)).g_ + cost k) :
    ∀ k ≤ m, (nodes1 (chain k)).g_ = ((List.range k).map cost).sum := by
  intro k
  induction k with
  | zero => intro _; simpa using h0
  | succ k ih =>
    intro hk
    rw [hg k (by omega), ih (by omega), List.range_succ, List.map_append,
      List.sum_append]
    simp

theorem chain_g_fold (nodes1 : node_pool) (chain : Nat → sn_id_t)
    (cost : Nat → cost_t) (m : Nat) (h0 : (nodes1 (chain 0)).g_ = 0)
    (hg : ∀ k < m, (nodes1 (chain (k + 1))).g_
      = cost_add (nodes1 (chain k)).g_ (cost k)) :
    ∀ k ≤ m, (nodes1 (chain k)).g_
      = ((List.range k).map cost).foldl cost_add 0 := by
  intro k
  induction k with
  | zero => intro _; simpa using h0
  | succ k ih =>
    intro hk
    rw [hg k (by omega), ih (by omega), List.range_succ, List.map_append,
      List.foldl_append]
    rfl

theorem null_incumbent_read_of_finite (S : cpd_search) (pi : problem_instance)
    (hub : (S.heuristic_.h pi.start_id_ pi.target_id_).2 < COST_MAX) :
    null_incumbent_read S pi = pi.verbose_ := by
  unfold null_incumbent_read
  rw [decide_eq_true hub, Bool.and_true]

/-- Claim C20. When the heuristic reports a finite upper bound for the start
node, line 396 is reached; for a verbose query its log call reads through
the incumbent, still null, and neither search nor get_path returns, whatever
the fuel. For a query that is not verbose the start becomes the incumbent
and is popped; the pass then ends in early_stop_ or in the pruning of the
start against itself (should_prune_(x, x) holds for every x), so the
expansion loop ends with the state right after the pop and no successor is
generated. If the chain that next() gives from the start stops after m
steps (at a target or at a node without next node), then get_path returns
once the fuel is at least m + 2, with nodes_expanded_ = 1,
nodes_inserted_ = 1, nodes_touched_ = 0 and nodes_updated_ = 0; the node
returned is the end of the chain when that is a target (null otherwise), the
path is then the chain from the start in reverse order, each id cut to 32
bits, and the cost is the sum of doubles of get_cost_ along the chain. -/
theorem finite_start_ub_follows_next_chain (S : cpd_search)
    (timer : Nat → Int) (fuel : Nat) (pi : problem_instance)
    (nodes : node_pool) (sol : solution) (pi2 : problem_instance)
    (st0 : search_state) (m : Nat)
    (hinit : search_init S pi nodes sol.reset = Sum.inr (pi2, st0))
    (hub : (S.heuristic_.h pi2.start_id_ pi2.target_id_).2 < COST_MAX)
    (hstart : pi2.start_id_ ≠ SN_ID_MAX)
    (hgo : ∀ j < m,
      S.expander_.is_target (next_chain S pi2 pi2.start_id_ j) pi2 = false
        ∧ next_chain S pi2 pi2.start_id_ (j + 1) ≠ SN_ID_MAX)
    (hstop : ¬ (S.expander_.is_target (next_chain S pi2 pi2.start_id_ m) pi2
          = false
        ∧ next_chain S pi2 pi2.start_id_ (m + 1) ≠ SN_ID_MAX))
    (hfuel : m + 2 ≤ fuel) :
    (∀ x, should_prune_ (some x) x = true)
    ∧ st0.incumbent = some pi2.start_id_
    ∧ (expand_once S pi2 (timer 0) st0
          = loop_exit.early_stop (popped st0 pi2.start_id_ [])
        ∨ expand_once S pi2 (timer 0) st0
          = loop_exit.again (popped st0 pi2.start_id_ []))
    ∧ expand_loop S pi2 timer fuel 0 st0 = some (popped st0 pi2.start_id_ [])
    ∧ null_incumbent_read S pi2 = pi2.verbose_
    ∧ (pi2.verbose_ = true → ∀ f,
        search S timer f pi nodes sol.reset = none
        ∧ get_path S timer f pi nodes sol = none)
    ∧ (pi2.verbose_ = false →
      ∃ r, get_path S timer fuel pi nodes sol = some r
        ∧ r.sol.nodes_expanded_ = 1 ∧ r.sol.nodes_inserted_ = 1
        ∧ r.sol.nodes_touched_ = 0 ∧ r.sol.nodes_updated_ = 0
        ∧ r.target
            = (if S.expander_.is_target (next_chain S pi2 pi2.start_id_ m) pi2
                  = true
                then some (next_chain S pi2 pi2.start_id_ m) else none)
        ∧ (S.expander_.is_target (next_chain S pi2 pi2.start_id_ m) pi2 = true →
            r.sol.path_
                = (((List.range (m + 1)).map
                    (next_chain S pi2 pi2.start_id_)).reverse).map
                  (fun id => id % 2 ^ 32)
              ∧ r.sol.sum_of_edge_costs_
                = ((List.range m).map (fun k =>
                    get_cost_ S.expander_ (next_chain S pi2 pi2.start_id_ k)
                      (next_chain S pi2 pi2.start_id_ (k + 1)))).foldl
                  cost_add 0)
        ∧ (S.expander_.is_target (next_chain S pi2 pi2.start_id_ m) pi2 = false →
            r.sol.path_ = [])) := by
  obtain ⟨_, hnodes, hopen, hinc, hsol⟩ :=
    search_init_inr S pi nodes sol.reset pi2 st0 hinit
  rw [if_pos hub] at hinc
  have hpop : pqueue_min_pop st0.nodes st0.open_ = some (pi2.start_id_, []) := by
    rw [hopen]
    simp [pqueue_min_pop]
  have hPinc : ((popped st0 pi2.start_id_ []).incumbent.map
      (popped st0 pi2.start_id_ []).nodes)
      = some ((popped st0 pi2.start_id_ []).nodes pi2.start_id_) := by
    show (st0.incumbent.map _) = _
    rw [hinc]
    rfl
  have hex : expand_once S pi2 (timer 0) st0
      = if early_stop_ S ((popped st0 pi2.start_id_ []).nodes pi2.start_id_)
          (popped st0 pi2.start_id_ []).sol (timer 0) = true then
          loop_exit.early_stop (popped st0 pi2.start_id_ [])
        else loop_exit.again (popped st0 pi2.start_id_ []) := by
    rw [expand_once_of_pop S pi2 (timer 0) st0 _ _ hpop, hPinc,
      should_prune_self, if_pos rfl]
  have hcases : expand_once S pi2 (timer 0) st0
        = loop_exit.early_stop (popped st0 pi2.start_id_ [])
      ∨ expand_once S pi2 (timer 0) st0
        = loop_exit.again (popped st0 pi2.start_id_ []) := by
    rw [hex]
    by_cases he : early_stop_ S
        ((popped st0 pi2.start_id_ []).nodes pi2.start_id_)
        (popped st0 pi2.start_id_ []).sol (timer 0) = true
    · left; rw [if_pos he]
    · right; rw [if_neg he]
  have hloop : expand_loop S pi2 timer fuel 0 st0
      = some (popped st0 pi2.start_id_ []) := by
    obtain ⟨f, rfl⟩ : ∃ f, fuel = f + 2 := ⟨fuel - 2, by omega⟩
    rw [expand_loop]
    rcases hcases with h1 | h1
    · rw [h1]
    · rw [h1]
      simp only
      rw [expand_loop]
      have h2 : expand_once S pi2 (timer (0 + 1)) (popped st0 pi2.start_id_ [])
          = loop_exit.open_empty (popped st0 pi2.start_id_ []) := by
        unfold expand_once
        have : pqueue_min_pop (popped st0 pi2.start_id_ []).nodes
            (popped st0 pi2.start_id_ []).open_ = none := rfl
        rw [this]
      rw [h2]
  have hnull := null_incumbent_read_of_finite S pi2 hub
  refine ⟨should_prune_self, hinc, hcases, hloop, hnull, ?_, ?_⟩
  · intro hv f
    have hs : search S timer f pi nodes sol.reset = none := by
      unfold search
      rw [hinit]
      simp only
      rw [hnull, if_pos hv]
    refine ⟨hs, ?_⟩
    unfold get_path
    rw [hs]
  intro hv
  have hnf : ¬ null_incumbent_read S pi2 = true := by
    rw [hnull, hv]
    exact Bool.false_ne_true
  obtain ⟨nodes1, r0, hreb⟩ := rebuild_total S pi2 m pi2.start_id_
    (popped st0 pi2.start_id_ []).nodes fuel hgo hstop hfuel
  obtain ⟨m2, hgo2, hstop2, hr0, hframe, hchain⟩ :=
    rebuild_some_spec S pi2 fuel _ _ _ _ hreb
  have hm : m2 = m := chain_stop_unique S pi2 _ m m2 hgo hstop hgo2 hstop2
  subst hm
  have hdist := next_chain_distinct S pi2 pi2.start_id_ m2 hgo hstop
  have hsearch : search S timer fuel pi nodes sol.reset
      = some { target := r0, nodes := nodes1,
               sol := (popped st0 pi2.start_id_ []).sol, pi := pi2 } := by
    unfold search
    rw [hinit]
    simp only
    rw [if_neg hnf, hloop]
    simp only
    have : (popped st0 pi2.start_id_ []).incumbent = some pi2.start_id_ := hinc
    rw [this, hreb]
  have hstart_rec : nodes1 (next_chain S pi2 pi2.start_id_ 0)
      = (popped st0 pi2.start_id_ []).nodes pi2.start_id_ := by
    apply hframe
    intro j hj
    exact hdist 0 (j + 1) (by omega) (by omega)
  have hstart_parent :
      (nodes1 (next_chain S pi2 pi2.start_id_ 0)).parent_id_ = SN_ID_MAX := by
    rw [hstart_rec]
    show ((st0.nodes.set pi2.start_id_ _) pi2.start_id_).parent_id_ = _
    rw [node_pool.set_self, hnodes, node_pool.set_self]
    rfl
  have hstart_g : (nodes1 (next_chain S pi2 pi2.start_id_ 0)).g_ = 0 := by
    rw [hstart_rec]
    show ((st0.nodes.set pi2.start_id_ _) pi2.start_id_).g_ = _
    rw [node_pool.set_self, hnodes, node_pool.set_self]
    rfl
  have hsol_counts : (popped st0 pi2.start_id_ []).sol.nodes_expanded_ = 1
      ∧ (popped st0 pi2.start_id_ []).sol.nodes_inserted_ = 1
      ∧ (popped st0 pi2.start_id_ []).sol.nodes_touched_ = 0
      ∧ (popped st0 pi2.start_id_ []).sol.nodes_updated_ = 0
      ∧ (popped st0 pi2.start_id_ []).sol.path_ = [] := by
    refine ⟨?_, ?_, ?_, ?_, ?_⟩ <;> simp [popped, hsol, solution.reset]
  by_cases ht : S.expander_.is_target (next_chain S pi2 pi2.start_id_ m2) pi2
      = true
  · rw [if_pos ht] at hr0
    have hne : ∀ k < m2, next_chain S pi2 pi2.start_id_ k ≠ SN_ID_MAX := by
      intro k hk
      cases k with
      | zero => exact hstart
      | succ k => exact (hgo k (by omega)).2
    have hfollow := follow_parents_chain nodes1
      (next_chain S pi2 pi2.start_id_) m2 hstart_parent
      (fun k hk => (hchain k hk).1) hne m2 (le_refl _) fuel (by omega)
    have hg := chain_g_fold nodes1 (next_chain S pi2 pi2.start_id_)
      (fun k => get_cost_ S.expander_ (next_chain S pi2 pi2.start_id_ k)
        (next_chain S pi2 pi2.start_id_ (k + 1))) m2 hstart_g
      (fun k hk => (hchain k hk).2) m2 (le_refl _)
    have hget : get_path S timer fuel pi nodes sol
        = some { target := r0, nodes := nodes1,
                 sol := { (popped st0 pi2.start_id_ []).sol with
                   sum_of_edge_costs_ :=
                     (nodes1 (next_chain S pi2 pi2.start_id_ m2)).g_,
                   path_ := (popped st0 pi2.start_id_ []).sol.path_
                     ++ (((List.range (m2 + 1)).map
                          (next_chain S pi2 pi2.start_id_)).reverse).map
                        (fun id => id % 2 ^ 32) },
                 pi := pi2 } := by
      unfold get_path
      rw [hsearch]
      simp only [hr0, hfollow]
    refine ⟨_, hget, hsol_counts.1, hsol_counts.2.1, hsol_counts.2.2.1,
      hsol_counts.2.2.2.1, ?_, ?_, ?_⟩
    · rw [if_pos ht]; exact hr0
    · intro _
      refine ⟨?_, hg⟩
      show (popped st0 pi2.start_id_ []).sol.path_ ++ _ = _
      rw [hsol_counts.2.2.2.2, List.nil_append]
    · intro hf
      rw [ht] at hf
      exact Bool.noConfusion hf
  · rw [if_neg ht] at hr0
    have hget : get_path S timer fuel pi nodes sol
        = some { target := r0, nodes := nodes1,
                 sol := (popped st0 pi2.start_id_ []).sol, pi := pi2 } := by
      unfold get_path
      rw [hsearch]
      simp only [hr0]
    refine ⟨_, hget, hsol_counts.1, hsol_counts.2.1, hsol_counts.2.2.1,
      hsol_counts.2.2.2.1, ?_, ?_, ?_⟩
    · rw [if_neg ht]; exact hr0
    · intro h; exact absurd h ht
    · intro _; exact hsol_counts.2.2.2.2

theorem finite_start_ub_follows_next_chain_witness :
    (∃ r, get_path (cpd_search.new heuristic_f graph_f) (fun _ => 0) 5 query_b
          blank_pool zero_solution = some r
      ∧ r.sol.nodes_expanded_ = 1 ∧ r.sol.nodes_inserted_ = 1
      ∧ r.sol.nodes_touched_ = 0
      ∧ r.target = some 2
      ∧ r.sol.path_ = [2, 0]
      ∧ r.sol.sum_of_edge_costs_ = 10)
    ∧ (search (cpd_search.new heuristic_f graph_f) (fun _ => 0) 5
          query_b_verbose blank_pool zero_solution.reset = none
      ∧ get_path (cpd_search.new heuristic_f graph_f) (fun _ => 0) 5
          query_b_verbose blank_pool zero_solution = none) :=
  ⟨((finite_start_ub_follows_next_chain (cpd_search.new heuristic_f graph_f)
      (fun _ => 0) 5 query_b blank_pool zero_solution query_b
      graph_f_start_state
      1 rfl (by decide) (by decide) (by decide) (by decide)
      (by decide)).2.2.2.2.2.2 rfl).imp
    (fun _ h => ⟨h.1, h.2.1, h.2.2.1, h.2.2.2.1,
      h.2.2.2.2.2.1.trans (by decide),
      (h.2.2.2.2.2.2.1 (by decide)).1.trans (by decide),
      (h.2.2.2.2.2.2.1 (by decide)).2.trans (by decide)⟩),
   (finite_start_ub_follows_next_chain (cpd_search.new heuristic_f graph_f)
      (fun _ => 0) 5 query_b_verbose blank_pool zero_solution query_b_verbose
      graph_f_start_state
      1 rfl (by decide) (by decide) (by decide) (by decide)
      (by decide)).2.2.2.2.2.1 rfl 5⟩


theorem double_to_uint32_lt (u : Int → Nat) (z : Int) :
    double_to_uint32 u z < 2 ^ 32 := by
  unfold double_to_uint32
  by_cases h : 0 ≤ z ∧ z < 2 ^ 32
  · rw [if_pos h]; omega
  · rw [if_neg h]; exact Nat.mod_lt _ (by decide)

theorem double_to_uint32_of_range (u : Int → Nat) (z : Nat) (h : z < 2 ^ 32) :
    double_to_uint32 u (z : Int) = z := by
  unfold double_to_uint32
  rw [if_pos ⟨Int.ofNat_nonneg _, by exact_mod_cast h⟩, Int.toNat_ofNat]

/-- Claim C24. The setters pass the scaled cutoff through the uint32_t
parameter of set_max_time_cutoff, so the cutoff held is always below 2^32
nanoseconds: set_max_s_cutoff(c) does not leave c * 10^9 for any c >= 5
(nor set_max_ms_cutoff(c) c * 10^6 for c >= 4295, nor set_max_us_cutoff(c)
c * 10^3 for c >= 4294968), whatever the out-of-range conversion yields.
When the scaled cutoff is below 2^32 the cutoff held is the scaled cutoff
and get_max_time_cutoff returns it. -/
theorem set_max_s_cutoff_exceeds_uint32 :
    (∀ (conv_undefined : Int → Nat) (S : cpd_search) (c : Nat), c < 2 ^ 32 →
      ((S.set_max_s_cutoff conv_undefined c).time_cutoff_ < 2 ^ 32
        ∧ (S.set_max_ms_cutoff conv_undefined c).time_cutoff_ < 2 ^ 32
        ∧ (S.set_max_us_cutoff conv_undefined c).time_cutoff_ < 2 ^ 32)
      ∧ (5 ≤ c →
          (S.set_max_s_cutoff conv_undefined c).time_cutoff_
            ≠ (c : Int) * 10 ^ 9)
      ∧ (4295 ≤ c →
          (S.set_max_ms_cutoff conv_undefined c).time_cutoff_
            ≠ (c : Int) * 10 ^ 6)
      ∧ (4294968 ≤ c →
          (S.set_max_us_cutoff conv_undefined c).time_cutoff_
            ≠ (c : Int) * 10 ^ 3)
      ∧ (c * 10 ^ 9 < 2 ^ 32 →
          (S.set_max_s_cutoff conv_undefined c).time_cutoff_
              = (c : Int) * 10 ^ 9
            ∧ (S.set_max_s_cutoff conv_undefined c).get_max_time_cutoff
                conv_undefined = c * 10 ^ 9)
      ∧ (c * 10 ^ 6 < 2 ^ 32 →
          (S.set_max_ms_cutoff conv_undefined c).time_cutoff_
              = (c : Int) * 10 ^ 6
            ∧ (S.set_max_ms_cutoff conv_undefined c).get_max_time_cutoff
                conv_undefined = c * 10 ^ 6)
      ∧ (c * 10 ^ 3 < 2 ^ 32 →
          (S.set_max_us_cutoff conv_undefined c).time_cutoff_
              = (c : Int) * 10 ^ 3
            ∧ (S.set_max_us_cutoff conv_undefined c).get_max_time_cutoff
                conv_undefined = c * 10 ^ 3))
    ∧ ((cpd_search.new heuristic_a graph_a).set_max_s_cutoff
          (fun z => z.toNat) 5).time_cutoff_ = 705032704 := by
  refine ⟨?_, by decide⟩
  intro u S c hc
  have hmod : c % 2 ^ 32 = c := Nat.mod_eq_of_lt hc
  have hs : (S.set_max_s_cutoff u c).time_cutoff_
      = ((double_to_uint32 u ((c : Int) * 1000000000) : Nat) : Int) := by
    simp only [cpd_search.set_max_s_cutoff, cpd_search.set_max_time_cutoff, hmod,
      Nat.mod_eq_of_lt (double_to_uint32_lt u _)]
  have hm : (S.set_max_ms_cutoff u c).time_cutoff_
      = ((double_to_uint32 u ((c : Int) * 1000000) : Nat) : Int) := by
    simp only [cpd_search.set_max_ms_cutoff, cpd_search.set_max_time_cutoff, hmod,
      Nat.mod_eq_of_lt (double_to_uint32_lt u _)]
  have hu : (S.set_max_us_cutoff u c).time_cutoff_
      = ((double_to_uint32 u ((c : Int) * 1000) : Nat) : Int) := by
    simp only [cpd_search.set_max_us_cutoff, cpd_search.set_max_time_cutoff, hmod,
      Nat.mod_eq_of_lt (double_to_uint32_lt u _)]
  have bs := double_to_uint32_lt u ((c : Int) * 1000000000)
  have bm := double_to_uint32_lt u ((c : Int) * 1000000)
  have bu := double_to_uint32_lt u ((c : Int) * 1000)
  have es : ((c * 1000000000 : Nat) : Int) = (c : Int) * 1000000000 := by
    push_cast; rfl
  have em : ((c * 1000000 : Nat) : Int) = (c : Int) * 1000000 := by
    push_cast; rfl
  have eu : ((c * 1000 : Nat) : Int) = (c : Int) * 1000 := by
    push_cast; rfl
  refine ⟨⟨?_, ?_, ?_⟩, ?_, ?_, ?_, ?_, ?_, ?_⟩
  · rw [hs]; exact_mod_cast bs
  · rw [hm]; exact_mod_cast bm
  · rw [hu]; exact_mod_cast bu
  · intro h5
    rw [hs]
    intro heq
    have : (double_to_uint32 u ((c : Int) * 1000000000) : Int) < 2 ^ 32 := by
      exact_mod_cast bs
    omega
  · intro h5
    rw [hm]
    intro heq
    have : (double_to_uint32 u ((c : Int) * 1000000) : Int) < 2 ^ 32 := by
      exact_mod_cast bm
    omega
  · intro h5
    rw [hu]
    intro heq
    have : (double_to_uint32 u ((c : Int) * 1000) : Int) < 2 ^ 32 := by
      exact_mod_cast bu
    omega
  · intro hlt
    have hlt2 : c * 1000000000 < 2 ^ 32 := by omega
    have hv : double_to_uint32 u ((c : Int) * 1000000000) = c * 1000000000 := by
      rw [← es]; exact double_to_uint32_of_range u _ hlt2
    refine ⟨by rw [hs, hv]; push_cast; norm_num, ?_⟩
    unfold cpd_search.get_max_time_cutoff
    rw [hs, hv, double_to_uint32_of_range u _ hlt2]
    norm_num
  · intro hlt
    have hlt2 : c * 1000000 < 2 ^ 32 := by omega
    have hv : double_to_uint32 u ((c : Int) * 1000000) = c * 1000000 := by
      rw [← em]; exact double_to_uint32_of_range u _ hlt2
    refine ⟨by rw [hm, hv]; push_cast; norm_num, ?_⟩
    unfold cpd_search.get_max_time_cutoff
    rw [hm, hv, double_to_uint32_of_range u _ hlt2]
    norm_num
  · intro hlt
    have hlt2 : c * 1000 < 2 ^ 32 := by omega
    have hv : double_to_uint32 u ((c : Int) * 1000) = c * 1000 := by
      rw [← eu]; exact double_to_uint32_of_range u _ hlt2
    refine ⟨by rw [hu, hv]; push_cast; norm_num, ?_⟩
    unfold cpd_search.get_max_time_cutoff
    rw [hu, hv, double_to_uint32_of_range u _ hlt2]
    norm_num


namespace wgridmap_expansion_policy

/-- Claim C25. The tests for the diagonal neighbours combine the terrain
values with the bitwise and: with the N, NE and E tiles of values 1, 2 and
4, all traversable, the NE neighbour is not generated (only N and E are);
in general the NE neighbour is generated exactly when the bitwise and of
the three values is non-zero. On uniform terrain of value 1 the eight
neighbours are generated clockwise from N, with cost 1 for the cardinal
and DBL_ROOT_TWO for the diagonal moves. -/
theorem expand_diagonal_uses_bitwise_and :
    (∀ r : ℚ, expand r (fun i => 100 + i) terrain_1_2_4
        = [(101, 1), (105, 5 / 2)])
    ∧ terrain_1_2_4 1 ≠ 0 ∧ terrain_1_2_4 2 ≠ 0 ∧ terrain_1_2_4 5 ≠ 0
    ∧ (∀ (r : ℚ) (ids tiles : Nat → Nat),
        (∃ c, (ids 2, c) ∈ expand r ids tiles) →
        (∀ i, i ≠ 2 → ids i ≠ ids 2) →
          tiles 1 &&& tiles 2 &&& tiles 5 ≠ 0)
    ∧ (∀ r : ℚ, expand r (fun i => 100 + i) (fun _ => 1)
        = [(101, 1), (102, r), (105, 1), (108, r), (107, 1), (106, r),
           (103, 1), (100, r)]) := by
  refine ⟨?_, by decide, by decide, by decide, ?_, ?_⟩
  · intro r
    have h1 : (1 : Nat) &&& 2 = 0 := by decide
    simp [expand, terrain_1_2_4, h1]
    norm_num
  · intro r ids tiles ⟨c, hc⟩ hne
    by_contra hz
    unfold expand at hc
    simp only [List.mem_append] at hc
    have key : ∀ (b : Prop) [Decidable b] (i : Nat) (q : ℚ), i ≠ 2 →
        ¬ (ids 2, c) ∈ (if b then [(ids i, q)] else []) := by
      intro b _ i q hi hmem
      by_cases hb : b
      · rw [if_pos hb] at hmem
        simp only [List.mem_singleton, Prod.mk.injEq] at hmem
        exact hne i hi hmem.1.symm
      · rw [if_neg hb] at hmem
        exact absurd hmem (List.not_mem_nil _)
    rcases hc with ((((((h | h) | h) | h) | h) | h) | h) | h
    · exact key _ 1 _ (by decide) h
    · rw [if_neg (not_not.2 hz)] at h
      exact absurd h (List.not_mem_nil _)
    · exact key _ 5 _ (by decide) h
    · exact key _ 8 _ (by decide) h
    · exact key _ 7 _ (by decide) h
    · exact key _ 6 _ (by decide) h
    · exact key _ 3 _ (by decide) h
    · exact key _ 0 _ (by decide) h
  · intro r
    have h1 : (1 : Nat) &&& 1 = 1 := by decide
    simp [expand, h1]
    ring

end wgridmap_expansion_policy


namespace topping

/-- Claim C22. For a map with 1 to 9 nodes (a 3x3 grid has 9) the modulus
node_count / 10 of the progress test is zero: the remainder has no value,
in the sequential build at the first source and in the parallel build as
soon as a thread processes a source, so neither build yields rows or
progress lines. With 19 nodes the modulus is 1 and a line is printed for
every source; with 100 nodes a line is printed every tenth source. -/
theorem progress_modulus_zero_below_ten {α : Type} (run : Int → α)
    (n T M : Nat) (hn1 : 1 ≤ n) (hn9 : n ≤ 9) (hT : 1 ≤ T) (hM : T ≤ M)
    (hnT : n * T < 2 ^ 31) :
    Int.tdiv (n : Int) 10 = 0
    ∧ sequential_build run n = none
    ∧ parallel_build run n M T = none
    ∧ sequential_progress n = none
    ∧ parallel_progress n = none
    ∧ sequential_progress 19
        = some ((List.range 19).map (fun (k : Nat) => (k : Int)))
    ∧ parallel_progress 100 = some [10, 20, 30, 40, 50, 60, 70, 80, 90, 100] := by
  have hdiv : Int.tdiv (n : Int) 10 = 0 := by
    have h := (Int.ofNat_tdiv n 10).symm
    have h0 : n / 10 = 0 := by omega
    rw [h0] at h
    exact h
  have hpos : 0 < (n : Int) := by exact_mod_cast hn1
  refine ⟨hdiv, ?_, parallel_build_none_of_small run n T M (by omega) hdiv hT hM hnT,
    ?_, ?_, by decide, by decide⟩
  · unfold sequential_build
    rw [if_pos ⟨hpos, hdiv⟩]
  · unfold sequential_progress
    rw [if_pos ⟨hpos, hdiv⟩]
  · unfold parallel_progress
    rw [if_pos ⟨hpos, hdiv⟩]

theorem progress_modulus_zero_below_ten_witness :
    Int.tdiv ((9 : Nat) : Int) 10 = 0
    ∧ sequential_build (fun s => s) ((9 : Nat) : Int) = none
    ∧ parallel_build (fun s => s) ((9 : Nat) : Int) 4 4 = none :=
  ⟨(progress_modulus_zero_below_ten (fun s => s) 9 4 4 (by decide) (by decide)
      (by decide) (by decide) (by decide)).1,
   (progress_modulus_zero_below_ten (fun s => s) 9 4 4 (by decide) (by decide)
      (by decide) (by decide) (by decide)).2.1,
   (progress_modulus_zero_below_ten (fun s => s) 9 4 4 (by decide) (by decide)
      (by decide) (by decide) (by decide)).2.2.1⟩

end topping


namespace graph

theorem resize_length (g : planar_graph) (new_cap : Nat)
    (h : g.xy_.length ≤ 2 * new_cap) :
    (g.resize new_cap).xy_.length = 2 * new_cap := by
  simp only [planar_graph.resize, List.length_take, List.length_append,
    List.length_replicate]
  omega

theorem resize_getElem (g : planar_graph) (new_cap i : Nat)
    (h : g.xy_.length ≤ 2 * new_cap) (hi : i < g.xy_.length) :
    (g.resize new_cap).xy_[i]? = g.xy_[i]? := by
  simp only [planar_graph.resize]
  rw [List.getElem?_take_of_lt (by omega), List.getElem?_append_left hi]

/-- What add_node does to a well-shaped graph with fewer than 2^31 nodes. -/
theorem add_node_spec (g : planar_graph) (x y : Int) (hwf : g.wf)
    (hk : g.nodes_sz_ < 2 ^ 31) :
    ∃ g1, g.add_node x y = some (g.nodes_sz_, g1)
      ∧ g1.nodes_sz_ = g.nodes_sz_ + 1
      ∧ g1.get_xy g.nodes_sz_ = some (x, y)
      ∧ g1.wf
      ∧ (∀ id, id < g.nodes_sz_ → g1.get_xy id = g.get_xy id) := by
  obtain ⟨hsz, hcap, hlen⟩ := hwf
  -- the graph after the optional resize
  have hg1 : ∃ g0 : planar_graph,
      (if g.nodes_cap_ = g.nodes_sz_ then
        g.resize (if g.nodes_cap_ = 0 then 1 else (g.nodes_cap_ * 2) % 2 ^ 32)
       else g) = g0
      ∧ g0.nodes_sz_ = g.nodes_sz_ ∧ g.nodes_sz_ < g0.nodes_cap_
      ∧ g0.nodes_cap_ < 2 ^ 32 ∧ g0.xy_.length = 2 * g0.nodes_cap_
      ∧ (∀ i, i < 2 * g.nodes_sz_ → g0.xy_[i]? = g.xy_[i]?) := by
    by_cases hc : g.nodes_cap_ = g.nodes_sz_
    · rw [if_pos hc]
      by_cases h0 : g.nodes_cap_ = 0
      · rw [if_pos h0]
        refine ⟨_, rfl, rfl, ?_, ?_, ?_, ?_⟩
        · show g.nodes_sz_ < 1
          omega
        · show (1 : Nat) < 2 ^ 32
          decide
        · exact resize_length g 1 (by omega)
        · intro i hi; omega
      · rw [if_neg h0]
        have hm : (g.nodes_cap_ * 2) % 2 ^ 32 = g.nodes_cap_ * 2 :=
          Nat.mod_eq_of_lt (by omega)
        rw [hm]
        refine ⟨_, rfl, rfl, ?_, ?_, ?_, ?_⟩
        · show g.nodes_sz_ < g.nodes_cap_ * 2
          omega
        · show g.nodes_cap_ * 2 < 2 ^ 32
          omega
        · exact resize_length g _ (by omega)
        · intro i hi
          exact resize_getElem g _ i (by omega) (by omega)
    · rw [if_neg hc]
      exact ⟨g, rfl, rfl, by omega, hcap, hlen, fun _ _ => rfl⟩
  obtain ⟨g0, hg0, h0sz, h0cap, h0cap2, h0len, h0get⟩ := hg1
  have hi0 : (g0.nodes_sz_ * 2) % 2 ^ 32 = g.nodes_sz_ * 2 := by
    rw [h0sz]; exact Nat.mod_eq_of_lt (by omega)
  have hi1 : (g0.nodes_sz_ * 2 + 1) % 2 ^ 32 = g.nodes_sz_ * 2 + 1 := by
    rw [h0sz]; exact Nat.mod_eq_of_lt (by omega)
  have hsz1 : (g0.nodes_sz_ + 1) % 2 ^ 32 = g.nodes_sz_ + 1 := by
    rw [h0sz]; exact Nat.mod_eq_of_lt (by omega)
  have hadd : g.add_node x y = some (g.nodes_sz_,
      { g0 with
        nodes_sz_ := g.nodes_sz_ + 1
        xy_ := (g0.xy_.set (g.nodes_sz_ * 2) x).set (g.nodes_sz_ * 2 + 1) y }) := by
    unfold planar_graph.add_node
    simp only [hg0, hi0, hi1, hsz1]
    rw [if_pos ⟨by omega, by omega⟩, h0sz]
  refine ⟨_, hadd, rfl, ?_, ⟨?_, h0cap2, ?_⟩, ?_⟩
  · unfold planar_graph.get_xy
    have hm : g.nodes_sz_ % 2 ^ 32 = g.nodes_sz_ := Nat.mod_eq_of_lt (by omega)
    have hm0 : (g.nodes_sz_ * 2) % 2 ^ 32 = g.nodes_sz_ * 2 :=
      Nat.mod_eq_of_lt (by omega)
    have hm1 : (g.nodes_sz_ * 2 + 1) % 2 ^ 32 = g.nodes_sz_ * 2 + 1 :=
      Nat.mod_eq_of_lt (by omega)
    simp only [hm, hm0, hm1]
    rw [if_pos (by omega)]
    have hl0 : g.nodes_sz_ * 2 < g0.xy_.length := by omega
    have hl1 : g.nodes_sz_ * 2 + 1 < g0.xy_.length := by omega
    simp [List.getElem?_set, hl0, hl1]
  · show g.nodes_sz_ + 1 ≤ g0.nodes_cap_
    omega
  · show ((g0.xy_.set (g.nodes_sz_ * 2) x).set (g.nodes_sz_ * 2 + 1) y).length
      = 2 * g0.nodes_cap_
    simp only [List.length_set]
    exact h0len
  · intro id hid
    unfold planar_graph.get_xy
    have hm : id % 2 ^ 32 = id := Nat.mod_eq_of_lt (by omega)
    have hm0 : (id * 2) % 2 ^ 32 = id * 2 := Nat.mod_eq_of_lt (by omega)
    have hm1 : (id * 2 + 1) % 2 ^ 32 = id * 2 + 1 := Nat.mod_eq_of_lt (by omega)
    simp only [hm, hm0, hm1]
    rw [if_pos (by omega), if_pos hid]
    simp only [List.getElem?_set]
    rw [if_neg (by omega), if_neg (by omega), if_neg (by omega),
      if_neg (by omega), h0get _ (by omega), h0get _ (by omega)]

theorem add_nodes_spec : ∀ (pts : List (Int × Int)) (g : planar_graph),
    g.wf → g.nodes_sz_ + pts.length ≤ 2 ^ 31 →
    ∃ g2, g.add_nodes pts
        = some ((List.range pts.length).map (fun i => g.nodes_sz_ + i), g2)
      ∧ g2.nodes_sz_ = g.nodes_sz_ + pts.length ∧ g2.wf := by
  intro pts
  induction pts with
  | nil => intro g hwf _; exact ⟨g, rfl, rfl, hwf⟩
  | cons p ps ih =>
    intro g hwf hlen
    simp only [List.length_cons] at hlen
    obtain ⟨g1, hadd, hsz1, _, hwf1, _⟩ := add_node_spec g p.1 p.2 hwf (by omega)
    obtain ⟨g2, hrest, hsz2, hwf2⟩ := ih g1 hwf1 (by rw [hsz1]; omega)
    refine ⟨g2, ?_, ?_, hwf2⟩
    · simp only [planar_graph.add_nodes, hadd, hrest, List.length_cons]
      rw [List.range_succ_eq_map, List.map_cons, List.map_map]
      congr 2
      rw [hsz1]
      simp only [Nat.add_zero]
      congr 1
      apply List.map_congr_left
      intro i _
      simp only [Function.comp]
      omega
    · rw [hsz2, hsz1, List.length_cons]; omega

end graph

namespace graph

/-- Claim C26. For every planar_graph of the shape resize keeps that holds
k < 2^31 nodes: add_node(x, y) returns k, afterwards get_num_nodes() is
k + 1, get_xy(k) yields (x, y), the coordinates of the nodes below k are
kept and the shape is kept, so successive add_node calls hand out
k, k + 1, k + 2, ... without gaps; get_xy on an id at or above
get_num_nodes() yields INF for both coordinates (stored in int32_t, where it
reads -1 and converts back to INF), get_node yields null, and set_xy changes
nothing. From 2^31 nodes on the uint32_t products nodes_cap_ * 2 and
index * 2 wrap: with 2^31 nodes at full capacity add_node asks resize for
capacity 0 and its write falls outside the array; with 2^31 nodes and spare
capacity it returns 2^31 but stores the coordinates at index 0, over those of
node 0, which get_xy(0) then reports; with 2^32 - 1 nodes the count wraps to
0, so that get_num_nodes() is 0 and get_xy of the id just returned yields
INF. -/
theorem add_node_ids_dense (g : planar_graph) (x y : Int) (hwf : g.wf)
    (hk : g.nodes_sz_ < 2 ^ 31) :
    (∃ g1, g.add_node x y = some (g.get_num_nodes, g1)
      ∧ g1.get_num_nodes = g.get_num_nodes + 1
      ∧ g1.get_xy g.get_num_nodes = some (x, y)
      ∧ g1.wf
      ∧ (∀ id, id < g.get_num_nodes → g1.get_xy id = g.get_xy id))
    ∧ (∀ pts : List (Int × Int), g.nodes_sz_ + pts.length ≤ 2 ^ 31 →
        ∃ g2, g.add_nodes pts
          = some ((List.range pts.length).map (fun i => g.get_num_nodes + i),
              g2))
    ∧ (∀ id, g.get_num_nodes ≤ id → id < 2 ^ 32 →
        g.get_xy id = some (to_int32 INF.toNat, to_int32 INF.toNat)
        ∧ g.get_node id = none
        ∧ g.set_xy id x y = some g)
    ∧ to_int32 INF.toNat = -1
    ∧ (-1 : Int) % 2 ^ 32 = INF
    ∧ (∀ (xy : List Int) (off : Nat) (x1 y1 : Int),
        planar_graph.add_node
          { nodes_sz_ := 2147483648, nodes_cap_ := 2147483648, xy_ := xy,
            ID_OFFSET := off } x1 y1 = none)
    ∧ (∀ (c : Nat) (x0 y0 : Int) (rest : List Int) (off : Nat) (x1 y1 : Int),
        planar_graph.add_node
          { nodes_sz_ := 2147483648, nodes_cap_ := 2147483649 + c,
            xy_ := x0 :: y0 :: rest, ID_OFFSET := off } x1 y1
          = some (2147483648,
              { nodes_sz_ := 2147483649, nodes_cap_ := 2147483649 + c,
                xy_ := x1 :: y1 :: rest, ID_OFFSET := off })
        ∧ planar_graph.get_xy
            { nodes_sz_ := 2147483649, nodes_cap_ := 2147483649 + c,
              xy_ := x1 :: y1 :: rest, ID_OFFSET := off } 0 = some (x1, y1)
        ∧ planar_graph.get_xy
            { nodes_sz_ := 2147483648, nodes_cap_ := 2147483649 + c,
              xy_ := x0 :: y0 :: rest, ID_OFFSET := off } 0 = some (x0, y0))
    ∧ (∀ (xy : List Int) (off : Nat) (x1 y1 : Int),
        xy.length = 8589934590 →
        ∃ g1, planar_graph.add_node
              { nodes_sz_ := 4294967295, nodes_cap_ := 4294967295, xy_ := xy,
                ID_OFFSET := off } x1 y1 = some (4294967295, g1)
          ∧ g1.get_num_nodes = 0
          ∧ g1.get_xy 4294967295
              = some (to_int32 INF.toNat, to_int32 INF.toNat)) := by
  refine ⟨add_node_spec g x y hwf hk, ?_, ?_, by decide, by decide, ?_, ?_,
    ?_⟩
  · intro pts hlen
    obtain ⟨g2, h, _, _⟩ := add_nodes_spec pts g hwf hlen
    exact ⟨g2, h⟩
  · intro id hid hid32
    have hm : id % 2 ^ 32 = id := Nat.mod_eq_of_lt hid32
    have hnot : ¬ id % 2 ^ 32 < g.nodes_sz_ := by
      rw [hm]
      exact Nat.not_lt.2 hid
    refine ⟨?_, ?_, ?_⟩
    · unfold planar_graph.get_xy
      rw [if_neg hnot]
    · unfold planar_graph.get_node
      rw [if_neg hnot]
    · unfold planar_graph.set_xy
      rw [if_neg hnot]
  · intro xy off x1 y1
    unfold planar_graph.add_node
    simp only [if_true]
    have h0 : ¬ ((2147483648 : Nat) = 0) := by omega
    have h1 : (2147483648 * 2) % 2 ^ 32 = 0 := by norm_num
    rw [if_neg h0, h1]
    have hlen : (planar_graph.resize
        { nodes_sz_ := 2147483648, nodes_cap_ := 2147483648, xy_ := xy,
          ID_OFFSET := off } 0).xy_ = [] := by
      simp only [planar_graph.resize, Nat.mul_zero, List.take_zero]
    rw [hlen]
    rw [if_neg (by simp)]
  · intro c x0 y0 rest off x1 y1
    have hne : ¬ (2147483649 + c = 2147483648) := by omega
    refine ⟨?_, ?_, ?_⟩
    · unfold planar_graph.add_node
      simp only [if_neg hne]
      have h1 : (2147483648 * 2) % 2 ^ 32 = 0 := by norm_num
      have h2 : (2147483648 * 2 + 1) % 2 ^ 32 = 1 := by norm_num
      have h3 : (2147483648 + 1) % 2 ^ 32 = 2147483649 := by norm_num
      rw [h1, h2, h3]
      rw [if_pos (by simp)]
      rfl
    · simp [planar_graph.get_xy]
    · simp [planar_graph.get_xy]
  · intro xy off x1 y1 hlen
    unfold planar_graph.add_node
    simp only [if_true]
    have h0 : ¬ ((4294967295 : Nat) = 0) := by omega
    have hc : (4294967295 * 2) % 2 ^ 32 = 4294967294 := by norm_num
    have h2 : (4294967295 * 2 + 1) % 2 ^ 32 = 4294967295 := by norm_num
    have h3 : (4294967295 + 1) % 2 ^ 32 = 0 := by norm_num
    rw [if_neg h0, hc]
    have hsz : (planar_graph.resize
        { nodes_sz_ := 4294967295, nodes_cap_ := 4294967295, xy_ := xy,
          ID_OFFSET := off } 4294967294).nodes_sz_ = 4294967295 := rfl
    have hl : (planar_graph.resize
        { nodes_sz_ := 4294967295, nodes_cap_ := 4294967295, xy_ := xy,
          ID_OFFSET := off } 4294967294).xy_.length = 8589934588 := by
      simp only [planar_graph.resize, List.length_take, List.length_append,
        List.length_replicate]
      omega
    rw [hsz, hc, h2, h3, hl]
    rw [if_pos ⟨by omega, by omega⟩]
    refine ⟨_, rfl, rfl, ?_⟩
    unfold planar_graph.get_xy
    have h4 : ¬ (4294967295 % 2 ^ 32 < 0) := by omega
    rw [if_neg h4]

theorem add_node_ids_dense_witness :
    (∃ g1, ({ nodes_sz_ := 0, nodes_cap_ := 0, xy_ := [], ID_OFFSET := 0 } :
          planar_graph).add_node 3 (-4)
        = some (({ nodes_sz_ := 0, nodes_cap_ := 0, xy_ := [], ID_OFFSET := 0 } :
            planar_graph).get_num_nodes, g1)
      ∧ g1.get_num_nodes
        = ({ nodes_sz_ := 0, nodes_cap_ := 0, xy_ := [], ID_OFFSET := 0 } :
            planar_graph).get_num_nodes + 1
      ∧ g1.get_xy ({ nodes_sz_ := 0, nodes_cap_ := 0, xy_ := [], ID_OFFSET := 0 } :
            planar_graph).get_num_nodes = some (3, -4))
    ∧ (({ nodes_sz_ := 0, nodes_cap_ := 0, xy_ := [], ID_OFFSET := 0 } :
          planar_graph).add_nodes [(3, -4), (5, 6), (7, 8)]).map (fun r => r.1)
        = some [0, 1, 2]
    ∧ planar_graph.add_node
        { nodes_sz_ := 2147483648, nodes_cap_ := 2147483648, xy_ := [],
          ID_OFFSET := 0 } 3 (-4) = none :=
  ⟨(add_node_ids_dense
      { nodes_sz_ := 0, nodes_cap_ := 0, xy_ := [], ID_OFFSET := 0 } 3 (-4)
      ⟨by decide, by decide, by decide⟩ (by decide)).1.imp
      (fun _ h => ⟨h.1, h.2.1, h.2.2.1⟩),
   by decide,
   (add_node_ids_dense
      { nodes_sz_ := 0, nodes_cap_ := 0, xy_ := [], ID_OFFSET := 0 } 3 (-4)
      ⟨by decide, by decide, by decide⟩ (by decide)).2.2.2.2.2.1 [] 0 3 (-4)⟩

end graph


/-- Claim C21. On graph D node 4 is generated under node 2 (f = 55, parent
2, g = COST_MAX) and pruned; in the next pass node 3 reaches it with g = 2
and, its g being COST_MAX, only g is set. At the following pop node 4 is
the node on the open list, with f = 55 although g + h = 2 + 0, and with the
recorded parent 2 although g(2) + cost(2, 4) = 10 + 45. -/
theorem open_node_keeps_stale_f_and_parent :
    ∃ st, graph_d_state 3 = some st
      ∧ st.open_ = [4]
      ∧ pqueue_min_pop st.nodes st.open_ = some (4, [])
      ∧ (st.nodes 4).f_ = 55 ∧ (st.nodes 4).g_ = 2
      ∧ (heuristic_d.h 4 query_d.target_id_).1 = 0
      ∧ (st.nodes 4).f_ ≠ (st.nodes 4).g_ + (heuristic_d.h 4 query_d.target_id_).1
      ∧ (st.nodes 4).parent_id_ = 2
      ∧ (st.nodes 2).g_ = 10 ∧ get_cost_ graph_d 2 4 = 45
      ∧ (st.nodes 4).g_
          ≠ (st.nodes (st.nodes 4).parent_id_).g_
            + get_cost_ graph_d (st.nodes 4).parent_id_ 4
      ∧ (graph_d_state 2).map (fun s =>
            (s.open_, (s.nodes 4).f_, decide ((s.nodes 4).g_ = COST_MAX),
              (s.nodes 4).parent_id_, (s.nodes 4).search_number_))
          = some ([3], 55, true, 2, 1) := by
  have hp : (graph_d_state 3).map (fun st => pqueue_min_pop st.nodes st.open_)
      = some (some (4, [])) := by decide
  have h : (graph_d_state 3).map (fun st =>
      (st.open_, (st.nodes 4).f_, (st.nodes 4).g_, (st.nodes 4).parent_id_,
        (st.nodes 2).g_))
      = some ([4], 55, 2, 2, 10) := by decide
  cases hs : graph_d_state 3 with
  | none => rw [hs] at h; simp at h
  | some st =>
    rw [hs] at h hp
    simp only [Option.map_some', Option.some.injEq, Prod.mk.injEq] at h hp
    obtain ⟨h1, h3, h4, h5, h6⟩ := h
    have h2 := hp
    refine ⟨st, rfl, h1, h2, h3, h4, by decide, ?_, h5, h6, by decide, ?_,
      by decide⟩
    · rw [h3, h4]; decide
    · rw [h5, h4, h6]; decide


namespace dimacs

theorem find_problem_line_mono (fuel : Nat) : ∀ (s : istream)
    (r : Bool × istream),
    find_problem_line fuel s = some r →
    find_problem_line (fuel + 1) s = some r := by
  induction fuel with
  | zero => intro s r h; simp [find_problem_line] at h
  | succ n ih =>
    intro s r h
    rw [find_problem_line] at h ⊢
    by_cases hg : (!s.good) = true
    · rw [if_pos hg] at h ⊢; exact h
    · rw [if_neg hg] at h ⊢
      by_cases hc : ((s.getline 1024).1).head? = some 'c'
      · rw [if_pos hc] at h ⊢; exact ih _ _ h
      · rw [if_neg hc] at h ⊢
        by_cases h1 : strstr (((s.getline 1024).1).takeWhile
            (fun c => c ≠ '\x00')) "p aux sp p2p".toList = true
        · rw [if_pos h1] at h ⊢; exact h
        · rw [if_neg h1] at h ⊢
          by_cases h2 : strstr (((s.getline 1024).1).takeWhile
              (fun c => c ≠ '\x00')) "p aux sp ss".toList = true
          · rw [if_pos h2] at h ⊢; exact h
          · rw [if_neg h2] at h ⊢; exact ih _ _ h

theorem query_loop_mono (p2p : Bool) (fuel : Nat) : ∀ (s : istream)
    (buf : List Char) (e : List experiment) (o : instance_outcome),
    query_loop p2p fuel s buf e = o → o ≠ instance_outcome.no_return →
    query_loop p2p (fuel + 1) s buf e = o := by
  induction fuel with
  | zero =>
    intro s buf e o h hne
    exact absurd h.symm hne
  | succ n ih =>
    intro s buf e o h hne
    rw [query_loop] at h ⊢
    cases hstep : query_step p2p s buf e with
    | inl o1 => rw [hstep] at h; exact h
    | inr nxt =>
      obtain ⟨s1, b1, e1⟩ := nxt
      rw [hstep] at h
      exact ih _ _ _ _ h hne

theorem load_instance_mono (fuel : Nat) (file : Option (List Char))
    (e : List experiment) (o : instance_outcome)
    (h : load_instance fuel file e = o) (hne : o ≠ instance_outcome.no_return) :
    ∀ more, fuel ≤ more → load_instance more file e = o := by
  intro more hle
  induction more, hle using Nat.le_induction with
  | base => exact h
  | succ m _ ih =>
    unfold load_instance at ih ⊢
    cases hf : find_problem_line m (istream.open_file file) with
    | none =>
      rw [hf] at ih
      exact absurd ih.symm hne
    | some r =>
      obtain ⟨p2p, s⟩ := r
      rw [hf] at ih
      rw [find_problem_line_mono m _ _ hf]
      exact query_loop_mono p2p m _ _ _ _ ih hne

theorem query_loop_stuck (p2p : Bool) (s : istream) (buf : List Char)
    (e : List experiment)
    (hstep : query_step p2p s buf e = Sum.inr (s, buf, e)) :
    ∀ fuel, query_loop p2p fuel s buf e = instance_outcome.no_return := by
  intro fuel
  induction fuel with
  | zero => rfl
  | succ n ih => rw [query_loop, hstep]; exact ih

/-- Claim C23. load_instance does not return on a problem file with a 'q'
line without source token: that branch goes back to the loop test without
reading the next line, and the same line is met again, for every amount of
fuel. An empty line passes the null pointer from strtok to strcmp, and in
p2p mode a 'q' line without target token passes it to atoi. A last 'q' line
that is not ended by a newline is read but not stored. Files whose lines are
all comments or 'q' lines with the tokens of their mode, each ended by a
newline, are loaded in full. -/
theorem load_instance_does_not_skip_malformed :
    (∀ fuel, load_instance fuel (some "p aux sp p2p\nq\nq 1 2\n".toList) []
        = instance_outcome.no_return)
    ∧ (∀ fuel, 3 ≤ fuel →
        load_instance fuel (some "p aux sp p2p\n\nq 1 2\n".toList) []
          = instance_outcome.null_strcmp)
    ∧ (∀ fuel, 3 ≤ fuel →
        load_instance fuel (some "p aux sp p2p\nq 1\n".toList) []
          = instance_outcome.null_atoi)
    ∧ (∀ fuel, 3 ≤ fuel →
        load_instance fuel (some "p aux sp p2p\nq 1 2".toList) []
          = instance_outcome.returned true [])
    ∧ (∀ fuel, 6 ≤ fuel →
        load_instance fuel
            (some "c x\np aux sp p2p\nq 1 2\nc y\nq 3 4\n".toList) []
          = instance_outcome.returned true [⟨1, 2, true⟩, ⟨3, 4, true⟩])
    ∧ (∀ fuel, 4 ≤ fuel →
        load_instance fuel (some "p aux sp ss\nq 7\nx\n".toList) []
          = instance_outcome.returned true [⟨7, INF, false⟩]) := by
  refine ⟨?_, ?_, ?_, ?_, ?_, ?_⟩
  · intro fuel
    cases fuel with
    | zero => rfl
    | succ n =>
      have hf : find_problem_line (n + 1)
          (istream.open_file (some "p aux sp p2p\nq\nq 1 2\n".toList))
          = some (true, { rest := "q\nq 1 2\n".toList, eofbit := false,
                          failbit := false }) := by
        rw [find_problem_line, if_neg (by decide), if_neg (by decide),
          if_pos (by decide)]
        decide
      unfold load_instance
      rw [hf]
      exact query_loop_stuck true _ _ _ (by decide) (n + 1)
  · exact fun fuel h => load_instance_mono 3 _ _ _ (by decide) (by decide) fuel h
  · exact fun fuel h => load_instance_mono 3 _ _ _ (by decide) (by decide) fuel h
  · exact fun fuel h => load_instance_mono 3 _ _ _ (by decide) (by decide) fuel h
  · exact fun fuel h => load_instance_mono 6 _ _ _ (by decide) (by decide) fuel h
  · exact fun fuel h => load_instance_mono 4 _ _ _ (by decide) (by decide) fuel h

end dimacs

end warthog
